import Mathlib

/-!
# Caching and request-throttling layer of the gallery backend

A shallow embedding of the Redis-backed middlewares and controllers of
`backend/` (rate limiter, cache readers, cache fillers, `scanKeys`), together
with the fragment of the JavaScript runtime they rely on (`JSON.stringify`,
`JSON.parse`, template literals, `moment`) and the Redis client they call.
-/

namespace Gallery

/-! ## JavaScript values -/

/-- A JavaScript value.  Numbers are integers (`num`, standing for the double of that value,
which is exact below `2 ^ 53`) or `NaN` (`nan`); a property list is the object's own
enumerable string-keyed properties in enumeration order.  A `Date` carries the text its
`toISOString()` gives, or `none` when it is an invalid date. -/
inductive JsVal where
  | undefined
  | null
  | bool (b : Bool)
  | num (n : Int)
  | nan
  | str (s : String)
  | regexp (source flags : String)
  | date (iso : Option String)
  | arr (xs : List JsVal)
  | obj (props : List (String × JsVal))

/-- A thrown JavaScript error. -/
structure JsError where
  name : String
  message : String
  deriving DecidableEq

def dquote : Char := Char.ofNat 34
def backslash : Char := Char.ofNat 92
def lbrace : Char := Char.ofNat 123
def rbrace : Char := Char.ofNat 125

/-! ## `JSON.stringify` -/

def hexDigit (n : Nat) : Char :=
  if n < 10 then Char.ofNat (48 + n) else Char.ofNat (87 + n)

/-- The escape `JSON.stringify` writes for one character of a string. -/
def quoteChar (c : Char) : List Char :=
  if c = dquote then [backslash, dquote]
  else if c = backslash then [backslash, backslash]
  else if c.toNat = 8 then [backslash, 'b']
  else if c.toNat = 12 then [backslash, 'f']
  else if c.toNat = 10 then [backslash, 'n']
  else if c.toNat = 13 then [backslash, 'r']
  else if c.toNat = 9 then [backslash, 't']
  else if c.toNat < 32 then
    [backslash, 'u', '0', '0', hexDigit (c.toNat / 16), hexDigit (c.toNat % 16)]
  else [c]

/-- The escaped characters of a string followed by the closing quote. -/
def quoteChars : List Char → List Char
  | [] => [dquote]
  | c :: cs => quoteChar c ++ quoteChars cs

def quote (s : String) : List Char := dquote :: quoteChars s.toList

def digitChar (d : Nat) : Char := Char.ofNat (48 + d)

def natDigitsAux : Nat → Nat → List Char → List Char
  | 0, _, acc => acc
  | fuel + 1, n, acc =>
    if n < 10 then digitChar n :: acc
    else natDigitsAux fuel (n / 10) (digitChar (n % 10) :: acc)

/-- Decimal digits of a natural number. -/
def natDigits (n : Nat) : List Char := natDigitsAux (n + 1) n []

def intDigits (n : Int) : List Char :=
  if n < 0 then '-' :: natDigits n.natAbs else natDigits n.natAbs

mutual
/-- The JSON text of a value in a position where a value is always written (an array element
or the value of a kept property): `undefined` and `NaN` are written `null`, a `RegExp` has no
enumerable property and is written as the empty object, a `Date` is written through `toJSON`. -/
def render : JsVal → List Char
  | .undefined => ['n', 'u', 'l', 'l']
  | .null => ['n', 'u', 'l', 'l']
  | .bool true => ['t', 'r', 'u', 'e']
  | .bool false => ['f', 'a', 'l', 's', 'e']
  | .num n => intDigits n
  | .nan => ['n', 'u', 'l', 'l']
  | .str s => quote s
  | .regexp _ _ => [lbrace, rbrace]
  | .date none => ['n', 'u', 'l', 'l']
  | .date (some iso) => quote iso
  | .arr [] => ['[', ']']
  | .arr (x :: xs) => '[' :: (render x ++ renderElems xs)
  | .obj ps => lbrace :: renderProps true ps
/-- The remaining elements of an array, each after a comma, then the closing bracket. -/
def renderElems : List JsVal → List Char
  | [] => [']']
  | x :: xs => ',' :: (render x ++ renderElems xs)
/-- The properties of an object, those whose value is `undefined` left out, then the closing
brace; `first` tells that no property has been written yet. -/
def renderProps (first : Bool) : List (String × JsVal) → List Char
  | [] => [rbrace]
  | (_, .undefined) :: ps => renderProps first ps
  | (k, v) :: ps =>
    (if first then [] else [',']) ++ (quote k ++ ':' :: (render v ++ renderProps false ps))
end

/-- Models `JSON.stringify(v)`: `none` stands for the result `undefined`. -/
def JSON.stringify : JsVal → Option String
  | .undefined => none
  | v => some (String.mk (render v))

/-! ## `JSON.parse` -/

/-- Result of a parsing step: a value and the remaining text, a `SyntaxError`, or a text
that leaves the modelled fragment (a number with a fraction or an exponent, a surrogate
escape, an object with a repeated key or with an index-like key). -/
inductive PRes (α : Type) where
  | ok (a : α) (rest : List Char)
  | syntaxError
  | unmodelled

def isWs (c : Char) : Bool := c.toNat = 32 || c.toNat = 9 || c.toNat = 10 || c.toNat = 13

def skipWs : List Char → List Char
  | [] => []
  | c :: cs => if isWs c then skipWs cs else c :: cs

def isDigit (c : Char) : Bool := 48 ≤ c.toNat && c.toNat ≤ 57

def hexVal (c : Char) : Option Nat :=
  if 48 ≤ c.toNat ∧ c.toNat ≤ 57 then some (c.toNat - 48)
  else if 97 ≤ c.toNat ∧ c.toNat ≤ 102 then some (c.toNat - 87)
  else if 65 ≤ c.toNat ∧ c.toNat ≤ 70 then some (c.toNat - 55)
  else none

def hex4 (a b c d : Char) : Option Nat :=
  match hexVal a, hexVal b, hexVal c, hexVal d with
  | some x, some y, some z, some w => some (((x * 16 + y) * 16 + z) * 16 + w)
  | _, _, _, _ => none

/-- Reads a string literal after its opening quote; `acc` holds the characters read so far,
last one first. -/
def parseChars : Nat → List Char → List Char → PRes String
  | 0, _, _ => .unmodelled
  | _ + 1, [], _ => .syntaxError
  | fuel + 1, c :: cs, acc =>
    if c = dquote then .ok (String.mk acc.reverse) cs
    else if c = backslash then
      match cs with
      | [] => .syntaxError
      | e :: cs1 =>
        if e = dquote then parseChars fuel cs1 (dquote :: acc)
        else if e = backslash then parseChars fuel cs1 (backslash :: acc)
        else if e = '/' then parseChars fuel cs1 ('/' :: acc)
        else if e = 'b' then parseChars fuel cs1 (Char.ofNat 8 :: acc)
        else if e = 'f' then parseChars fuel cs1 (Char.ofNat 12 :: acc)
        else if e = 'n' then parseChars fuel cs1 (Char.ofNat 10 :: acc)
        else if e = 'r' then parseChars fuel cs1 (Char.ofNat 13 :: acc)
        else if e = 't' then parseChars fuel cs1 (Char.ofNat 9 :: acc)
        else if e = 'u' then
          match cs1 with
          | h1 :: h2 :: h3 :: h4 :: cs2 =>
            match hex4 h1 h2 h3 h4 with
            | none => .syntaxError
            | some n =>
              if 0xD800 ≤ n ∧ n ≤ 0xDFFF then .unmodelled
              else parseChars fuel cs2 (Char.ofNat n :: acc)
          | _ => .syntaxError
        else .syntaxError
    else if c.toNat < 32 then .syntaxError
    else parseChars fuel cs (c :: acc)

def parseDigits : List Char → Nat → Nat × List Char
  | [], acc => (acc, [])
  | c :: cs, acc =>
    if isDigit c then parseDigits cs (acc * 10 + (c.toNat - 48)) else (acc, c :: cs)

/-- Whether the text after an integer part goes on with a fraction or an exponent. -/
def startsFraction : List Char → Bool
  | c :: _ => c = '.' || c = 'e' || c = 'E'
  | [] => false

/-- Reads the digits of a number, after the optional sign. -/
def parseNat : List Char → PRes Nat
  | [] => .syntaxError
  | c :: cs =>
    if c = '0' then
      match cs with
      | d :: _ =>
        if isDigit d then .syntaxError
        else if startsFraction cs then .unmodelled else .ok 0 cs
      | [] => .ok 0 []
    else if isDigit c then
      if startsFraction (parseDigits (c :: cs) 0).2 then .unmodelled
      else .ok (parseDigits (c :: cs) 0).1 (parseDigits (c :: cs) 0).2
    else .syntaxError

/-- A non-empty key made of digits only: such a key may be an array index, which an object
enumerates before its other keys. -/
def indexLike (k : String) : Bool := !k.toList.isEmpty && k.toList.all isDigit

/-- Expects the given characters. -/
def expect : List Char → List Char → Option (List Char)
  | [], cs => some cs
  | _ :: _, [] => none
  | e :: es, c :: cs => if c = e then expect es cs else none

mutual
def parseValue : Nat → List Char → PRes JsVal
  | 0, _ => .unmodelled
  | fuel + 1, cs =>
    match skipWs cs with
    | [] => .syntaxError
    | c :: r =>
      if c = 'n' then
        match expect ['u', 'l', 'l'] r with
        | some r1 => .ok .null r1
        | none => .syntaxError
      else if c = 't' then
        match expect ['r', 'u', 'e'] r with
        | some r1 => .ok (.bool true) r1
        | none => .syntaxError
      else if c = 'f' then
        match expect ['a', 'l', 's', 'e'] r with
        | some r1 => .ok (.bool false) r1
        | none => .syntaxError
      else if c = dquote then
        match parseChars (r.length + 1) r [] with
        | .ok s r1 => .ok (.str s) r1
        | .syntaxError => .syntaxError
        | .unmodelled => .unmodelled
      else if c = '[' then
        match skipWs r with
        | [] => .syntaxError
        | d :: r1 =>
          if d = ']' then .ok (.arr []) r1
          else
            match parseElems fuel r with
            | .ok xs r2 => .ok (.arr xs) r2
            | .syntaxError => .syntaxError
            | .unmodelled => .unmodelled
      else if c = lbrace then
        match skipWs r with
        | [] => .syntaxError
        | d :: r1 =>
          if d = rbrace then .ok (.obj []) r1
          else
            match parseProps fuel r with
            | .ok ps r2 => .ok (.obj ps) r2
            | .syntaxError => .syntaxError
            | .unmodelled => .unmodelled
      else if c = '-' then
        match parseNat r with
        | .ok n r1 => .ok (.num (- (n : Int))) r1
        | .syntaxError => .syntaxError
        | .unmodelled => .unmodelled
      else
        match parseNat (c :: r) with
        | .ok n r1 => .ok (.num (n : Int)) r1
        | .syntaxError => .syntaxError
        | .unmodelled => .unmodelled
/-- The elements of a non-empty array up to the closing bracket. -/
def parseElems : Nat → List Char → PRes (List JsVal)
  | 0, _ => .unmodelled
  | fuel + 1, cs =>
    match parseValue fuel cs with
    | .ok v r =>
      match skipWs r with
      | [] => .syntaxError
      | d :: r1 =>
        if d = ']' then .ok [v] r1
        else if d = ',' then
          match parseElems fuel r1 with
          | .ok vs r2 => .ok (v :: vs) r2
          | .syntaxError => .syntaxError
          | .unmodelled => .unmodelled
        else .syntaxError
    | .syntaxError => .syntaxError
    | .unmodelled => .unmodelled
/-- The properties of a non-empty object up to the closing brace. -/
def parseProps : Nat → List Char → PRes (List (String × JsVal))
  | 0, _ => .unmodelled
  | fuel + 1, cs =>
    match skipWs cs with
    | [] => .syntaxError
    | q :: r =>
      if q = dquote then
        match parseChars (r.length + 1) r [] with
        | .ok k r1 =>
          match skipWs r1 with
          | [] => .syntaxError
          | col :: r2 =>
            if col = ':' then
              match parseValue fuel r2 with
              | .ok v r3 =>
                match skipWs r3 with
                | [] => .syntaxError
                | d :: r4 =>
                  if d = rbrace then
                    if indexLike k then .unmodelled else .ok [(k, v)] r4
                  else if d = ',' then
                    match parseProps fuel r4 with
                    | .ok ps r5 =>
                      if indexLike k || ps.any (fun p => p.1 == k) then .unmodelled
                      else .ok ((k, v) :: ps) r5
                    | .syntaxError => .syntaxError
                    | .unmodelled => .unmodelled
                  else .syntaxError
              | .syntaxError => .syntaxError
              | .unmodelled => .unmodelled
            else .syntaxError
        | .syntaxError => .syntaxError
        | .unmodelled => .unmodelled
      else .syntaxError
end

/-- Outcome of `JSON.parse`. -/
inductive Parsed where
  | value (v : JsVal)
  | syntaxError
  | unmodelled

/-- Models `JSON.parse(text)`. -/
def JSON.parse (text : String) : Parsed :=
  match parseValue (text.length + 1) text.toList with
  | .ok v rest => if skipWs rest = [] then .value v else .syntaxError
  | .syntaxError => .syntaxError
  | .unmodelled => .unmodelled

mutual
/-- What `JSON.parse(JSON.stringify(v))` holds for a value `v` written where a value is
always written. -/
def jsonify : JsVal → JsVal
  | .undefined => .null
  | .null => .null
  | .bool b => .bool b
  | .num n => .num n
  | .nan => .null
  | .str s => .str s
  | .regexp _ _ => .obj []
  | .date none => .null
  | .date (some iso) => .str iso
  | .arr xs => .arr (jsonifyElems xs)
  | .obj ps => .obj (jsonifyProps ps)
def jsonifyElems : List JsVal → List JsVal
  | [] => []
  | x :: xs => jsonify x :: jsonifyElems xs
def jsonifyProps : List (String × JsVal) → List (String × JsVal)
  | [] => []
  | (_, .undefined) :: ps => jsonifyProps ps
  | (k, v) :: ps => (k, jsonify v) :: jsonifyProps ps
end

mutual
/-- The objects inside a value have pairwise distinct keys, none of them index-like: the
objects whose enumeration order is their insertion order. -/
def WellKeyed : JsVal → Prop
  | .arr xs => WellKeyedElems xs
  | .obj ps => WellKeyedProps ps
  | _ => True
def WellKeyedElems : List JsVal → Prop
  | [] => True
  | x :: xs => WellKeyed x ∧ WellKeyedElems xs
def WellKeyedProps : List (String × JsVal) → Prop
  | [] => True
  | (k, v) :: ps =>
    indexLike k = false ∧ (∀ p ∈ ps, p.1 ≠ k) ∧ WellKeyed v ∧ WellKeyedProps ps
end

/-- The text that follows a number does not go on with a digit, a fraction or an exponent. -/
def EndsNumber (rest : List Char) : Prop :=
  ∀ c r, rest = c :: r → isDigit c = false ∧ startsFraction (c :: r) = false

mutual
/-- A bound on the nesting fuel that reading back the text of a value takes. -/
def fuelOf : JsVal → Nat
  | .arr xs => 1 + fuelOfElems xs
  | .obj ps => 1 + fuelOfProps ps
  | _ => 1
def fuelOfElems : List JsVal → Nat
  | [] => 0
  | x :: xs => 1 + fuelOf x + fuelOfElems xs
def fuelOfProps : List (String × JsVal) → Nat
  | [] => 0
  | (_, .undefined) :: ps => fuelOfProps ps
  | (_, v) :: ps => 1 + fuelOf v + fuelOfProps ps
end

/-! ## Truthiness and property access -/

/-- Models `ToBoolean`: the values a condition takes as true. -/
def JsVal.truthy : JsVal → Bool
  | .undefined => false
  | .null => false
  | .bool b => b
  | .num n => n != 0
  | .nan => false
  | .str s => s != ""
  | _ => true

/-- Models `v === text` for a string `text`. -/
def JsVal.strictEqStr : JsVal → String → Bool
  | .str s, text => s == text
  | _, _ => false

/-- Models `v !== n` for a number `n`. -/
def JsVal.strictNeNum : JsVal → Int → Bool
  | .num m, n => m != n
  | _, _ => true

/-- The value of an own property of an object, `undefined` when the object has none. -/
def getField (ps : List (String × JsVal)) (k : String) : JsVal :=
  match ps.lookup k with
  | some v => v
  | none => .undefined

/-- Assignment to a property: an existing property keeps its place, a new one (not
index-like) is enumerated last. -/
def setField : List (String × JsVal) → String → JsVal → List (String × JsVal)
  | [], k, v => [(k, v)]
  | (k1, v1) :: ps, k, v => if k1 = k then (k, v) :: ps else (k1, v1) :: setField ps k v

/-- Result of an expression: a value, a thrown error, or an input outside the modelled
fragment of JavaScript (a coercion of a string, an array or an object to a number, a
property read through a prototype). -/
inductive JsRes (α : Type) where
  | ok (a : α)
  | throw (e : JsError)
  | unmodelled

def typeError (message : String) : JsError := ⟨"TypeError", message⟩
def syntaxError (message : String) : JsError := ⟨"SyntaxError", message⟩
def referenceError (message : String) : JsError := ⟨"ReferenceError", message⟩

/-- Models `v.k` for a value `v` that came out of `JSON.parse`. -/
def getProp (v : JsVal) (k : String) : JsRes JsVal :=
  match v with
  | .obj ps => .ok (getField ps k)
  | .null => .throw (typeError ("Cannot read properties of null (reading " ++ k ++ ")"))
  | .undefined =>
    .throw (typeError ("Cannot read properties of undefined (reading " ++ k ++ ")"))
  | _ => .unmodelled

/-- Models `ToNumber` on the values that need no text conversion: `none` for `NaN`. -/
def toNumber : JsVal → JsRes (Option Int)
  | .num n => .ok (some n)
  | .nan => .ok none
  | .undefined => .ok none
  | .null => .ok (some 0)
  | .bool b => .ok (some (if b then 1 else 0))
  | _ => .unmodelled

/-- Models `v > n` for a number `n`: a comparison with `NaN` is false. -/
def gtNum (v : JsVal) (n : Int) : JsRes Bool :=
  match toNumber v with
  | .ok (some m) => .ok (decide (m > n))
  | .ok none => .ok false
  | .throw e => .throw e
  | .unmodelled => .unmodelled

/-- Models `acc + v` for a number `acc` (`none` is `NaN`); adding a string, an array or an object
would concatenate text and is outside the model. -/
def addNum (acc : Option Int) (v : JsVal) : JsRes (Option Int) :=
  match v with
  | .str _ => .unmodelled
  | _ =>
    match toNumber v with
    | .ok (some m) => .ok (acc.map (· + m))
    | .ok none => .ok none
    | .throw e => .throw e
    | .unmodelled => .unmodelled

/-- Models `total >= n` for a number `n`: false for `NaN`. -/
def geNum (total : Option Int) (n : Int) : Bool :=
  match total with
  | some m => decide (m ≥ n)
  | none => false

/-- Models `JSON.parse(text)` as an expression: a malformed text throws a `SyntaxError`. -/
def jsonParse (text : String) : JsRes JsVal :=
  match JSON.parse text with
  | .value v => .ok v
  | .syntaxError => .throw (syntaxError "Unexpected token in JSON")
  | .unmodelled => .unmodelled

/-- The text a template literal puts for `JSON.stringify(v)`. -/
def stringifyText (v : JsVal) : String :=
  match JSON.stringify v with
  | some text => text
  | none => "undefined"

/-- The text a template literal puts for an object: `Object.prototype.toString`. -/
def objectText (_ : List (String × JsVal)) : String := "[object Object]"

/-- The text a template literal puts for an integer. -/
def intText (n : Int) : String := String.mk (intDigits n)

/-! ## `moment` -/

/-- A `moment` object: an instant in milliseconds since the epoch. -/
structure Moment where
  ms : Int
  deriving DecidableEq

/-- Models `m.subtract(h, "hours")`: the receiver itself is moved back and returned. -/
def Moment.subtractHours (m : Moment) (h : Int) : Moment := ⟨m.ms - h * 3600000⟩

/-- Models `m.unix()`: whole seconds since the epoch, rounded down. -/
def Moment.unix (m : Moment) : Int := m.ms / 1000

/-! ## The Redis client -/

/-- Options of `SET`: `EX` seconds to live, `NX` set only if the key does not exist. -/
structure SetOptions where
  EX : Option Nat := none
  NX : Bool := false
  deriving DecidableEq

/-- Reply of `SCAN` as the caller destructures it: `keys` is `none` when the reply has no
such property. -/
structure ScanReply where
  cursor : JsVal
  keys : Option (List String)

/-- The commands the backend sends through `redisClient`, over a store state `σ`.  A command
either fails (the promise rejects) or yields its reply and the store it leaves. -/
structure RedisClient (σ : Type) where
  get : σ → String → Except JsError (Option String)
  set : σ → String → String → SetOptions → Except JsError σ
  del : σ → List String → Except JsError σ
  scan : σ → JsVal → List JsVal → Except JsError ScanReply

/-- A stored string with the time to live it was written with and the rank of its key in
the order of creation. -/
structure Stored where
  value : String
  ttl : Option Nat
  rank : Nat
  deriving DecidableEq

/-- An in-memory store: the keys, each once and in the order of their creation, with their
values, and the rank the next new key gets (ranks start at 1).  Expiry does not fire during
a modelled run. -/
structure MemStore where
  entries : List (String × Stored)
  nextRank : Nat
  deriving DecidableEq

def MemStore.get (s : MemStore) (k : String) : Option String :=
  (s.entries.lookup k).map (·.value)

/-- Overwrites the value of a key that exists (it keeps its rank), or adds the key last. -/
def upsert : List (String × Stored) → String → String → Option Nat → Nat →
    List (String × Stored)
  | [], k, v, ttl, rank => [(k, ⟨v, ttl, rank⟩)]
  | (k1, v1) :: es, k, v, ttl, rank =>
    if k1 = k then (k, ⟨v, ttl, v1.rank⟩) :: es else (k1, v1) :: upsert es k v ttl rank

/-- Models `SET key value [EX seconds] [NX]`. -/
def MemStore.set (s : MemStore) (k v : String) (o : SetOptions) : MemStore :=
  if (s.entries.lookup k).isSome then
    if o.NX then s else ⟨upsert s.entries k v o.EX s.nextRank, s.nextRank⟩
  else ⟨upsert s.entries k v o.EX s.nextRank, s.nextRank + 1⟩

/-- Models `DEL key [key ...]`. -/
def MemStore.del (s : MemStore) (ks : List String) : MemStore :=
  ⟨s.entries.filter (fun e => !ks.contains e.1), s.nextRank⟩

/-- Whether some suffix of the text satisfies `f`. -/
def anySuffix (f : List Char → Bool) : List Char → Bool
  | [] => f []
  | c :: t => f (c :: t) || anySuffix f t

/-- Glob matching with `*` (any run of characters) and `?` (any one character); character
classes and escapes are not modelled. -/
def globMatch : List Char → List Char → Bool
  | [], t => t.isEmpty
  | p :: ps, t =>
    if p = '*' then anySuffix (globMatch ps) t
    else
      match t with
      | [] => false
      | c :: cs => (p = '?' || p = c) && globMatch ps cs

/-- Number of keys one `SCAN` call examines. -/
def scanCount : Nat := 10

/-- The rank a cursor argument stands for: the number itself or its decimal text. -/
def cursorRank : JsVal → Option Nat
  | .num n => if 0 ≤ n then some n.toNat else none
  | .str s =>
    match parseNat s.toList with
    | .ok n [] => some n
    | _ => none
  | _ => none

/-- Models `SCAN cursor MATCH pattern`: examines the next `scanCount` keys from the rank the cursor
stands for, returns those that match and, as a number, the rank to resume from, `0` once the
keyspace is covered.  A key that is present during a whole scan is examined exactly once,
whatever is deleted meanwhile. -/
def MemStore.scan (s : MemStore) (cursor : JsVal) (args : List JsVal) :
    Except JsError ScanReply :=
  match cursorRank cursor, args with
  | some rank, [.str "MATCH", .str glob] =>
    let pending := s.entries.filter (fun e => decide (rank ≤ e.2.rank))
    let batch := (pending.take scanCount).map (·.1)
    let resume :=
      match pending.drop scanCount with
      | [] => 0
      | e :: _ => e.2.rank
    .ok ⟨.num resume, some (batch.filter (fun k => globMatch glob.toList k.toList))⟩
  | _, _ => .error ⟨"ErrorReply", "ERR invalid cursor"⟩

/-- The store with nothing in it. -/
def MemStore.empty : MemStore := ⟨[], 1⟩

/-- The client of a store that is reachable: no command fails. -/
def memClient : RedisClient MemStore where
  get := fun s k => .ok (s.get k)
  set := fun s k v o => .ok (s.set k v o)
  del := fun s ks => .ok (s.del ks)
  scan := fun s c args => s.scan c args

/-! ## Requests, effects and handlers -/

/-- What a handler reads of the request; `id` is `req.params.id`. -/
structure Request where
  method : String
  originalUrl : String
  ip : String
  query : List (String × JsVal)
  id : String

/-- What a handler does besides store commands, in order. -/
inductive Effect where
  | next (error : Option JsError)
  | respond (status : Nat) (body : JsVal)
  | log (line : String)

/-- The state a handler runs in: the store, the request (handlers assign to `req.query`)
and the effects so far. -/
structure HState (σ : Type) where
  store : σ
  req : Request
  effects : List Effect

/-- Result of running a piece of a handler: a value, a thrown error (both with the state
reached), an input outside the modelled fragment, or a loop that is still running when the
fuel is spent. -/
inductive HResult (σ α : Type) where
  | ok (a : α) (st : HState σ)
  | throw (e : JsError) (st : HState σ)
  | unmodelled
  | running

def Handler (σ α : Type) : Type := HState σ → HResult σ α

def Handler.pure (a : α) : Handler σ α := fun st => .ok a st

def Handler.bind (m : Handler σ α) (f : α → Handler σ β) : Handler σ β := fun st =>
  match m st with
  | .ok a st1 => f a st1
  | .throw e st1 => .throw e st1
  | .unmodelled => .unmodelled
  | .running => .running

instance : Monad (Handler σ) where
  pure := Handler.pure
  bind := Handler.bind

/-- Models `try { body } catch (error) { handler(error) }`. -/
def tryCatch (body : Handler σ α) (handler : JsError → Handler σ α) : Handler σ α := fun st =>
  match body st with
  | .throw e st1 => handler e st1
  | r => r

def throwJs (e : JsError) : Handler σ α := fun st => .throw e st

def liftRes : JsRes α → Handler σ α
  | .ok a => fun st => .ok a st
  | .throw e => fun st => .throw e st
  | .unmodelled => fun _ => .unmodelled

def emit (e : Effect) : Handler σ Unit := fun st =>
  .ok () { st with effects := st.effects ++ [e] }

/-- The `next` callback of the middleware chain. -/
def next (error : Option JsError) : Handler σ Unit := emit (.next error)

/-- Models `res.status(status).json(body)`; `res.send(body)` answers with status 200. -/
def respond (status : Nat) (body : JsVal) : Handler σ Unit := emit (.respond status body)

def getReq : Handler σ Request := fun st => .ok st.req st

/-- Assignment to a property of `req.query`. -/
def setQueryField (k : String) (v : JsVal) : Handler σ Unit := fun st =>
  .ok () { st with req := { st.req with query := setField st.req.query k v } }

/-- Models `req.query = query`. -/
def setQuery (query : List (String × JsVal)) : Handler σ Unit := fun st =>
  .ok () { st with req := { st.req with query := query } }

def redisGet (c : RedisClient σ) (k : String) : Handler σ (Option String) := fun st =>
  match c.get st.store k with
  | .ok v => .ok v st
  | .error e => .throw e st

def redisSet (c : RedisClient σ) (k v : String) (o : SetOptions) : Handler σ Unit := fun st =>
  match c.set st.store k v o with
  | .ok s => .ok () { st with store := s }
  | .error e => .throw e st

def redisDel (c : RedisClient σ) (ks : List String) : Handler σ Unit := fun st =>
  match c.del st.store ks with
  | .ok s => .ok () { st with store := s }
  | .error e => .throw e st

def redisScan (c : RedisClient σ) (cursor : JsVal) (args : List JsVal) :
    Handler σ ScanReply := fun st =>
  match c.scan st.store cursor args with
  | .ok r => .ok r st
  | .error e => .throw e st

/-- A promise of the document store: the data, or a rejection. -/
def awaitDb (r : Except JsError α) : Handler σ α := fun st =>
  match r with
  | .ok a => .ok a st
  | .error e => .throw e st

def JsRes.bind : JsRes α → (α → JsRes β) → JsRes β
  | .ok a, f => f a
  | .throw e, _ => .throw e
  | .unmodelled, _ => .unmodelled

/-- The text a template literal puts for a value. -/
def templateText : JsVal → JsRes String
  | .undefined => .ok "undefined"
  | .null => .ok "null"
  | .bool true => .ok "true"
  | .bool false => .ok "false"
  | .num n => .ok (intText n)
  | .nan => .ok "NaN"
  | .str s => .ok s
  | .regexp source flags => .ok ("/" ++ source ++ "/" ++ flags)
  | .obj _ => .ok "[object Object]"
  | .date _ => .unmodelled
  | .arr _ => .unmodelled

/-! ## `middlewares/logging.js` -/

/-- Models `errorLogger(err, req, res, next)`: writes one line to the error log, then calls
`next` when it was given one. -/
def errorLogger (err : List (String × JsVal)) (req : Request)
    (nextFn : Option (Option JsError → Handler σ Unit)) : Handler σ Unit := do
  let statusCode :=
    if (getField err "statusCode").truthy then getField err "statusCode" else .num 500
  let message :=
    if (getField err "message").truthy then getField err "message"
    else .str "Internal Server Error"
  let statusText ← liftRes (templateText statusCode)
  let messageText ← liftRes (templateText message)
  emit (.log (req.method ++ "::" ++ req.originalUrl ++ "::" ++ statusText ++ " - source: "
    ++ req.ip ++ " => " ++ messageText))
  match nextFn with
  | some f => f none
  | none => pure ()

/-! ## `middlewares/rateLimiter.js` -/

def WINDOW_SIZE_IN_HOURS : Int := 24
def MAX_WINDOW_REQUEST_COUNT : Int := 5
def WINDOW_LOG_INTERVAL_IN_HOURS : Int := 1

/-- The message of a rejection. -/
def limitMessage : String :=
  "You have exceeded the " ++ intText MAX_WINDOW_REQUEST_COUNT ++ " requests in "
    ++ intText WINDOW_SIZE_IN_HOURS ++ " hrs limit!"

/-- Models `data.filter((entry) => entry.requestTimeStamp > windowStartTimestamp)` on the
elements of an array. -/
def filterWithinWindow (windowStartTimestamp : Int) : List JsVal → JsRes (List JsVal)
  | [] => .ok []
  | entry :: rest =>
    (getProp entry "requestTimeStamp").bind fun stamp =>
    (gtNum stamp windowStartTimestamp).bind fun keep =>
    (filterWithinWindow windowStartTimestamp rest).bind fun kept =>
    .ok (if keep then entry :: kept else kept)

/-- Models the sum `requestsWithinWindow.reduce((accumulator, entry) => accumulator +
entry.requestCount, 0)`, from the accumulator `acc` on. -/
def sumRequestCounts (acc : Option Int) : List JsVal → JsRes (Option Int)
  | [] => .ok acc
  | entry :: rest =>
    (getProp entry "requestCount").bind fun count =>
    (addNum acc count).bind fun acc1 =>
    sumRequestCounts acc1 rest

/-- Models `x.filter(...)` for a parsed value `x`: only an array has the method. -/
def asArray : JsVal → JsRes (List JsVal)
  | .arr xs => .ok xs
  | .null => .throw (typeError "Cannot read properties of null (reading filter)")
  | _ => .throw (typeError "data.filter is not a function")

/-- Models `data[data.length - 1]`. -/
def lastOf (data : List JsVal) : JsVal :=
  match data.getLast? with
  | some v => v
  | none => .undefined

/-- Models `lastRequestLog.requestCount++`, the last element of `data` being the object with
the properties `props`. -/
def incrementLast (data : List JsVal) (props : List (String × JsVal)) : JsRes (List JsVal) :=
  (toNumber (getField props "requestCount")).bind fun old =>
  .ok (data.dropLast ++ [.obj (setField props "requestCount"
    (match old with
     | some n => .num (n + 1)
     | none => .nan))])

/-- The rate limiter.  `clock1` and `clock2` are the instants the two calls of `moment()`
return. -/
def customRedisRateLimiter (redisClient : Option (RedisClient σ)) (clock1 clock2 : Moment) :
    Handler σ Unit :=
  tryCatch (do
    let req ← getReq
    match redisClient with
    | none => throwJs ⟨"Error", "Redis client does not exist!"⟩
    | some redisClient =>
      let record ← redisGet redisClient req.ip
      let currentRequestTime := clock1
      match record with
      | none =>
        let newRecord := JsVal.arr [.obj [("requestTimeStamp", .num currentRequestTime.unix),
          ("requestCount", .num 1)]]
        redisSet redisClient req.ip (stringifyText newRecord) {}
        next none
      | some record =>
        let parsed ← liftRes (jsonParse record)
        let windowStartTimestamp := (clock2.subtractHours WINDOW_SIZE_IN_HOURS).unix
        let data ← liftRes (asArray parsed)
        let requestsWithinWindow ← liftRes (filterWithinWindow windowStartTimestamp data)
        let totalWindowRequestsCount ← liftRes (sumRequestCounts (some 0) requestsWithinWindow)
        if geNum totalWindowRequestsCount MAX_WINDOW_REQUEST_COUNT then
          errorLogger [("statusCode", .num 429), ("message", .str limitMessage)] req (some next)
          respond 429 (.obj [("message", .str limitMessage)])
        else
          let lastRequestLog := lastOf data
          -- `subtract` moves `currentRequestTime` itself back
          let currentRequestTime := currentRequestTime.subtractHours WINDOW_LOG_INTERVAL_IN_HOURS
          let potentialCurrentWindowIntervalStartTimeStamp := currentRequestTime.unix
          let lastStamp ← liftRes (getProp lastRequestLog "requestTimeStamp")
          let within ← liftRes (gtNum lastStamp potentialCurrentWindowIntervalStartTimeStamp)
          let data ←
            if within then
              match lastRequestLog with
              | .obj props => liftRes (incrementLast data props)
              | _ => liftRes .unmodelled
            else
              pure (data ++ [.obj [("requestTimeStamp", .num currentRequestTime.unix),
                ("requestCount", .num 1)]])
          redisSet redisClient req.ip (stringifyText (.arr data)) {}
          next none)
    (fun error => next (some error))

/-! ## `utils/index.js` -/

/-- The `do ... while` loop of `scanKeys`, `fuel` bounding the number of rounds. -/
def scanKeysLoop (redisClient : RedisClient σ) (glob : String) :
    Nat → JsVal → Handler σ Unit
  | 0, _ => fun _ => .running
  | fuel + 1, newCursor => do
    let reply ← redisScan redisClient newCursor [.str "MATCH", .str glob]
    match reply.keys with
    | none => emit (.log "scan reply does not have expected properties")
    | some keys =>
      if !reply.cursor.truthy then
        emit (.log "scan reply does not have expected properties")
      else
        let newCursor := reply.cursor
        if keys.length > 0 then
          redisDel redisClient keys
        if newCursor.strictNeNum 0 then
          scanKeysLoop redisClient glob fuel newCursor

/-- Models `scanKeys(cursor, glob)`. -/
def scanKeys (redisClient : RedisClient σ) (fuel : Nat) (cursor : JsVal) (glob : String) :
    Handler σ Unit :=
  scanKeysLoop redisClient glob fuel cursor

/-! ## `middlewares/eventCache.js` -/

/-- The constructors the query conversion calls: `Number(v)`, `new RegExp(v, flags)` (which
throws on a malformed pattern) and `new Date(v)`. -/
structure Builtins where
  number : JsVal → JsVal
  newRegExp : JsVal → String → JsRes JsVal
  newDate : JsVal → JsVal

/-- Models `if (query.k) query.k = f(query.k)`. -/
def convertField (k : String) (f : JsVal → JsRes JsVal) : Handler σ Unit := do
  let req ← getReq
  if (getField req.query k).truthy then
    let v ← liftRes (f (getField req.query k))
    setQueryField k v

/-- The body of a successful response. -/
def successBody (fromCache : Bool) (field : String) (data : JsVal) : JsVal :=
  .obj [("fromCache", .bool fromCache), ("message", .str "Successful"), (field, data)]

/-- The conversion of the query parameters to the types of the schema, each an assignment to
a property of `req.query`. -/
def convertQuery (B : Builtins) : Handler σ Unit := do
  convertField "isFeatured" (fun v => .ok (.bool (v.strictEqStr "true")))
  convertField "isFree" (fun v => .ok (.bool (v.strictEqStr "true")))
  convertField "isOnline" (fun v => .ok (.bool (v.strictEqStr "true")))
  convertField "price" (fun v => .ok (B.number v))
  convertField "title" (fun v => (B.newRegExp v "i").bind fun r => .ok (.obj [("$regex", r)]))
  convertField "description"
    (fun v => (B.newRegExp v "i").bind fun r => .ok (.obj [("$regex", r)]))
  convertField "startDate" (fun v => .ok (.obj [("$gte", B.newDate v)]))
  convertField "endDate" (fun v => .ok (.obj [("$lte", B.newDate v)]))

/-- The cache key of an events query: the text of `JSON.stringify(query)` after the prefix
`api-v1-events-`. -/
def eventsCacheKey (query : List (String × JsVal)) : String :=
  "api-v1-events-" ++ stringifyText (.obj query)

def getEventsCacheData (B : Builtins) (redisClient : RedisClient σ) : Handler σ Unit :=
  tryCatch (do
    convertQuery B
    let req ← getReq
    let query := req.query
    let cacheKey := eventsCacheKey query
    let event ← redisGet redisClient cacheKey
    match event with
    | some event =>
      if event != "" then
        let eventResponse ← liftRes (jsonParse event)
        respond 200 (successBody true "data" eventResponse)
      else
        setQuery query
        next none
    | none =>
      setQuery query
      next none)
    (fun error => next (some error))

/-! ## `controllers/events.js` -/

/-- The options of every cache fill: two days to live, set only if absent. -/
def cacheFillOptions : SetOptions := { EX := some 172800, NX := true }

/-- Models `getEvents`; `find` is `Event.find(query).populate()`. -/
def getEvents (redisClient : RedisClient σ)
    (find : List (String × JsVal) → Except JsError (List JsVal)) : Handler σ Unit :=
  tryCatch (do
    let req ← getReq
    let events ← awaitDb (find req.query)
    let cacheKey := eventsCacheKey req.query
    if events.length > 0 then
      redisSet redisClient cacheKey (stringifyText (.arr events)) cacheFillOptions
      respond 200 (successBody false "events" (.arr events))
    else
      respond 404 (.obj [("status", .num 404), ("message", .str "No events found")]))
    (fun error => next (some error))

/-- Models `getEvent`; `findById` is `Event.findById(id).exec()`, `none` for `null`. -/
def getEvent (redisClient : RedisClient σ)
    (findById : String → Except JsError (Option JsVal)) : Handler σ Unit :=
  tryCatch (do
    let req ← getReq
    let cacheKey := "api-v1-events-" ++ req.id
    let event ← awaitDb (findById req.id)
    match event with
    | some event =>
      redisSet redisClient cacheKey (stringifyText event) cacheFillOptions
      respond 200 (successBody false "event" event)
    | none =>
      respond 404 (.obj [("message", .str "Event does not exist")]))
    (fun error => do
      emit (.log (error.name ++ ": " ++ error.message))
      next (some error))

/-! ## `middlewares/user.js` -/

/-- The cache key of a users query: the query object itself is put in the template literal,
after the prefix `api-v1-users-`. -/
def usersCacheKey (query : List (String × JsVal)) : String :=
  "api-v1-users-" ++ objectText query

def getUsersFromCache (redisClient : RedisClient σ) : Handler σ Unit :=
  tryCatch (do
    let req ← getReq
    let query := req.query
    let cacheKey := usersCacheKey query
    let users ← redisGet redisClient cacheKey
    match users with
    | some users =>
      if users != "" then
        let body ← liftRes (jsonParse users)
        respond 200 body
      else next none
    | none => next none)
    (fun error => next (some error))

def getUserFromCache (redisClient : RedisClient σ) : Handler σ Unit :=
  tryCatch (do
    let req ← getReq
    let cacheKey := "api-v1-user-" ++ req.id
    let user ← redisGet redisClient cacheKey
    match user with
    | some user =>
      if user != "" then
        let body ← liftRes (jsonParse user)
        respond 200 body
      else next none
    | none => next none)
    (fun error => next (some error))

/-! ## `controllers/users.js` -/

/-- Models `getUsers`; `findAll` is `User.findAll(query).lean().exec()`. -/
def getUsers (redisClient : RedisClient σ)
    (findAll : List (String × JsVal) → Except JsError (List JsVal)) : Handler σ Unit :=
  tryCatch (do
    let req ← getReq
    let query := req.query
    let cacheKey := usersCacheKey query
    let users ← awaitDb (findAll query)
    if users.length > 0 then
      redisSet redisClient cacheKey (stringifyText (.arr users)) cacheFillOptions
      respond 200 (successBody false "users" (.arr users))
    else
      respond 404 (.obj [("status", .num 404), ("message", .str "No Users found")]))
    (fun error => next (some error))

/-- Models `getUser`; `findById` is `User.findById(id).exec()`.  The module binds neither
`UserDemographics` nor `eventListener`, so the statement after the cache fill throws a
`ReferenceError`. -/
def getUser (redisClient : RedisClient σ)
    (findById : String → Except JsError (Option JsVal)) : Handler σ Unit :=
  tryCatch (do
    let req ← getReq
    let cacheKey := "api-v1-users-" ++ req.id
    let user ← awaitDb (findById req.id)
    match user with
    | some user =>
      redisSet redisClient cacheKey (stringifyText user) cacheFillOptions
      throwJs (referenceError "UserDemographics is not defined")
    | none =>
      respond 404 (.obj [("message", .str "User does not exist")]))
    (fun error => next (some error))

/-! ## `controllers/artists.js` -/

/-- Models `getArtsWork`; `find` is `ArtWork.find(query).populate()`. -/
def getArtsWork (redisClient : RedisClient σ)
    (find : List (String × JsVal) → Except JsError (List JsVal)) : Handler σ Unit :=
  tryCatch (do
    let req ← getReq
    let arts ← awaitDb (find req.query)
    let cacheKey := "api-v1-arts-" ++ stringifyText (.obj req.query)
    if arts.length > 0 then
      redisSet redisClient cacheKey (stringifyText (.arr arts)) cacheFillOptions
      respond 200 (successBody false "arts" (.arr arts))
    else
      respond 404 (.obj [("status", .num 404), ("message", .str "No arts found")]))
    (fun error => next (some error))

/-- Models `getArtWork`; `findById` is `ArtWork.findById(id).exec()`. -/
def getArtWork (redisClient : RedisClient σ)
    (findById : String → Except JsError (Option JsVal)) : Handler σ Unit :=
  tryCatch (do
    let req ← getReq
    let cacheKey := "api-v1-art-" ++ req.id
    let art ← awaitDb (findById req.id)
    match art with
    | some art =>
      redisSet redisClient cacheKey (stringifyText art) cacheFillOptions
      respond 200 (successBody false "art" art)
    | none =>
      respond 404 (.str "Art does not exist"))
    (fun error => do
      emit (.log (error.name ++ ": " ++ error.message))
      next (some error))

/-! ## `controllers/salesReports.js` -/

/-- Models `getAttendance`; `countDocuments` is `Ticket.countDocuments({scanned: true})`. -/
def getAttendance (redisClient : RedisClient σ) (countDocuments : Except JsError Nat) :
    Handler σ Unit := do
  let req ← getReq
  let evenntId := getField req.query "event"
  let cacheKey := "api-v1-reports-attendance-" ++ stringifyText (.obj req.query)
  if !evenntId.truthy then
    respond 400 (.obj [("message", .str "Please fill in required parameter")])
  else
    tryCatch (do
      let countAttendees ← awaitDb countDocuments
      if countAttendees = 0 then
        respond 400 (.obj [("message", .str "No-one attended this event")])
      else
        redisSet redisClient cacheKey (stringifyText (.num countAttendees)) cacheFillOptions
        respond 200 (successBody false "countAttendees" (.num countAttendees)))
      (fun error => next (some error))

/-! ## Views and runs used to state the properties -/

/-- An entry of a rate-limit record as the limiter writes it. -/
def recordEntry (e : Int × Int) : JsVal :=
  .obj [("requestTimeStamp", .num e.1), ("requestCount", .num e.2)]

/-- The value of a rate-limit record with the given (time stamp, count) entries. -/
def recordOf (r : List (Int × Int)) : JsVal := .arr (r.map recordEntry)

/-- The stored text of a rate-limit record. -/
def recordText (r : List (Int × Int)) : String := stringifyText (recordOf r)

/-- The sum of the counts of the entries whose time stamp is after `windowStart`. -/
def windowTotal (windowStart : Int) (r : List (Int × Int)) : Int :=
  ((r.filter (fun e => decide (e.1 > windowStart))).map (·.2)).sum

/-- Serves the requests of one client one after the other, each from the store the previous
one left; gives the effects of each request and the final store, or `none` when a request
does not end normally. -/
def serveAll (h : Moment → Handler σ Unit) (req : Request) :
    List Moment → σ → Option (List (List Effect) × σ)
  | [], s => some ([], s)
  | m :: ms, s =>
    match h m ⟨s, req, []⟩ with
    | .ok _ st => (serveAll h req ms st.store).map fun r => (st.effects :: r.1, r.2)
    | _ => none

/-- The rate limiter in front of a reachable store, both clock reads of a request giving
the same instant. -/
def limiter (m : Moment) : Handler MemStore Unit :=
  customRedisRateLimiter (some memClient) m m

/-- The line `errorLogger` writes for a rejection. -/
def rejectionLog (req : Request) : String :=
  req.method ++ "::" ++ req.originalUrl ++ "::" ++ "429" ++ " - source: " ++ req.ip ++ " => "
    ++ limitMessage

/-- The effects of a rejected request. -/
def rejectionEffects (req : Request) : List Effect :=
  [.log (rejectionLog req), .next none, .respond 429 (.obj [("message", .str limitMessage)])]

/-- The record a passing request leaves at unix time `now` (the first clock read), for a
record `r` with last entry `last`. -/
def nextRecord (now : Int) (r : List (Int × Int)) (last : Int × Int) : List (Int × Int) :=
  if last.1 > now - 3600 then r.dropLast ++ [(last.1, last.2 + 1)]
  else r ++ [(now - 3600, 1)]

/-- The in-window total the limiter compares with the maximum, for the stored text `record`
and the second clock read `clock2`. -/
def inWindowTotal (record : String) (clock2 : Moment) : JsRes (Option Int) :=
  (jsonParse record).bind fun parsed =>
  (asArray parsed).bind fun data =>
  (filterWithinWindow (clock2.subtractHours WINDOW_SIZE_IN_HOURS).unix data).bind fun within =>
  sumRequestCounts (some 0) within

/-- An example request. -/
def exampleRequest : Request := ⟨"GET", "/api/v1/events", "::1", [], "42"⟩

/-- An instant given in whole seconds since the epoch. -/
def atSecond (t : Int) : Moment := ⟨t * 1000⟩

/-- Where a run of assignments to `req.query` ends: the query it leaves, normally or at a
thrown error, or an input outside the model. -/
inductive QRes where
  | ok (query : List (String × JsVal))
  | throw (e : JsError) (query : List (String × JsVal))
  | unmodelled

def QRes.bind : QRes → (List (String × JsVal) → QRes) → QRes
  | .ok q, f => f q
  | .throw e q, _ => .throw e q
  | .unmodelled, _ => .unmodelled

/-- What `convertField k f` does to the query. -/
def convertFieldRes (k : String) (f : JsVal → JsRes JsVal) (query : List (String × JsVal)) :
    QRes :=
  if (getField query k).truthy then
    match f (getField query k) with
    | .ok v => .ok (setField query k v)
    | .throw e => .throw e query
    | .unmodelled => .unmodelled
  else .ok query

/-- What `convertQuery` does to the query. -/
def convertQueryRes (B : Builtins) (query : List (String × JsVal)) : QRes :=
  (convertFieldRes "isFeatured" (fun v => .ok (.bool (v.strictEqStr "true"))) query).bind fun q =>
  (convertFieldRes "isFree" (fun v => .ok (.bool (v.strictEqStr "true"))) q).bind fun q =>
  (convertFieldRes "isOnline" (fun v => .ok (.bool (v.strictEqStr "true"))) q).bind fun q =>
  (convertFieldRes "price" (fun v => .ok (B.number v)) q).bind fun q =>
  (convertFieldRes "title"
    (fun v => (B.newRegExp v "i").bind fun r => .ok (.obj [("$regex", r)])) q).bind fun q =>
  (convertFieldRes "description"
    (fun v => (B.newRegExp v "i").bind fun r => .ok (.obj [("$regex", r)])) q).bind fun q =>
  (convertFieldRes "startDate" (fun v => .ok (.obj [("$gte", B.newDate v)])) q).bind fun q =>
  convertFieldRes "endDate" (fun v => .ok (.obj [("$lte", B.newDate v)])) q

/-- The cache key `getEventsCacheData` reads for a request with the query parameters
`query`, when the conversion ends normally. -/
def eventsReadKey (B : Builtins) (query : List (String × JsVal)) : Option String :=
  match convertQueryRes B query with
  | .ok q => some (eventsCacheKey q)
  | _ => none

/-- The constructors on the inputs of the examples: `Number` of a text of decimal digits,
`new RegExp` of a text (taken for a well-formed pattern), `new Date` of a text that is no
date. -/
def exampleBuiltins : Builtins where
  number := fun v =>
    match v with
    | .str s =>
      match parseNat s.toList with
      | .ok n [] => .num n
      | _ => .nan
    | _ => .nan
  newRegExp := fun v flags =>
    match v with
    | .str s => .ok (.regexp s flags)
    | _ => .unmodelled
  newDate := fun _ => .date none

/-- A database that answers every query with the same documents. -/
def findConst (docs : List JsVal) : List (String × JsVal) → Except JsError (List JsVal) :=
  fun _ => .ok docs

/-- A request with the given query parameters. -/
def requestWith (query : List (String × JsVal)) : Request :=
  ⟨"GET", "/api/v1/events", "::1", query, "42"⟩

/-- The result of a handler that only assigns to `req.query`. -/
def liftQ (r : QRes) (st : HState σ) : HResult σ Unit :=
  match r with
  | .ok q => .ok () { st with req := { st.req with query := q } }
  | .throw e q => .throw e { st with req := { st.req with query := q } }
  | .unmodelled => .unmodelled

/-- Two successive cache fills of `key` by the handlers `fill1` and `fill2`, for the same
request: both end normally, the second leaves the store as the first left it, and when the
key was absent at the start it holds `value1`, the first writer's value, afterwards. -/
def FirstWriterWins (s : MemStore) (req : Request) (fill1 fill2 : Handler MemStore Unit)
    (key value1 : String) : Prop :=
  ∃ s1 e1 e2, fill1 ⟨s, req, []⟩ = .ok () ⟨s1, req, e1⟩ ∧
    fill2 ⟨s1, req, []⟩ = .ok () ⟨s1, req, e2⟩ ∧
    (s.get key = none → s1.get key = some value1)

/-- A database that finds the same document for every id. -/
def findByIdConst (doc : JsVal) : String → Except JsError (Option JsVal) :=
  fun _ => .ok (some doc)

/-! ## Runs of the rate limiter -/

/-- Whether a request was allowed: `next()` was called without an error and nothing was sent
in answer. -/
def allowed : List Effect → Bool
  | [.next none] => true
  | _ => false

/-- The unix times of the requests of a run that were allowed, given the effects of each
request. -/
def allowedTimes : List Moment → List (List Effect) → List Int
  | m :: ms, es :: outs =>
    if allowed es then m.unix :: allowedTimes ms outs else allowedTimes ms outs
  | _, _ => []

/-- The record a request at unix time `now` leaves of the record `r`: `r` itself when the
request is rejected. -/
def stepRecord (now : Int) (r : List (Int × Int)) : List (Int × Int) :=
  if windowTotal (now - 86400) r ≥ 5 then r
  else
    match r.getLast? with
    | some last => nextRecord now r last
    | none => r

/-- The record that requests at the unix times `ts`, in this order, leave of the record
`r`. -/
def runRecord : List Int → List (Int × Int) → List (Int × Int)
  | [], r => r
  | now :: ts, r => runRecord ts (stepRecord now r)

/-- The unix times among `ts` of the requests that are allowed, from the record `r` on. -/
def runAllowed : List Int → List (Int × Int) → List Int
  | [], _ => []
  | now :: ts, r =>
    if windowTotal (now - 86400) r ≥ 5 then runAllowed ts r
    else now :: runAllowed ts (stepRecord now r)

/-- The number of the times `ts` that lie in the trailing window `(T - w, T]`. -/
def countIn (w T : Int) (ts : List Int) : Nat :=
  (ts.filter fun t => decide (T - w < t ∧ t ≤ T)).length

/-- The number of the times `ts` that are after `x`. -/
def countAfter (x : Int) (ts : List Int) : Nat :=
  (ts.filter fun t => decide (x < t)).length

/-- Every allowed request so far is counted in an entry that is at most one log interval
older than the request. -/
def Counted (past : List Int) (r : List (Int × Int)) : Prop :=
  ∀ x : Int, (countAfter (x + 3600) past : Int) ≤ windowTotal x r

/-! ## `middlewares/salesReports.js` -/

def getAttendeesCacheData (redisClient : RedisClient σ) : Handler σ Unit :=
  tryCatch (do
    let req ← getReq
    let cacheKey := "api-v1-reports-attendance-" ++ stringifyText (.obj req.query)
    let countAttendees ← redisGet redisClient cacheKey
    match countAttendees with
    | some countAttendees =>
      if countAttendees != "" then
        let event ← liftRes (jsonParse countAttendees)
        respond 200 (successBody true "event" event)
      else next none
    | none => next none)
    (fun error => next (some error))

/-! ## A store that cannot be reached -/

/-- The error of a command sent through a client whose connection is closed. -/
def clientClosedError : JsError := ⟨"ClientClosedError", "The client is closed"⟩

/-- The client of a store that cannot be reached: every command fails. -/
def closedClient : RedisClient MemStore where
  get := fun _ _ => .error clientClosedError
  set := fun _ _ _ _ => .error clientClosedError
  del := fun _ _ => .error clientClosedError
  scan := fun _ _ _ => .error clientClosedError

/-! ## The handlers of `controllers/events.js` that change events -/

/-- Models `await Promise.all([...])` over promises that are all created before the first
settles: each runs to its end from the state the one before it left, and the promise rejects
with the first rejection.  The first command of each promise is sent when the promise is
created, so this order of the commands is the one the store sees when at most the last
promise sends more than one command, as in the handlers here.  The effects of a promise that
goes on after another has rejected are listed before those of the `catch` block. -/
def promiseAll : List (Handler σ Unit) → Handler σ Unit
  | [] => Handler.pure ()
  | p :: ps => fun st =>
    match p st with
    | .ok _ st1 => promiseAll ps st1
    | .throw e st1 =>
      match promiseAll ps st1 with
      | .ok _ st2 => .throw e st2
      | .throw _ st2 => .throw e st2
      | .unmodelled => .unmodelled
      | .running => .running
    | .unmodelled => .unmodelled
    | .running => .running

/-- Models `createEvent`; `create` is `Event.create(eventData)`, and `fuel` bounds the rounds
of the scan loop. -/
def createEvent (redisClient : RedisClient σ) (fuel : Nat) (create : Except JsError JsVal) :
    Handler σ Unit :=
  tryCatch (do
    let cacheKey := "api-v1-events-*"
    let event ← awaitDb create
    scanKeys redisClient fuel (.str "0") cacheKey
    respond 201 (.obj [("message", .str "Event created successfully"), ("event", event)]))
    (fun error => do
      emit (.log (error.name ++ ": " ++ error.message))
      next (some error))

/-- Models `updateEvent`; `newObjectId` is `new ObjectId(id)`, which throws on a malformed id
and stands before the `try`, and `findByIdAndUpdate` is `Event.findByIdAndUpdate(id, ...)`.
The constants `cacheKeys` and `cacheKey` declared before the `try` are shadowed by those
declared in it. -/
def updateEvent (redisClient : RedisClient σ) (fuel : Nat)
    (newObjectId : String → JsRes Unit)
    (findByIdAndUpdate : String → Except JsError JsVal) : Handler σ Unit := do
  let req ← getReq
  liftRes (newObjectId req.id)
  tryCatch (do
    let id := req.id
    let cacheKeys := "api-v1-events"
    let cacheKey := "api-v1-events-" ++ id
    let event ← awaitDb (findByIdAndUpdate id)
    promiseAll [redisDel redisClient [cacheKey],
      scanKeys redisClient fuel (.str "0") cacheKeys]
    respond 200 (.obj [("message", .str "Event updated successfully"), ("event", event)]))
    (fun error => next (some error))

/-! ## The patterns of the handlers that delete users and artworks -/

/-- The pattern `updateUser` and `deleteUser` pass to `scanKeys`. -/
def deleteUser.pattern : String := "api-v1-users-*"

/-- The pattern `deleteArtWork` passes to `scanKeys`: its constant `cacheKeys`. -/
def deleteArtWork.cacheKeys : String := "api-v1-art-*"

/-! ## Views of the scan loop -/

/-- The keys of the store were created in the order of their ranks, all below the rank the
next new key gets. -/
def MemStore.Ranked (s : MemStore) : Prop :=
  s.entries.Pairwise (fun a b => a.2.rank < b.2.rank) ∧ ∀ e ∈ s.entries, e.2.rank < s.nextRank

instance (s : MemStore) : Decidable s.Ranked := by
  unfold MemStore.Ranked
  infer_instance

/-- Follows the replies of `SCAN` from a cursor the way the loop of `scanKeys` does, the keys
of each reply being deleted before the next call: `some s1` when the first `n` replies are
well-formed and carry a cursor other than the completion cursor `0`, and the reply after
them is the first to carry the completion cursor; `s1` is the store by then. -/
def scanRounds (c : RedisClient σ) (glob : String) : Nat → σ → JsVal → Option σ
  | 0, s, cursor =>
    match c.scan s cursor [.str "MATCH", .str glob] with
    | .ok reply => if reply.cursor.strictNeNum 0 then none else some s
    | .error _ => none
  | n + 1, s, cursor =>
    match c.scan s cursor [.str "MATCH", .str glob] with
    | .ok reply =>
      match reply.keys with
      | some keys =>
        if reply.cursor.truthy && reply.cursor.strictNeNum 0 then
          match (if keys.length > 0 then c.del s keys else .ok s) with
          | .ok s1 => scanRounds c glob n s1 reply.cursor
          | .error _ => none
        else none
      | none => none
    | .error _ => none

/-- The line `scanKeys` writes when it leaves the loop through its guard. -/
def scanGuardLog : Effect := .log "scan reply does not have expected properties"

/-- Models `new ObjectId(id)` on the inputs of the examples: a text of 24 hexadecimal digits
is accepted; other texts are outside the model. -/
def exampleObjectId (id : String) : JsRes Unit :=
  if id.length = 24 ∧ id.toList.all (fun c => (hexVal c).isSome) then .ok () else .unmodelled

/-- A request that updates the event `64f0c0ffee64f0c0ffee0001`. -/
def exampleUpdate : Request :=
  ⟨"PUT", "/api/v1/events/64f0c0ffee64f0c0ffee0001", "::1", [], "64f0c0ffee64f0c0ffee0001"⟩

/-- A keyspace of twelve keys in the order of their creation: cached answers of the events,
artworks, users and reports handlers, and the rate-limit records of five clients. -/
def exampleKeyspace : MemStore :=
  ⟨[("api-v1-events-\x7b\x7d", ⟨"[1]", some 172800, 1⟩),
    ("api-v1-arts-\x7b\x7d", ⟨"[2]", some 172800, 2⟩),
    ("api-v1-art-64f0c0ffee64f0c0ffee0002", ⟨"3", some 172800, 3⟩),
    ("::1", ⟨"[\x7b\"requestTimeStamp\":0,\"requestCount\":1\x7d]", none, 4⟩),
    ("api-v1-users-[object Object]", ⟨"[4]", some 172800, 5⟩),
    ("api-v1-users-64f0c0ffee64f0c0ffee0003", ⟨"5", some 172800, 6⟩),
    ("api-v1-reports-attendance-\x7b\"event\":\"7\"\x7d", ⟨"6", some 172800, 7⟩),
    ("::ffff:10.0.0.2", ⟨"[\x7b\"requestTimeStamp\":0,\"requestCount\":2\x7d]", none, 8⟩),
    ("::ffff:10.0.0.3", ⟨"[\x7b\"requestTimeStamp\":0,\"requestCount\":3\x7d]", none, 9⟩),
    ("::ffff:10.0.0.4", ⟨"[\x7b\"requestTimeStamp\":0,\"requestCount\":4\x7d]", none, 10⟩),
    ("api-v1-events-64f0c0ffee64f0c0ffee0001", ⟨"7", some 172800, 11⟩),
    ("::ffff:10.0.0.5", ⟨"[\x7b\"requestTimeStamp\":0,\"requestCount\":5\x7d]", none, 12⟩)], 13⟩

/-- The entries a `SCAN` from the rank `rank` has still to examine. -/
def MemStore.pending (s : MemStore) (rank : Nat) : List (String × Stored) :=
  s.entries.filter (fun e => decide (rank ≤ e.2.rank))

/-- The sum of `requestCount` over all entries of a record, expired ones included. -/
def totalCount (r : List (Int × Int)) : Int := (r.map (·.2)).sum

/-- A client through which only `SCAN` gets to the store: every other command fails. -/
def scanOnlyClient : RedisClient MemStore where
  get := fun _ _ => .error clientClosedError
  set := fun _ _ _ _ => .error clientClosedError
  del := fun _ _ => .error clientClosedError
  scan := fun s c args => s.scan c args

/-! ## Reading back what `JSON.stringify` wrote -/

theorem digitChar_toNat (d : Nat) (h : d < 10) : (digitChar d).toNat = 48 + d := by
  interval_cases d <;> rfl

theorem isDigit_digitChar (d : Nat) (h : d < 10) : isDigit (digitChar d) = true := by
  interval_cases d <;> rfl

theorem digitChar_ne_zero (d : Nat) (h : d < 10) (h0 : 0 < d) : digitChar d ≠ '0' := by
  interval_cases d <;> decide


theorem parseDigits_stop (rest : List Char) (acc : Nat) (hr : EndsNumber rest) :
    parseDigits rest acc = (acc, rest) := by
  cases rest with
  | nil => rfl
  | cons c cs => simp [parseDigits, (hr c cs rfl).1]

theorem parseDigits_natDigitsAux (rest : List Char) (fuel : Nat) :
    ∀ (n : Nat) (acc : List Char), n < fuel →
      parseDigits (natDigitsAux fuel n acc ++ rest) 0 = parseDigits (acc ++ rest) n := by
  induction fuel with
  | zero => intro n acc h; omega
  | succ f ih =>
    intro n acc h
    unfold natDigitsAux
    split
    · rename_i hlt
      simp [parseDigits, isDigit_digitChar n hlt, digitChar_toNat n hlt]
    · rename_i hge
      have hlt : n % 10 < 10 := Nat.mod_lt _ (by decide)
      rw [ih (n / 10) (digitChar (n % 10) :: acc) (by omega)]
      simp only [List.cons_append, parseDigits, isDigit_digitChar _ hlt, digitChar_toNat _ hlt,
        if_true]
      congr 1
      omega

theorem parseDigits_natDigits (n : Nat) (rest : List Char) (hr : EndsNumber rest) :
    parseDigits (natDigits n ++ rest) 0 = (n, rest) := by
  unfold natDigits
  rw [parseDigits_natDigitsAux rest (n + 1) n [] (by omega)]
  exact parseDigits_stop rest n hr

theorem natDigitsAux_head (fuel : Nat) :
    ∀ (n : Nat) (acc : List Char), n < fuel → 0 < n →
      ∃ c cs, natDigitsAux fuel n acc = c :: cs ∧ isDigit c = true ∧ c ≠ '0' := by
  induction fuel with
  | zero => intro n acc h; omega
  | succ f ih =>
    intro n acc h h0
    unfold natDigitsAux
    split
    · rename_i hlt
      exact ⟨_, _, rfl, isDigit_digitChar n hlt, digitChar_ne_zero n hlt h0⟩
    · rename_i hge
      exact ih (n / 10) _ (by omega) (by omega)

theorem parseNat_natDigits (n : Nat) (rest : List Char) (hr : EndsNumber rest) :
    parseNat (natDigits n ++ rest) = .ok n rest := by
  rcases Nat.eq_zero_or_pos n with h0 | h0
  · subst h0
    have : natDigits 0 = ['0'] := rfl
    rw [this]
    cases rest with
    | nil => rfl
    | cons c cs =>
      have := hr c cs rfl
      simp [parseNat, this.1, this.2]
  · obtain ⟨c, cs, hc, hd, hz⟩ := natDigitsAux_head (n + 1) n [] (by omega) h0
    have hp := parseDigits_natDigits n rest hr
    have hc2 : natDigits n = c :: cs := hc
    rw [hc2] at hp ⊢
    simp only [List.cons_append] at hp ⊢
    unfold parseNat
    simp only [hz, if_false, hd, if_true, hp]
    have hf : startsFraction rest = false := by
      cases rest with
      | nil => rfl
      | cons d ds => exact (hr d ds rfl).2
    simp [hf]

theorem parseChars_quoteChar (c : Char) (fuel : Nat) (t acc : List Char) :
    parseChars (fuel + 1) (quoteChar c ++ t) acc = parseChars fuel t (c :: acc) := by
  unfold quoteChar
  by_cases h1 : c = dquote
  · subst h1; rfl
  by_cases h2 : c = backslash
  · subst h2; rfl
  simp only [h1, h2, if_false]
  by_cases h3 : c.toNat < 32
  · have hc : c = Char.ofNat c.toNat := (Char.ofNat_toNat c).symm
    generalize c.toNat = n at hc h3
    subst hc
    interval_cases n <;> rfl
  · have h8 : c.toNat ≠ 8 := by omega
    have h12 : c.toNat ≠ 12 := by omega
    have h10 : c.toNat ≠ 10 := by omega
    have h13 : c.toNat ≠ 13 := by omega
    have h9 : c.toNat ≠ 9 := by omega
    simp only [h8, h12, h10, h13, h9, h3, if_false]
    simp [parseChars, h1, h2, h3]

theorem parseChars_quoteChars (cs : List Char) :
    ∀ (fuel : Nat) (rest acc : List Char), cs.length < fuel →
      parseChars fuel (quoteChars cs ++ rest) acc = .ok (String.mk (acc.reverse ++ cs)) rest := by
  induction cs with
  | nil =>
    intro fuel rest acc h
    cases fuel with
    | zero => simp at h
    | succ f => simp [quoteChars, parseChars]
  | cons c cs ih =>
    intro fuel rest acc h
    cases fuel with
    | zero => simp at h
    | succ f =>
      simp only [quoteChars, List.append_assoc]
      rw [parseChars_quoteChar, ih f rest (c :: acc) (by simpa using h)]
      simp

theorem length_le_quoteChars (cs : List Char) : cs.length < (quoteChars cs).length := by
  induction cs with
  | nil => simp [quoteChars]
  | cons c cs ih =>
    have : 1 ≤ (quoteChar c).length := by
      unfold quoteChar
      repeat' split
      all_goals simp
    simp only [quoteChars, List.length_append, List.length_cons]
    omega

/-- A quoted string is read back, whatever follows it. -/
theorem parseChars_quote (s : String) (rest : List Char) :
    parseChars ((quoteChars s.toList ++ rest).length + 1) (quoteChars s.toList ++ rest) [] =
      .ok s rest := by
  have h := parseChars_quoteChars s.toList ((quoteChars s.toList ++ rest).length + 1) rest []
    (by have := length_le_quoteChars s.toList; simp only [List.length_append]; omega)
  simpa using h

theorem natDigits_head (n : Nat) : ∃ c cs, natDigits n = c :: cs ∧ isDigit c = true := by
  rcases Nat.eq_zero_or_pos n with h0 | h0
  · subst h0; exact ⟨'0', [], rfl, rfl⟩
  · obtain ⟨c, cs, hc, hd, _⟩ := natDigitsAux_head (n + 1) n [] (by omega) h0
    exact ⟨c, cs, hc, hd⟩

theorem parseValue_of_digit (fuel : Nat) (c : Char) (r : List Char) (hd : isDigit c = true) :
    parseValue (fuel + 1) (c :: r) =
      match parseNat (c :: r) with
      | .ok n r1 => .ok (.num (n : Int)) r1
      | .syntaxError => .syntaxError
      | .unmodelled => .unmodelled := by
  have hb : 48 ≤ c.toNat ∧ c.toNat ≤ 57 := by simpa [isDigit] using hd
  have hws : isWs c = false := by
    simp only [isWs, Bool.or_eq_false_iff, decide_eq_false_iff_not]
    omega
  have hne : ∀ d : Char, (d.toNat < 48 ∨ 57 < d.toNat) → c ≠ d := by
    intro d hdd h
    subst h
    omega
  have h1 : c ≠ 'n' := hne _ (by decide)
  have h2 : c ≠ 't' := hne _ (by decide)
  have h3 : c ≠ 'f' := hne _ (by decide)
  have h4 : c ≠ dquote := hne _ (by decide)
  have h5 : c ≠ '[' := hne _ (by decide)
  have h6 : c ≠ lbrace := hne _ (by decide)
  have h7 : c ≠ '-' := hne _ (by decide)
  simp only [parseValue, skipWs, hws, h1, h2, h3, h4, h5, h6, h7, if_false, Bool.false_eq_true]

theorem parseValue_intDigits (fuel : Nat) (n : Int) (rest : List Char) (hr : EndsNumber rest) :
    parseValue (fuel + 1) (intDigits n ++ rest) = .ok (.num n) rest := by
  unfold intDigits
  split
  · rename_i hneg
    have h : parseValue (fuel + 1) ('-' :: (natDigits n.natAbs ++ rest)) =
        match parseNat (natDigits n.natAbs ++ rest) with
        | .ok n r1 => .ok (.num (- (n : Int))) r1
        | .syntaxError => .syntaxError
        | .unmodelled => .unmodelled := rfl
    rw [List.cons_append, h, parseNat_natDigits _ _ hr]
    simp only
    congr 2
    omega
  · rename_i hpos
    obtain ⟨c, cs, hc, hd⟩ := natDigits_head n.natAbs
    have hp := parseNat_natDigits n.natAbs rest hr
    rw [hc] at hp ⊢
    rw [List.cons_append] at hp ⊢
    rw [parseValue_of_digit fuel c _ hd, hp]
    simp only
    congr 2
    omega

theorem parseValue_quote (fuel : Nat) (s : String) (rest : List Char) :
    parseValue (fuel + 1) (quote s ++ rest) = .ok (.str s) rest := by
  have h : parseValue (fuel + 1) (dquote :: (quoteChars s.toList ++ rest)) =
      match parseChars ((quoteChars s.toList ++ rest).length + 1) (quoteChars s.toList ++ rest) []
        with
      | .ok s r1 => .ok (.str s) r1
      | .syntaxError => .syntaxError
      | .unmodelled => .unmodelled := rfl
  unfold quote
  rw [List.cons_append, h, parseChars_quote]

theorem renderProps_of_jsonifyProps_nil (b : Bool) (ps : List (String × JsVal))
    (h : jsonifyProps ps = []) : renderProps b ps = [rbrace] := by
  induction ps with
  | nil => rfl
  | cons p ps ih =>
    rcases p with ⟨k, v⟩
    cases v <;> simp_all [renderProps, jsonifyProps]

theorem renderProps_false_of_kept (ps : List (String × JsVal)) (h : jsonifyProps ps ≠ []) :
    renderProps false ps = ',' :: renderProps true ps := by
  induction ps with
  | nil => exact absurd rfl h
  | cons p ps ih =>
    rcases p with ⟨k, v⟩
    cases v <;> simp_all [renderProps, jsonifyProps]

theorem jsonifyProps_keys (ps : List (String × JsVal)) (p : String × JsVal)
    (h : p ∈ jsonifyProps ps) : ∃ q ∈ ps, q.1 = p.1 := by
  induction ps with
  | nil => simp [jsonifyProps] at h
  | cons q ps ih =>
    rcases q with ⟨k, v⟩
    cases v
    case undefined =>
      simp only [jsonifyProps] at h
      obtain ⟨q, hq, hk⟩ := ih h
      exact ⟨q, List.mem_cons_of_mem _ hq, hk⟩
    all_goals
      simp only [jsonifyProps, List.mem_cons] at h
      rcases h with h | h
      · exact ⟨_, List.mem_cons_self _ _, by rw [h]⟩
      · obtain ⟨q, hq, hk⟩ := ih h
        exact ⟨q, List.mem_cons_of_mem _ hq, hk⟩

theorem endsNumber_cons (c : Char) (r : List Char) (h1 : isDigit c = false)
    (h2 : startsFraction [c] = false) : EndsNumber (c :: r) := by
  intro d r1 h
  simp only [List.cons.injEq] at h
  obtain ⟨rfl, rfl⟩ := h
  exact ⟨h1, by simpa [startsFraction] using h2⟩

theorem endsNumber_nil : EndsNumber [] := by
  intro c r h; cases h

theorem endsNumber_renderElems (xs : List JsVal) (rest : List Char) :
    EndsNumber (renderElems xs ++ rest) := by
  cases xs with
  | nil => exact endsNumber_cons _ _ (by decide) (by decide)
  | cons x xs => exact endsNumber_cons _ _ (by decide) (by decide)

theorem endsNumber_renderProps (ps : List (String × JsVal)) (rest : List Char) :
    EndsNumber (renderProps false ps ++ rest) := by
  by_cases h : jsonifyProps ps = []
  · rw [renderProps_of_jsonifyProps_nil _ _ h]
    exact endsNumber_cons _ _ (by decide) (by decide)
  · rw [renderProps_false_of_kept _ h]
    exact endsNumber_cons _ _ (by decide) (by decide)

/-- The text of a value starts with a character that is not white space. -/
theorem render_head (v : JsVal) :
    ∃ c cs, render v = c :: cs ∧ isWs c = false ∧ c ≠ ']' := by
  have hdig : ∀ c, isDigit c = true → isWs c = false ∧ c ≠ ']' := by
    intro c hd
    have hb : 48 ≤ c.toNat ∧ c.toNat ≤ 57 := by simpa [isDigit] using hd
    refine ⟨?_, ?_⟩
    · simp only [isWs, Bool.or_eq_false_iff, decide_eq_false_iff_not]
      omega
    · intro h
      subst h
      exact absurd hb.2 (by decide)
  cases v with
  | undefined => exact ⟨_, _, rfl, by decide⟩
  | null => exact ⟨_, _, rfl, by decide⟩
  | bool b => cases b <;> exact ⟨_, _, rfl, by decide⟩
  | num n =>
    obtain ⟨c, cs, hc, hd⟩ := natDigits_head n.natAbs
    by_cases hn : n < 0
    · exact ⟨'-', natDigits n.natAbs, by simp [render, intDigits, hn], by decide⟩
    · exact ⟨c, cs, by simp [render, intDigits, hn, hc], hdig c hd⟩
  | nan => exact ⟨_, _, rfl, by decide⟩
  | str s => exact ⟨_, _, rfl, by decide⟩
  | regexp s f => exact ⟨_, _, rfl, by decide⟩
  | date iso => cases iso <;> exact ⟨_, _, rfl, by decide⟩
  | arr xs => cases xs <;> exact ⟨_, _, rfl, by decide⟩
  | obj ps => exact ⟨lbrace, renderProps true ps, by simp [render], by decide⟩

theorem skipWs_render (v : JsVal) (rest : List Char) :
    skipWs (render v ++ rest) = render v ++ rest := by
  obtain ⟨c, cs, hc, hw, _⟩ := render_head v
  rw [hc]
  simp [skipWs, hw]

theorem renderProps_head (ps : List (String × JsVal)) (h : jsonifyProps ps ≠ []) :
    ∃ c cs, renderProps true ps = c :: cs ∧ isWs c = false ∧ c ≠ rbrace := by
  induction ps with
  | nil => exact absurd rfl h
  | cons p ps ih =>
    rcases p with ⟨k, v⟩
    by_cases hu : v = .undefined
    · subst hu
      simpa [renderProps, jsonifyProps] using ih (by simpa [jsonifyProps] using h)
    · refine ⟨dquote, quoteChars k.toList ++ ':' :: (render v ++ renderProps false ps), ?_,
        by decide, by decide⟩
      cases v <;> simp_all [renderProps, quote]

theorem parseValue_arr_step (fuel : Nat) (r r1 : List Char) (d : Char)
    (h : skipWs r = d :: r1) (hd : d ≠ ']') :
    parseValue (fuel + 1) ('[' :: r) =
      match parseElems fuel r with
      | .ok xs r2 => .ok (.arr xs) r2
      | .syntaxError => .syntaxError
      | .unmodelled => .unmodelled := by
  have h0 : skipWs ('[' :: r) = '[' :: r := rfl
  have h1 : ('[' : Char) ≠ 'n' := by decide
  have h2 : ('[' : Char) ≠ 't' := by decide
  have h3 : ('[' : Char) ≠ 'f' := by decide
  have h4 : ('[' : Char) ≠ dquote := by decide
  simp only [parseValue, h0, h1, h2, h3, h4, if_false, if_true, h, hd]

theorem parseValue_obj_step (fuel : Nat) (r r1 : List Char) (d : Char)
    (h : skipWs r = d :: r1) (hd : d ≠ rbrace) :
    parseValue (fuel + 1) (lbrace :: r) =
      match parseProps fuel r with
      | .ok ps r2 => .ok (.obj ps) r2
      | .syntaxError => .syntaxError
      | .unmodelled => .unmodelled := by
  have h0 : skipWs (lbrace :: r) = lbrace :: r := rfl
  have h1 : lbrace ≠ 'n' := by decide
  have h2 : lbrace ≠ 't' := by decide
  have h3 : lbrace ≠ 'f' := by decide
  have h4 : lbrace ≠ dquote := by decide
  have h5 : lbrace ≠ '[' := by decide
  simp only [parseValue, h0, h1, h2, h3, h4, h5, if_false, if_true, h, hd]

theorem parseElems_last (fuel : Nat) (r rest : List Char) (v : JsVal)
    (h : parseValue fuel r = .ok v (']' :: rest)) : parseElems (fuel + 1) r = .ok [v] rest := by
  have h0 : skipWs (']' :: rest) = ']' :: rest := rfl
  simp only [parseElems, h, h0, if_true]

theorem parseElems_more (fuel : Nat) (r r1 rest : List Char) (v : JsVal) (vs : List JsVal)
    (h : parseValue fuel r = .ok v (',' :: r1)) (h2 : parseElems fuel r1 = .ok vs rest) :
    parseElems (fuel + 1) r = .ok (v :: vs) rest := by
  have h0 : skipWs (',' :: r1) = ',' :: r1 := rfl
  have h1 : (',' : Char) ≠ ']' := by decide
  simp only [parseElems, h, h0, h1, if_false, if_true, h2]

theorem parseProps_last (fuel : Nat) (k : String) (r rest : List Char) (v : JsVal)
    (hi : indexLike k = false)
    (h : parseValue fuel r = .ok v (rbrace :: rest)) :
    parseProps (fuel + 1) (quote k ++ ':' :: r) = .ok [(k, v)] rest := by
  have h0 : skipWs (quote k ++ ':' :: r) = dquote :: (quoteChars k.toList ++ ':' :: r) := rfl
  have h1 : skipWs (':' :: r) = ':' :: r := rfl
  have h2 : skipWs (rbrace :: rest) = rbrace :: rest := rfl
  simp only [parseProps, h0, if_true, parseChars_quote, h1, h, h2, hi, Bool.false_eq_true,
    if_false]

theorem parseProps_more (fuel : Nat) (k : String) (r r1 rest : List Char) (v : JsVal)
    (ps : List (String × JsVal)) (hi : indexLike k = false) (hk : ∀ p ∈ ps, p.1 ≠ k)
    (h : parseValue fuel r = .ok v (',' :: r1)) (h2 : parseProps fuel r1 = .ok ps rest) :
    parseProps (fuel + 1) (quote k ++ ':' :: r) = .ok ((k, v) :: ps) rest := by
  have h0 : skipWs (quote k ++ ':' :: r) = dquote :: (quoteChars k.toList ++ ':' :: r) := rfl
  have h1 : skipWs (':' :: r) = ':' :: r := rfl
  have h3 : skipWs (',' :: r1) = ',' :: r1 := rfl
  have h4 : (',' : Char) ≠ rbrace := by decide
  have h5 : ps.any (fun p => p.1 == k) = false := by
    rw [List.any_eq_false]
    intro p hp
    simpa using hk p hp
  simp only [parseProps, h0, if_true, parseChars_quote, h1, h, h3, h4, h2, hi, h5,
    Bool.false_eq_true, if_false, Bool.or_self]

mutual
/-- Reading back the text of a value gives the value as `JSON.stringify` keeps it. -/
theorem parseValue_render : (v : JsVal) → (fuel : Nat) → (rest : List Char) →
    WellKeyed v → fuelOf v ≤ fuel → EndsNumber rest →
    parseValue fuel (render v ++ rest) = .ok (jsonify v) rest
  | .undefined, fuel + 1, _, _, _, _ => rfl
  | .null, fuel + 1, _, _, _, _ => rfl
  | .bool true, fuel + 1, _, _, _, _ => rfl
  | .bool false, fuel + 1, _, _, _, _ => rfl
  | .num n, fuel + 1, rest, _, _, hr => parseValue_intDigits fuel n rest hr
  | .nan, fuel + 1, _, _, _, _ => rfl
  | .str s, fuel + 1, rest, _, _, _ => parseValue_quote fuel s rest
  | .regexp _ _, fuel + 1, _, _, _, _ => rfl
  | .date none, fuel + 1, _, _, _, _ => rfl
  | .date (some iso), fuel + 1, rest, _, _, _ => parseValue_quote fuel iso rest
  | .arr [], fuel + 1, _, _, _, _ => rfl
  | .arr (x :: xs), fuel + 1, rest, hk, hf, _ => by
    obtain ⟨c, cs, hc, hw, hb⟩ := render_head x
    have hs : skipWs (render x ++ renderElems xs ++ rest) = c :: (cs ++ renderElems xs ++ rest) := by
      rw [hc]; simp [skipWs, hw]
    have hf2 : fuelOfElems (x :: xs) ≤ fuel := by
      simp only [fuelOf] at hf; omega
    have ih := parseElems_render (x :: xs) fuel rest (by simpa [WellKeyed] using hk) hf2
      (by simp)
    simp only [render, List.cons_append, jsonify]
    rw [parseValue_arr_step fuel _ _ c hs hb]
    simp only [renderElems, List.tail_cons, List.append_assoc] at ih
    simp only [List.append_assoc, ih]
  | .obj ps, fuel + 1, rest, hk, hf, _ => by
    by_cases hne : jsonifyProps ps = []
    · have h1 := renderProps_of_jsonifyProps_nil true ps hne
      simp only [render, jsonify, h1, hne]
      rfl
    · have hf2 : fuelOfProps ps ≤ fuel := by
        simp only [fuelOf] at hf; omega
      have ih := parseProps_render ps fuel rest (by simpa [WellKeyed] using hk) hne hf2
      obtain ⟨c, cs, hc, hw, hb⟩ := renderProps_head ps hne
      have hs : skipWs (renderProps true ps ++ rest) = c :: (cs ++ rest) := by
        rw [hc]; simp [skipWs, hw]
      simp only [render, List.cons_append, jsonify]
      rw [parseValue_obj_step fuel _ _ c hs hb, ih]
  | v, 0, _, _, hf, _ => by
    exfalso
    cases v <;> simp [fuelOf] at hf
/-- Reading back the elements of a non-empty array. -/
theorem parseElems_render : (l : List JsVal) → (fuel : Nat) → (rest : List Char) →
    WellKeyedElems l → fuelOfElems l ≤ fuel → l ≠ [] →
    parseElems fuel ((renderElems l).tail ++ rest) = .ok (jsonifyElems l) rest
  | [], _, _, _, _, hne => absurd rfl hne
  | [x], fuel, rest, hk, hf, _ => by
    cases fuel with
    | zero => simp [fuelOfElems] at hf
    | succ f =>
      have ih := parseValue_render x f (']' :: rest) hk.1 (by simp only [fuelOfElems] at hf; omega)
        (endsNumber_cons _ _ (by decide) (by decide))
      simp only [renderElems, List.tail_cons, List.append_assoc, List.singleton_append,
        jsonifyElems]
      exact parseElems_last f _ rest _ ih
  | x :: y :: ys, fuel, rest, hk, hf, _ => by
    cases fuel with
    | zero => simp [fuelOfElems] at hf
    | succ f =>
      have ih := parseValue_render x f (',' :: (render y ++ renderElems ys ++ rest)) hk.1
        (by simp only [fuelOfElems] at hf; omega) (endsNumber_cons _ _ (by decide) (by decide))
      have ih2 := parseElems_render (y :: ys) f rest hk.2
        (by simp only [fuelOfElems] at hf ⊢; omega) (by simp)
      simp only [renderElems, List.tail_cons, List.append_assoc, List.cons_append,
        jsonifyElems] at ih ih2 ⊢
      exact parseElems_more f _ _ rest _ _ ih ih2
/-- Reading back the properties of an object that keeps at least one of them. -/
theorem parseProps_render : (ps : List (String × JsVal)) → (fuel : Nat) → (rest : List Char) →
    WellKeyedProps ps → jsonifyProps ps ≠ [] → fuelOfProps ps ≤ fuel →
    parseProps fuel (renderProps true ps ++ rest) = .ok (jsonifyProps ps) rest
  | [], _, _, _, hne, _ => absurd rfl hne
  | (k, v) :: ps, fuel, rest, hk, hne, hf => by
    by_cases hu : v = .undefined
    · subst hu
      have ih := parseProps_render ps fuel rest hk.2.2.2 (by simpa [jsonifyProps] using hne)
        (by simpa [fuelOfProps] using hf)
      simpa [renderProps, jsonifyProps] using ih
    · have hrp : renderProps true ((k, v) :: ps) =
          quote k ++ ':' :: (render v ++ renderProps false ps) := by
        cases v <;> simp_all [renderProps]
      have hjp : jsonifyProps ((k, v) :: ps) = (k, jsonify v) :: jsonifyProps ps := by
        cases v <;> simp_all [jsonifyProps]
      have hfp : fuelOfProps ((k, v) :: ps) = 1 + fuelOf v + fuelOfProps ps := by
        cases v <;> simp_all [fuelOfProps]
      rw [hfp] at hf
      cases fuel with
      | zero => omega
      | succ f =>
        rw [hrp, hjp]
        simp only [List.append_assoc, List.cons_append]
        have ihv := parseValue_render v f (renderProps false ps ++ rest) hk.2.2.1 (by omega)
          (endsNumber_renderProps ps rest)
        by_cases hp : jsonifyProps ps = []
        · rw [renderProps_of_jsonifyProps_nil _ _ hp] at ihv ⊢
          rw [hp]
          exact parseProps_last f k _ rest _ hk.1 ihv
        · rw [renderProps_false_of_kept _ hp] at ihv ⊢
          have ih := parseProps_render ps f rest hk.2.2.2 hp (by omega)
          refine parseProps_more f k _ _ rest _ _ hk.1 ?_ ihv ih
          intro p hpm
          obtain ⟨q, hq, hqk⟩ := jsonifyProps_keys ps p hpm
          rw [← hqk]
          exact hk.2.1 q hq
end

theorem natDigits_length_pos (n : Nat) : 0 < (natDigits n).length := by
  obtain ⟨c, cs, hc, _⟩ := natDigits_head n
  simp [hc]

mutual
theorem fuelOf_le_length : (v : JsVal) → fuelOf v ≤ (render v).length
  | .undefined => by simp [fuelOf, render]
  | .null => by simp [fuelOf, render]
  | .bool true => by simp [fuelOf, render]
  | .bool false => by simp [fuelOf, render]
  | .num n => by
    have := natDigits_length_pos n.natAbs
    simp only [fuelOf, render, intDigits]
    split
    · simp only [List.length_cons]; omega
    · omega
  | .nan => by simp [fuelOf, render]
  | .str s => by simp [fuelOf, render, quote]
  | .regexp _ _ => by simp [fuelOf, render]
  | .date none => by simp [fuelOf, render]
  | .date (some iso) => by simp [fuelOf, render, quote]
  | .arr [] => by simp [fuelOf, render, fuelOfElems]
  | .arr (x :: xs) => by
    have h1 := fuelOf_le_length x
    have h2 := fuelOfElems_lt_length xs
    simp only [fuelOf, render, fuelOfElems, List.length_cons, List.length_append]
    omega
  | .obj ps => by
    have h := fuelOfProps_lt_length true ps
    simp only [fuelOf, render, List.length_cons]
    omega
theorem fuelOfElems_lt_length : (xs : List JsVal) → fuelOfElems xs < (renderElems xs).length
  | [] => by simp [fuelOfElems, renderElems]
  | x :: xs => by
    have h1 := fuelOf_le_length x
    have h2 := fuelOfElems_lt_length xs
    simp only [fuelOfElems, renderElems, List.length_cons, List.length_append]
    omega
theorem fuelOfProps_lt_length : (b : Bool) → (ps : List (String × JsVal)) →
    fuelOfProps ps < (renderProps b ps).length
  | _, [] => by simp [fuelOfProps, renderProps]
  | b, (k, v) :: ps => by
    by_cases hu : v = .undefined
    · subst hu
      have h := fuelOfProps_lt_length b ps
      simpa [fuelOfProps, renderProps] using h
    · have h1 := fuelOf_le_length v
      have h2 := fuelOfProps_lt_length false ps
      have hrp : renderProps b ((k, v) :: ps) =
          (if b then [] else [',']) ++ (quote k ++ ':' :: (render v ++ renderProps false ps)) := by
        cases v <;> simp_all [renderProps]
      have hfp : fuelOfProps ((k, v) :: ps) = 1 + fuelOf v + fuelOfProps ps := by
        cases v <;> simp_all [fuelOfProps]
      rw [hrp, hfp]
      simp only [List.length_append, List.length_cons]
      omega
end

/-- The parser `JSON.parse` reads back the text `JSON.stringify` wrote for a value whose
objects have distinct, non-index keys. -/
theorem JSON.parse_stringify (v : JsVal) (text : String) (hk : WellKeyed v)
    (h : JSON.stringify v = some text) : JSON.parse text = .value (jsonify v) := by
  have ht : text = String.mk (render v) := by
    cases v <;> simp_all [JSON.stringify]
  subst ht
  have hlen : fuelOf v ≤ (String.mk (render v)).length + 1 := by
    have := fuelOf_le_length v
    simp only [String.length]
    omega
  have hp := parseValue_render v ((String.mk (render v)).length + 1) [] hk hlen endsNumber_nil
  simp only [List.append_nil, String.length] at hp
  simp [JSON.parse, String.length, String.toList, hp, skipWs]

/-! ## The rate limiter on records it wrote itself -/

theorem unix_subtractHours_window (m : Moment) :
    (m.subtractHours WINDOW_SIZE_IN_HOURS).unix = m.unix - 86400 := by
  simp only [Moment.subtractHours, Moment.unix, WINDOW_SIZE_IN_HOURS]
  omega

theorem unix_subtractHours_interval (m : Moment) :
    (m.subtractHours WINDOW_LOG_INTERVAL_IN_HOURS).unix = m.unix - 3600 := by
  simp only [Moment.subtractHours, Moment.unix, WINDOW_LOG_INTERVAL_IN_HOURS]
  omega

theorem wellKeyed_recordOf (r : List (Int × Int)) : WellKeyed (recordOf r) := by
  simp only [recordOf, WellKeyed]
  induction r with
  | nil => simp [WellKeyedElems]
  | cons e r ih =>
    simp only [List.map_cons, WellKeyedElems, ih, and_true]
    simp only [recordEntry, WellKeyed, WellKeyedProps]
    refine ⟨by decide, ?_, trivial, by decide, ?_, trivial, trivial⟩
    · intro p hp
      simp only [List.mem_singleton] at hp
      subst hp
      simp
    · intro p hp
      simp at hp

theorem jsonify_recordOf (r : List (Int × Int)) : jsonify (recordOf r) = recordOf r := by
  simp only [recordOf, jsonify]
  congr 1
  induction r with
  | nil => rfl
  | cons e r ih => simp [jsonifyElems, ih, recordEntry, jsonify, jsonifyProps]

theorem stringify_arr (xs : List JsVal) :
    JSON.stringify (.arr xs) = some (String.mk (render (.arr xs))) := rfl

theorem stringifyText_arr (xs : List JsVal) :
    stringifyText (.arr xs) = String.mk (render (.arr xs)) := rfl

/-- The stored text of a record reads back as the record. -/
theorem jsonParse_recordText (r : List (Int × Int)) :
    jsonParse (recordText r) = .ok (recordOf r) := by
  have h := JSON.parse_stringify (recordOf r) (recordText r) (wellKeyed_recordOf r) rfl
  simp [jsonParse, h, jsonify_recordOf]

theorem filterWithinWindow_record (w : Int) (r : List (Int × Int)) :
    filterWithinWindow w (r.map recordEntry) =
      .ok ((r.filter (fun e => decide (e.1 > w))).map recordEntry) := by
  induction r with
  | nil => rfl
  | cons e r ih =>
    simp only [List.map_cons, filterWithinWindow, ih]
    by_cases h : e.1 > w <;>
      simp [recordEntry, getProp, getField, List.lookup, JsRes.bind, gtNum, toNumber, h]

theorem sumRequestCounts_record (a : Int) (r : List (Int × Int)) :
    sumRequestCounts (some a) (r.map recordEntry) = .ok (some (a + (r.map (·.2)).sum)) := by
  induction r generalizing a with
  | nil => simp [sumRequestCounts]
  | cons e r ih =>
    simp only [List.map_cons, sumRequestCounts]
    have : (getProp (recordEntry e) "requestCount") = .ok (.num e.2) := by
      simp [recordEntry, getProp, getField, List.lookup]
    simp only [this, JsRes.bind, addNum, toNumber, Option.map_some', ih, List.sum_cons]
    congr 2
    omega

theorem lastOf_record (r : List (Int × Int)) :
    lastOf (r.map recordEntry) =
      match r.getLast? with
      | some e => recordEntry e
      | none => .undefined := by
  simp only [lastOf, List.getLast?_map]
  cases r.getLast? <;> rfl

theorem lookup_upsert_same (es : List (String × Stored)) (k v : String) (ttl : Option Nat)
    (rank : Nat) : ((upsert es k v ttl rank).lookup k).map (·.value) = some v := by
  induction es with
  | nil => simp [upsert, List.lookup]
  | cons e es ih =>
    rcases e with ⟨k1, v1⟩
    by_cases h : k1 = k
    · simp [upsert, h, List.lookup]
    · have h2 : (k == k1) = false := by simpa using fun h3 => h h3.symm
      simp [upsert, h, List.lookup, h2, ih]

/-- A key reads back the value an unconditional `SET` gave it. -/
theorem MemStore.get_set (s : MemStore) (k v : String) :
    (s.set k v {}).get k = some v := by
  unfold MemStore.set MemStore.get
  split <;> simp [lookup_upsert_same]

/-- The first request of a client: the record is created and the request passes. -/
theorem limiter_first (req : Request) (s : MemStore) (m1 m2 : Moment) (es : List Effect)
    (h : s.get req.ip = none) :
    customRedisRateLimiter (some memClient) m1 m2 ⟨s, req, es⟩ =
      .ok () ⟨s.set req.ip (recordText [(m1.unix, 1)]) {}, req, es ++ [.next none]⟩ := by
  simp [customRedisRateLimiter, tryCatch, bind, Handler.bind, getReq, redisGet, memClient, h,
    redisSet, next, emit, recordText, recordOf, recordEntry]

theorem errorLogger_rejection (req : Request) (st : HState σ) :
    errorLogger [("statusCode", .num 429), ("message", .str limitMessage)] req (some next) st =
      .ok () { st with effects := st.effects ++ [.log (rejectionLog req), .next none] } := by
  have h1 : (getField [("statusCode", JsVal.num 429), ("message", .str limitMessage)]
      "statusCode") = .num 429 := rfl
  have h2 : (getField [("statusCode", JsVal.num 429), ("message", .str limitMessage)]
      "message") = .str limitMessage := rfl
  have h3 : (JsVal.str limitMessage).truthy = true := by decide
  have h4 : intText 429 = "429" := by decide
  have h5 : (JsVal.num 429).truthy = true := rfl
  simp only [errorLogger, h1, h2, h3, h5, if_true, bind, Handler.bind, liftRes, templateText,
    emit, next, h4, rejectionLog, List.append_assoc, List.cons_append, List.nil_append]

theorem incrementLast_record (r : List (Int × Int)) (last : Int × Int) :
    incrementLast (r.map recordEntry)
        [("requestTimeStamp", .num last.1), ("requestCount", .num last.2)] =
      .ok ((r.dropLast ++ [(last.1, last.2 + 1)]).map recordEntry) := by
  simp [incrementLast, getField, List.lookup, toNumber, JsRes.bind, setField, recordEntry,
    List.dropLast_eq_take, List.map_take]

/-- A later request of a client whose record is one the limiter wrote. -/
theorem limiter_step (req : Request) (s : MemStore) (m1 m2 : Moment) (es : List Effect)
    (r : List (Int × Int)) (last : Int × Int) (h : s.get req.ip = some (recordText r))
    (hl : r.getLast? = some last) :
    customRedisRateLimiter (some memClient) m1 m2 ⟨s, req, es⟩ =
      if windowTotal (m2.unix - 86400) r ≥ 5 then
        .ok () ⟨s, req, es ++ rejectionEffects req⟩
      else
        .ok () ⟨s.set req.ip (recordText (nextRecord m1.unix r last)) {}, req,
          es ++ [.next none]⟩ := by
  have hlast := lastOf_record r
  rw [hl] at hlast
  simp only [customRedisRateLimiter, tryCatch, bind, Handler.bind, getReq, redisGet, memClient, h,
    liftRes, jsonParse_recordText, recordOf, asArray, unix_subtractHours_window,
    filterWithinWindow_record, sumRequestCounts_record, zero_add, hlast,
    unix_subtractHours_interval]
  by_cases ht : windowTotal (m2.unix - 86400) r ≥ 5
  · have hg : geNum (some (List.map (fun x => x.2)
        (List.filter (fun e => decide (e.1 > m2.unix - 86400)) r)).sum)
        MAX_WINDOW_REQUEST_COUNT = true := by
      simpa [geNum, MAX_WINDOW_REQUEST_COUNT, windowTotal] using ht
    simp only [hg, if_true, ht, Handler.bind, errorLogger_rejection, respond, emit,
      rejectionEffects, List.append_assoc, List.cons_append, List.nil_append]
  · have hg : geNum (some (List.map (fun x => x.2)
        (List.filter (fun e => decide (e.1 > m2.unix - 86400)) r)).sum)
        MAX_WINDOW_REQUEST_COUNT = false := by
      simpa [geNum, MAX_WINDOW_REQUEST_COUNT, windowTotal] using ht
    have hp : getProp (recordEntry last) "requestTimeStamp" = .ok (.num last.1) := rfl
    simp only [hg, Bool.false_eq_true, if_false, ht, hp, gtNum, toNumber]
    by_cases hw : last.1 > m1.unix - 3600
    · simp only [hw, decide_True, if_true, recordEntry, incrementLast_record r last,
        redisSet, next, emit, nextRecord, recordText, recordOf, bind, Handler.bind]
    · simp only [hw, decide_False, Bool.false_eq_true, if_false, redisSet, next, emit,
        nextRecord, recordText, recordOf, pure, Handler.pure, List.map_append, List.map_cons,
        List.map_nil, recordEntry, bind, Handler.bind]

theorem serveAll_limiter_first (req : Request) (s : MemStore) (m : Moment) (ms : List Moment)
    (h : s.get req.ip = none) :
    serveAll limiter req (m :: ms) s =
      (serveAll limiter req ms (s.set req.ip (recordText [(m.unix, 1)]) {})).map
        fun x => ([.next none] :: x.1, x.2) := by
  simp [serveAll, limiter, limiter_first req s m m [] h]

theorem serveAll_limiter_pass (req : Request) (s : MemStore) (m : Moment) (ms : List Moment)
    (r : List (Int × Int)) (last : Int × Int) (h : s.get req.ip = some (recordText r))
    (hl : r.getLast? = some last) (ht : windowTotal (m.unix - 86400) r < 5) :
    serveAll limiter req (m :: ms) s =
      (serveAll limiter req ms (s.set req.ip (recordText (nextRecord m.unix r last)) {})).map
        fun x => ([.next none] :: x.1, x.2) := by
  have hn : ¬ windowTotal (m.unix - 86400) r ≥ 5 := by omega
  simp [serveAll, limiter, limiter_step req s m m [] r last h hl, hn]

theorem serveAll_limiter_reject (req : Request) (s : MemStore) (m : Moment) (ms : List Moment)
    (r : List (Int × Int)) (last : Int × Int) (h : s.get req.ip = some (recordText r))
    (hl : r.getLast? = some last) (ht : windowTotal (m.unix - 86400) r ≥ 5) :
    serveAll limiter req (m :: ms) s =
      (serveAll limiter req ms s).map fun x => (rejectionEffects req :: x.1, x.2) := by
  simp [serveAll, limiter, limiter_step req s m m [] r last h hl, ht]

/-- Within one log interval of its only entry, a record with `k` requests passes the next
request when `k < 5` and counts it in that entry. -/
theorem serveAll_limiter_burst (req : Request) (s : MemStore) (m : Moment) (ms : List Moment)
    (t0 k : Int) (h : s.get req.ip = some (recordText [(t0, k)])) (hk : k < 5)
    (ht : m.unix < t0 + 3600) :
    serveAll limiter req (m :: ms) s =
      (serveAll limiter req ms (s.set req.ip (recordText [(t0, k + 1)]) {})).map
        fun x => ([.next none] :: x.1, x.2) := by
  have hw : windowTotal (m.unix - 86400) [(t0, k)] < 5 := by
    have : t0 > m.unix - 86400 := by omega
    simp [windowTotal, this, hk]
  rw [serveAll_limiter_pass req s m ms [(t0, k)] (t0, k) h rfl hw]
  have : nextRecord m.unix [(t0, k)] (t0, k) = [(t0, k + 1)] := by
    have : t0 > m.unix - 3600 := by omega
    simp [nextRecord, this]
  rw [this]

/-- C1.  Rate window of `customRedisRateLimiter` for one client with no stored record, with
at most 5 requests per 24 h window: five requests in second 0 all pass (`next()` is called
and nothing is sent), a sixth request in second 1 is answered with status 429 and the limit
message (after the log line and the call of `next` that `errorLogger` makes), and a request
in second 86401, when the window has elapsed, passes again. -/
theorem rate_window_correct (req : Request) (s : MemStore) (m0 m1 m2 m3 m4 m5 m6 : Moment)
    (h : s.get req.ip = none)
    (h0 : m0.unix = 0) (h1 : m1.unix = 0) (h2 : m2.unix = 0) (h3 : m3.unix = 0)
    (h4 : m4.unix = 0) (h5 : m5.unix = 1) (h6 : m6.unix = 86401) :
    (serveAll limiter req [m0, m1, m2, m3, m4, m5, m6] s).map (·.1) =
      some [[.next none], [.next none], [.next none], [.next none], [.next none],
        [.log (rejectionLog req), .next none,
          .respond 429 (.obj [("message", .str limitMessage)])],
        [.next none]] := by
  rw [serveAll_limiter_first req s m0 _ h, h0]
  rw [serveAll_limiter_burst req _ m1 _ 0 1 (MemStore.get_set _ _ _) (by decide) (by omega)]
  rw [serveAll_limiter_burst req _ m2 _ 0 (1 + 1) (MemStore.get_set _ _ _) (by decide)
    (by omega)]
  rw [serveAll_limiter_burst req _ m3 _ 0 (1 + 1 + 1) (MemStore.get_set _ _ _) (by decide)
    (by omega)]
  rw [serveAll_limiter_burst req _ m4 _ 0 (1 + 1 + 1 + 1) (MemStore.get_set _ _ _) (by decide)
    (by omega)]
  rw [serveAll_limiter_reject req _ m5 _ [(0, 1 + 1 + 1 + 1 + 1)] (0, 1 + 1 + 1 + 1 + 1)
    (MemStore.get_set _ _ _) rfl (by rw [h5]; decide)]
  rw [serveAll_limiter_pass req _ m6 _ [(0, 1 + 1 + 1 + 1 + 1)] (0, 1 + 1 + 1 + 1 + 1)
    (MemStore.get_set _ _ _) rfl (by rw [h6]; decide)]
  simp [serveAll, rejectionEffects]

theorem rate_window_correct_witness :
    (serveAll limiter exampleRequest
        [atSecond 0, atSecond 0, atSecond 0, atSecond 0, atSecond 0, atSecond 1,
          atSecond 86401] MemStore.empty).map (·.1) =
      some [[.next none], [.next none], [.next none], [.next none], [.next none],
        [.log (rejectionLog exampleRequest), .next none,
          .respond 429 (.obj [("message", .str limitMessage)])],
        [.next none]] :=
  rate_window_correct exampleRequest MemStore.empty _ _ _ _ _ _ _ rfl rfl rfl rfl rfl rfl
    rfl rfl

/-- C2.  Six requests of a client with no stored record, at non-decreasing times within one
log interval of the first (`t5 < t0 + 3600`): the first five pass with nothing sent, the
sixth is the only one answered, with status 429 and a message naming the maximum 5 and the
window of 24 hrs. -/
theorem burst_one_rejection (req : Request) (s : MemStore) (m0 m1 m2 m3 m4 m5 : Moment)
    (h : s.get req.ip = none)
    (_h01 : m0.unix ≤ m1.unix) (h12 : m1.unix ≤ m2.unix) (h23 : m2.unix ≤ m3.unix)
    (h34 : m3.unix ≤ m4.unix) (h45 : m4.unix ≤ m5.unix)
    (h50 : m5.unix < m0.unix + WINDOW_LOG_INTERVAL_IN_HOURS * 3600) :
    (serveAll limiter req [m0, m1, m2, m3, m4, m5] s).map (·.1) =
      some [[.next none], [.next none], [.next none], [.next none], [.next none],
        [.log (rejectionLog req), .next none,
          .respond 429 (.obj [("message",
            .str "You have exceeded the 5 requests in 24 hrs limit!")])]] := by
  have h50' : m5.unix < m0.unix + 3600 := by
    simpa [WINDOW_LOG_INTERVAL_IN_HOURS] using h50
  rw [serveAll_limiter_first req s m0 _ h]
  rw [serveAll_limiter_burst req _ m1 _ m0.unix 1 (MemStore.get_set _ _ _) (by decide)
    (by omega)]
  rw [serveAll_limiter_burst req _ m2 _ m0.unix (1 + 1) (MemStore.get_set _ _ _) (by decide)
    (by omega)]
  rw [serveAll_limiter_burst req _ m3 _ m0.unix (1 + 1 + 1) (MemStore.get_set _ _ _)
    (by decide) (by omega)]
  rw [serveAll_limiter_burst req _ m4 _ m0.unix (1 + 1 + 1 + 1) (MemStore.get_set _ _ _)
    (by decide) (by omega)]
  rw [serveAll_limiter_reject req _ m5 _ [(m0.unix, 1 + 1 + 1 + 1 + 1)]
    (m0.unix, 1 + 1 + 1 + 1 + 1) (MemStore.get_set _ _ _) rfl
    (by
      have : m0.unix > m5.unix - 86400 := by omega
      simp [windowTotal, this])]
  have hm : limitMessage = "You have exceeded the 5 requests in 24 hrs limit!" := by decide
  simp [serveAll, rejectionEffects, hm]

theorem burst_one_rejection_witness :
    (serveAll limiter exampleRequest
        [atSecond 100, atSecond 100, atSecond 250, atSecond 900, atSecond 3000,
          atSecond 3699] MemStore.empty).map (·.1) =
      some [[.next none], [.next none], [.next none], [.next none], [.next none],
        [.log (rejectionLog exampleRequest), .next none,
          .respond 429 (.obj [("message",
            .str "You have exceeded the 5 requests in 24 hrs limit!")])]] :=
  burst_one_rejection exampleRequest MemStore.empty _ _ _ _ _ _ rfl (by decide) (by decide)
    (by decide) (by decide) (by decide) (by decide)

/-- C3.  At the sixth request of C1 (record `[{requestTimeStamp: 0, requestCount: 5}]` of
client `::1`, request in second 1) the limiter answers 429 but, through the `next` it hands
to `errorLogger`, also calls `next()`: the rejected request is passed on. -/
theorem rejection_passes_request_on :
    limiter (atSecond 1)
        ⟨MemStore.empty.set "::1" (recordText [(0, 5)]) {}, exampleRequest, []⟩ =
      .ok () ⟨MemStore.empty.set "::1" (recordText [(0, 5)]) {}, exampleRequest,
        [.log "GET::/api/v1/events::429 - source: ::1 => You have exceeded the 5 requests in 24 hrs limit!",
          .next none,
          .respond 429 (.obj [("message",
            .str "You have exceeded the 5 requests in 24 hrs limit!")])]⟩ := by
  rfl

/-- C4.  When the in-window total of the client's record reaches the maximum, the limiter
ends normally and leaves the store exactly as it was, whatever the client and the store:
it sends the 429 response and no command that writes. -/
theorem rejection_leaves_store (client : RedisClient σ) (m1 m2 : Moment) (st : HState σ)
    (record : String) (total : Option Int)
    (hget : client.get st.store st.req.ip = .ok (some record))
    (htotal : inWindowTotal record m2 = .ok total)
    (hge : geNum total MAX_WINDOW_REQUEST_COUNT = true) :
    customRedisRateLimiter (some client) m1 m2 st =
      .ok () { st with effects := st.effects ++ rejectionEffects st.req } := by
  unfold inWindowTotal at htotal
  cases hp : jsonParse record with
  | throw e => simp [hp, JsRes.bind] at htotal
  | unmodelled => simp [hp, JsRes.bind] at htotal
  | ok parsed =>
    cases ha : asArray parsed with
    | throw e => simp [hp, ha, JsRes.bind] at htotal
    | unmodelled => simp [hp, ha, JsRes.bind] at htotal
    | ok data =>
      cases hf : filterWithinWindow (m2.subtractHours WINDOW_SIZE_IN_HOURS).unix data with
      | throw e => simp [hp, ha, hf, JsRes.bind] at htotal
      | unmodelled => simp [hp, ha, hf, JsRes.bind] at htotal
      | ok within =>
        simp only [hp, ha, hf, JsRes.bind] at htotal
        simp only [customRedisRateLimiter, tryCatch, bind, Handler.bind, getReq, redisGet, hget,
          liftRes, hp, ha, hf, htotal, hge, if_true, errorLogger_rejection, respond, emit,
          rejectionEffects, List.append_assoc, List.cons_append, List.nil_append]

theorem rejection_leaves_store_witness :
    customRedisRateLimiter (some memClient) (atSecond 1) (atSecond 1)
        ⟨MemStore.empty.set "::1" (recordText [(0, 5)]) {}, exampleRequest, []⟩ =
      .ok () ⟨MemStore.empty.set "::1" (recordText [(0, 5)]) {}, exampleRequest,
        [] ++ rejectionEffects exampleRequest⟩ :=
  rejection_leaves_store memClient (atSecond 1) (atSecond 1)
    ⟨MemStore.empty.set "::1" (recordText [(0, 5)]) {}, exampleRequest, []⟩
    (recordText [(0, 5)]) (some 5) rfl rfl rfl

/-- C5.  With a single cached events key in the store, the first `SCAN` reply carries that key
together with the completion cursor `0`; `scanKeys` takes the cursor `0` for a malformed
reply, logs, and leaves the loop before `del`: the matching key is still in the store. -/
theorem scanKeys_keeps_last_batch (fuel : Nat) :
    scanKeys memClient (fuel + 1) (.str "0") "api-v1-events-*"
        ⟨MemStore.empty.set "api-v1-events-\x7b\x7d" "[1]" cacheFillOptions, exampleRequest, []⟩ =
      .ok () ⟨MemStore.empty.set "api-v1-events-\x7b\x7d" "[1]" cacheFillOptions, exampleRequest,
        [.log "scan reply does not have expected properties"]⟩ := by
  rfl

/-! ## The cache readers and fillers -/

theorem convertField_eq (k : String) (f : JsVal → JsRes JsVal) :
    (convertField k f : Handler σ Unit) = fun st => liftQ (convertFieldRes k f st.req.query) st := by
  funext st
  simp only [convertField, convertFieldRes, bind, Handler.bind, getReq, liftQ]
  by_cases ht : (getField st.req.query k).truthy = true
  · simp only [ht, if_true]
    cases hf : f (getField st.req.query k) <;> simp [liftRes, setQueryField, Handler.bind]
  · simp [ht, pure, Handler.pure]

theorem liftQ_bind (a : QRes) (g : List (String × JsVal) → QRes) (st : HState σ) :
    liftQ (a.bind g) st =
      Handler.bind (liftQ a) (fun _ st1 => liftQ (g st1.req.query) st1) st := by
  cases a with
  | ok q =>
    simp only [liftQ, QRes.bind, Handler.bind]
  | throw e q => rfl
  | unmodelled => rfl

/-- The conversion block only assigns to `req.query`: what it leaves is `convertQueryRes`. -/
theorem convertQuery_eq (B : Builtins) (st : HState σ) :
    convertQuery B st = liftQ (convertQueryRes B st.req.query) st := by
  simp only [convertQuery, convertQueryRes, bind, convertField_eq, liftQ_bind, Handler.bind]

theorem lookup_upsert_isSome (es : List (String × Stored)) (k v : String) (ttl : Option Nat)
    (rank : Nat) : ((upsert es k v ttl rank).lookup k).isSome = true := by
  have h := lookup_upsert_same es k v ttl rank
  cases hl : (upsert es k v ttl rank).lookup k with
  | none => simp [hl] at h
  | some x => rfl

/-- A fill of a key that is absent stores the value. -/
theorem MemStore.get_fill_absent (s : MemStore) (k v : String) (h : s.get k = none) :
    (s.set k v cacheFillOptions).get k = some v := by
  have hl : s.entries.lookup k = none := by
    simpa [MemStore.get] using h
  simp [MemStore.set, MemStore.get, hl, lookup_upsert_same]

/-- A fill of a key that a fill has written changes nothing. -/
theorem MemStore.fill_fill (s : MemStore) (k v1 v2 : String) :
    (s.set k v1 cacheFillOptions).set k v2 cacheFillOptions = s.set k v1 cacheFillOptions := by
  cases hl : (s.entries.lookup k).isSome with
  | true => simp [MemStore.set, hl, cacheFillOptions]
  | false =>
    have h2 := lookup_upsert_isSome s.entries k v1 cacheFillOptions.EX s.nextRank
    simp only [MemStore.set, hl, Bool.false_eq_true, if_false, h2, if_true]
    simp [cacheFillOptions]

theorem memClient_get (s : MemStore) (k : String) : memClient.get s k = .ok (s.get k) := rfl

theorem memClient_set (s : MemStore) (k v : String) (o : SetOptions) :
    memClient.set s k v o = .ok (s.set k v o) := rfl

theorem getEventsCacheData_miss (B : Builtins) (s : MemStore) (req : Request)
    (es : List Effect) (q : List (String × JsVal)) (hconv : convertQueryRes B req.query = .ok q)
    (hget : s.get (eventsCacheKey q) = none) :
    getEventsCacheData B memClient ⟨s, req, es⟩ =
      .ok () ⟨s, { req with query := q }, es ++ [.next none]⟩ := by
  simp only [getEventsCacheData, tryCatch, bind, Handler.bind, convertQuery_eq, hconv, liftQ,
    getReq, redisGet, memClient_get, hget, setQuery, next, emit]

theorem getEventsCacheData_hit (B : Builtins) (s : MemStore) (req : Request)
    (es : List Effect) (q : List (String × JsVal)) (text : String) (v : JsVal)
    (hconv : convertQueryRes B req.query = .ok q)
    (hget : s.get (eventsCacheKey q) = some text) (hne : text ≠ "")
    (hparse : jsonParse text = .ok v) :
    getEventsCacheData B memClient ⟨s, req, es⟩ =
      .ok () ⟨s, { req with query := q }, es ++ [.respond 200 (successBody true "data" v)]⟩ := by
  have hb : (text != "") = true := by simpa using hne
  simp only [getEventsCacheData, tryCatch, bind, Handler.bind, convertQuery_eq, hconv, liftQ,
    getReq, redisGet, memClient_get, hget, hb, if_true, liftRes, hparse, respond, emit]

theorem getEvents_fill (s : MemStore) (req : Request) (es : List Effect)
    (find : List (String × JsVal) → Except JsError (List JsVal)) (r : List JsVal)
    (hfind : find req.query = .ok r) (hne : r ≠ []) :
    getEvents memClient find ⟨s, req, es⟩ =
      .ok () ⟨s.set (eventsCacheKey req.query) (stringifyText (.arr r)) cacheFillOptions, req,
        es ++ [.respond 200 (successBody false "events" (.arr r))]⟩ := by
  have hl : r.length > 0 := List.length_pos.mpr hne
  simp only [getEvents, tryCatch, bind, Handler.bind, getReq, awaitDb, hfind, hl, if_true,
    redisSet, memClient_set, respond, emit]

theorem stringifyText_arr_ne (xs : List JsVal) : stringifyText (.arr xs) ≠ "" := by
  rw [stringifyText_arr]
  intro h
  have h2 := congrArg String.data h
  cases xs <;> simp [render] at h2

/-- C6, as stated, fails: two query objects with the same properties in a different
insertion order get different cache keys, on the read path (`getEventsCacheData`, after its
conversion) and on the write path (`getEvents`, from the converted query). -/
theorem key_depends_on_insertion_order :
    List.Perm [("isFree", JsVal.str "true"), ("isOnline", JsVal.str "true")]
        [("isOnline", JsVal.str "true"), ("isFree", JsVal.str "true")] ∧
      eventsReadKey exampleBuiltins [("isFree", .str "true"), ("isOnline", .str "true")] =
        some "api-v1-events-\x7b\"isFree\":true,\"isOnline\":true\x7d" ∧
      eventsReadKey exampleBuiltins [("isOnline", .str "true"), ("isFree", .str "true")] =
        some "api-v1-events-\x7b\"isOnline\":true,\"isFree\":true\x7d" ∧
      eventsReadKey exampleBuiltins [("isFree", .str "true"), ("isOnline", .str "true")] ≠
        eventsReadKey exampleBuiltins [("isOnline", .str "true"), ("isFree", .str "true")] ∧
      eventsCacheKey [("isFree", .bool true), ("isOnline", .bool true)] ≠
        eventsCacheKey [("isOnline", .bool true), ("isFree", .bool true)] := by
  refine ⟨List.Perm.swap _ _ _, rfl, rfl, by decide, by decide⟩

/-- C6, amended.  For one query object the key is the same on both paths: the key
`getEventsCacheData` reads on a miss is the key under which `getEvents` then writes. -/
theorem read_key_is_write_key (B : Builtins) (s : MemStore) (req : Request)
    (find : List (String × JsVal) → Except JsError (List JsVal)) (q : List (String × JsVal))
    (r : List JsVal) (k : String)
    (hkey : eventsReadKey B req.query = some k) (hconv : convertQueryRes B req.query = .ok q)
    (hmiss : s.get k = none) (hfind : find q = .ok r) (hne : r ≠ []) :
    getEventsCacheData B memClient ⟨s, req, []⟩ =
        .ok () ⟨s, { req with query := q }, [.next none]⟩ ∧
      getEvents memClient find ⟨s, { req with query := q }, []⟩ =
        .ok () ⟨s.set k (stringifyText (.arr r)) cacheFillOptions, { req with query := q },
          [.respond 200 (successBody false "events" (.arr r))]⟩ := by
  have hk : k = eventsCacheKey q := by
    simp only [eventsReadKey, hconv, Option.some.injEq] at hkey
    exact hkey.symm
  subst hk
  exact ⟨getEventsCacheData_miss B s req [] q hconv hmiss,
    getEvents_fill s { req with query := q } [] find r hfind hne⟩

theorem read_key_is_write_key_witness :
    getEventsCacheData exampleBuiltins memClient
        ⟨MemStore.empty, requestWith [("isFree", .str "true")], []⟩ =
        .ok () ⟨MemStore.empty, requestWith [("isFree", .bool true)], [.next none]⟩ ∧
      getEvents memClient (findConst [.obj [("title", .str "Fair")]])
        ⟨MemStore.empty, requestWith [("isFree", .bool true)], []⟩ =
        .ok () ⟨MemStore.empty.set "api-v1-events-\x7b\"isFree\":true\x7d"
            (stringifyText (.arr [.obj [("title", .str "Fair")]])) cacheFillOptions,
          requestWith [("isFree", .bool true)],
          [.respond 200 (successBody false "events" (.arr [.obj [("title", .str "Fair")]]))]⟩ :=
  read_key_is_write_key exampleBuiltins MemStore.empty (requestWith [("isFree", .str "true")])
    (findConst [.obj [("title", .str "Fair")]]) [("isFree", .bool true)]
    [.obj [("title", .str "Fair")]] "api-v1-events-\x7b\"isFree\":true\x7d" rfl rfl rfl rfl
    (by simp)

/-- C7.  Requests that search for different titles get one and the same events key, since a
`RegExp` is written as the empty object, and every users query gets the key
`api-v1-users-[object Object]`; so a search for `bar` is answered from the cache with the
events found for `foo`. -/
theorem different_filters_same_key :
    eventsReadKey exampleBuiltins [("title", .str "foo")] =
        some "api-v1-events-\x7b\"title\":\x7b\"$regex\":\x7b\x7d\x7d\x7d" ∧
      eventsReadKey exampleBuiltins [("title", .str "bar")] =
        some "api-v1-events-\x7b\"title\":\x7b\"$regex\":\x7b\x7d\x7d\x7d" ∧
      (∀ q1 q2 : List (String × JsVal),
        usersCacheKey q1 = "api-v1-users-[object Object]" ∧ usersCacheKey q1 = usersCacheKey q2) ∧
      getEventsCacheData exampleBuiltins memClient
        ⟨MemStore.empty.set "api-v1-events-\x7b\"title\":\x7b\"$regex\":\x7b\x7d\x7d\x7d"
          (stringifyText (.arr [.obj [("title", .str "foo fair")]])) cacheFillOptions,
          requestWith [("title", .str "bar")], []⟩ =
        .ok () ⟨MemStore.empty.set "api-v1-events-\x7b\"title\":\x7b\"$regex\":\x7b\x7d\x7d\x7d"
          (stringifyText (.arr [.obj [("title", .str "foo fair")]])) cacheFillOptions,
          requestWith [("title", .obj [("$regex", .regexp "bar" "i")])],
          [.respond 200 (successBody true "data" (.arr [.obj [("title", .str "foo fair")]]))]⟩ := by
  refine ⟨rfl, rfl, fun _ _ => ⟨rfl, rfl⟩, rfl⟩

/-- C8.  Events list, read after write: when the conversion of the query parameters ends
normally, the store has no entry under the derived key and the database returns the
non-empty list `r`, the first request misses (`next()` is called), `getEvents` answers 200
and fills the cache, and a second request with the same parameters is answered from the
cache, `fromCache` true and `data` the value `JSON.parse` reads from the text
`JSON.stringify` wrote for `r`, without a call of `next`. -/
theorem events_read_after_write (B : Builtins) (s : MemStore) (req : Request)
    (find : List (String × JsVal) → Except JsError (List JsVal)) (q : List (String × JsVal))
    (r : List JsVal)
    (hconv : convertQueryRes B req.query = .ok q)
    (habs : s.get (eventsCacheKey q) = none)
    (hfind : find q = .ok r) (hne : r ≠ []) (hk : WellKeyed (.arr r)) :
    ∃ s1,
      getEventsCacheData B memClient ⟨s, req, []⟩ =
        .ok () ⟨s, { req with query := q }, [.next none]⟩ ∧
      getEvents memClient find ⟨s, { req with query := q }, []⟩ =
        .ok () ⟨s1, { req with query := q },
          [.respond 200 (successBody false "events" (.arr r))]⟩ ∧
      JSON.parse (stringifyText (.arr r)) = .value (jsonify (.arr r)) ∧
      getEventsCacheData B memClient ⟨s1, req, []⟩ =
        .ok () ⟨s1, { req with query := q },
          [.respond 200 (successBody true "data" (jsonify (.arr r)))]⟩ := by
  have hp := JSON.parse_stringify (.arr r) (stringifyText (.arr r)) hk rfl
  refine ⟨s.set (eventsCacheKey q) (stringifyText (.arr r)) cacheFillOptions,
    getEventsCacheData_miss B s req [] q hconv habs,
    getEvents_fill s { req with query := q } [] find r hfind hne, hp, ?_⟩
  exact getEventsCacheData_hit B _ req [] q (stringifyText (.arr r)) (jsonify (.arr r)) hconv
    (MemStore.get_fill_absent s _ _ habs) (stringifyText_arr_ne r) (by simp [jsonParse, hp])

theorem events_read_after_write_witness :
    ∃ s1,
      getEventsCacheData exampleBuiltins memClient
          ⟨MemStore.empty, requestWith [("isFree", .str "true")], []⟩ =
        .ok () ⟨MemStore.empty, { requestWith [("isFree", .str "true") ] with
          query := [("isFree", .bool true)] }, [.next none]⟩ ∧
      getEvents memClient (findConst [.obj [("title", .str "Fair"), ("price", .num 5)]])
          ⟨MemStore.empty, { requestWith [("isFree", .str "true")] with
            query := [("isFree", .bool true)] }, []⟩ =
        .ok () ⟨s1, { requestWith [("isFree", .str "true")] with
            query := [("isFree", .bool true)] },
          [.respond 200 (successBody false "events"
            (.arr [.obj [("title", .str "Fair"), ("price", .num 5)]]))]⟩ ∧
      JSON.parse (stringifyText (.arr [.obj [("title", .str "Fair"), ("price", .num 5)]])) =
        .value (jsonify (.arr [.obj [("title", .str "Fair"), ("price", .num 5)]])) ∧
      getEventsCacheData exampleBuiltins memClient
          ⟨s1, requestWith [("isFree", .str "true")], []⟩ =
        .ok () ⟨s1, { requestWith [("isFree", .str "true")] with
            query := [("isFree", .bool true)] },
          [.respond 200 (successBody true "data"
            (jsonify (.arr [.obj [("title", .str "Fair"), ("price", .num 5)]])))]⟩ :=
  events_read_after_write exampleBuiltins MemStore.empty (requestWith [("isFree", .str "true")])
    (findConst [.obj [("title", .str "Fair"), ("price", .num 5)]]) [("isFree", .bool true)]
    [.obj [("title", .str "Fair"), ("price", .num 5)]] rfl rfl rfl (by simp)
    (by
      simp only [WellKeyed, WellKeyedElems, WellKeyedProps, and_true]
      refine ⟨by decide, ?_, by decide, ?_⟩
      · intro p hp
        simp only [List.mem_singleton] at hp
        subst hp
        decide
      · refine ⟨by decide, ?_⟩
        intro p hp
        simp at hp)

/-- C9.  After `getUser` has found and cached the user with id `42` (under the key
`api-v1-users-42`), `getUserFromCache` for the same id reads the key `api-v1-user-42`, finds
nothing and calls `next()`. -/
theorem user_read_misses_after_write :
    getUser memClient (fun _ => .ok (some (.obj [("name", .str "Ada")])))
        ⟨MemStore.empty, exampleRequest, []⟩ =
      .ok () ⟨MemStore.empty.set "api-v1-users-42" "\x7b\"name\":\"Ada\"\x7d" cacheFillOptions,
        exampleRequest, [.next (some (referenceError "UserDemographics is not defined"))]⟩ ∧
    getUserFromCache memClient
        ⟨MemStore.empty.set "api-v1-users-42" "\x7b\"name\":\"Ada\"\x7d" cacheFillOptions,
          exampleRequest, []⟩ =
      .ok () ⟨MemStore.empty.set "api-v1-users-42" "\x7b\"name\":\"Ada\"\x7d" cacheFillOptions,
        exampleRequest, [.next none]⟩ ∧
    ∀ id : String, "api-v1-user-" ++ id ≠ "api-v1-users-" ++ id := by
  refine ⟨rfl, rfl, ?_⟩
  intro id h
  have h2 := congrArg String.length h
  simp [String.length_append] at h2
  have h3 : "api-v1-user-".length = 12 := by decide
  have h4 : "api-v1-users-".length = 13 := by decide
  omega

theorem firstWriterWins_of_fill (s : MemStore) (req : Request)
    (fill1 fill2 : Handler MemStore Unit) (key v1 v2 : String) (e1 e2 : List Effect)
    (h1 : ∀ s0 : MemStore, fill1 ⟨s0, req, []⟩ =
      .ok () ⟨s0.set key v1 cacheFillOptions, req, e1⟩)
    (h2 : ∀ s0 : MemStore, fill2 ⟨s0, req, []⟩ =
      .ok () ⟨s0.set key v2 cacheFillOptions, req, e2⟩) :
    FirstWriterWins s req fill1 fill2 key v1 := by
  refine ⟨s.set key v1 cacheFillOptions, e1, e2, h1 s, ?_, MemStore.get_fill_absent s key v1⟩
  rw [h2, MemStore.fill_fill]

theorem getEvent_fill (s : MemStore) (req : Request) (doc : JsVal) :
    getEvent memClient (findByIdConst doc) ⟨s, req, []⟩ =
      .ok () ⟨s.set ("api-v1-events-" ++ req.id) (stringifyText doc) cacheFillOptions, req,
        [.respond 200 (successBody false "event" doc)]⟩ := by
  simp [getEvent, tryCatch, bind, Handler.bind, getReq, awaitDb, findByIdConst, redisSet,
    memClient_set, respond, emit]

theorem getUsers_fill (s : MemStore) (req : Request) (r : List JsVal) (hne : r ≠ []) :
    getUsers memClient (findConst r) ⟨s, req, []⟩ =
      .ok () ⟨s.set (usersCacheKey req.query) (stringifyText (.arr r)) cacheFillOptions, req,
        [.respond 200 (successBody false "users" (.arr r))]⟩ := by
  have hl : r.length > 0 := List.length_pos.mpr hne
  simp [getUsers, tryCatch, bind, Handler.bind, getReq, awaitDb, findConst, hl, redisSet,
    memClient_set, respond, emit]

theorem getUser_fill (s : MemStore) (req : Request) (doc : JsVal) :
    getUser memClient (findByIdConst doc) ⟨s, req, []⟩ =
      .ok () ⟨s.set ("api-v1-users-" ++ req.id) (stringifyText doc) cacheFillOptions, req,
        [.next (some (referenceError "UserDemographics is not defined"))]⟩ := by
  simp [getUser, tryCatch, bind, Handler.bind, getReq, awaitDb, findByIdConst, redisSet,
    memClient_set, throwJs, next, emit]

theorem getArtsWork_fill (s : MemStore) (req : Request) (r : List JsVal) (hne : r ≠ []) :
    getArtsWork memClient (findConst r) ⟨s, req, []⟩ =
      .ok () ⟨s.set ("api-v1-arts-" ++ stringifyText (.obj req.query)) (stringifyText (.arr r))
        cacheFillOptions, req, [.respond 200 (successBody false "arts" (.arr r))]⟩ := by
  have hl : r.length > 0 := List.length_pos.mpr hne
  simp [getArtsWork, tryCatch, bind, Handler.bind, getReq, awaitDb, findConst, hl, redisSet,
    memClient_set, respond, emit]

theorem getArtWork_fill (s : MemStore) (req : Request) (doc : JsVal) :
    getArtWork memClient (findByIdConst doc) ⟨s, req, []⟩ =
      .ok () ⟨s.set ("api-v1-art-" ++ req.id) (stringifyText doc) cacheFillOptions, req,
        [.respond 200 (successBody false "art" doc)]⟩ := by
  simp [getArtWork, tryCatch, bind, Handler.bind, getReq, awaitDb, findByIdConst, redisSet,
    memClient_set, respond, emit]

theorem getAttendance_fill (s : MemStore) (req : Request) (c : Nat) (hc : c ≠ 0)
    (hev : (getField req.query "event").truthy = true) :
    getAttendance memClient (.ok c) ⟨s, req, []⟩ =
      .ok () ⟨s.set ("api-v1-reports-attendance-" ++ stringifyText (.obj req.query))
        (stringifyText (.num c)) cacheFillOptions, req,
        [.respond 200 (successBody false "countAttendees" (.num c))]⟩ := by
  simp [getAttendance, tryCatch, bind, Handler.bind, getReq, awaitDb, hev, hc, redisSet,
    memClient_set, respond, emit]

/-- C10.  Every cache fill of the read controllers is a `SET ... NX`: when one of
`getEvents`, `getEvent`, `getUsers`, `getUser`, `getArtsWork`, `getArtWork`, `getAttendance`
fills the key of a request twice, with whatever values the database returns the two times,
the second fill leaves the store as the first left it, and a key that was absent at the
start holds the first value. -/
theorem cache_fill_write_once (s : MemStore) (req : Request) (r1 r2 : List JsVal)
    (d1 d2 : JsVal) (c1 c2 : Nat) (hr1 : r1 ≠ []) (hr2 : r2 ≠ []) (hc1 : c1 ≠ 0) (hc2 : c2 ≠ 0)
    (hev : (getField req.query "event").truthy = true) :
    FirstWriterWins s req (getEvents memClient (findConst r1)) (getEvents memClient (findConst r2))
        (eventsCacheKey req.query) (stringifyText (.arr r1)) ∧
      FirstWriterWins s req (getEvent memClient (findByIdConst d1))
        (getEvent memClient (findByIdConst d2)) ("api-v1-events-" ++ req.id) (stringifyText d1) ∧
      FirstWriterWins s req (getUsers memClient (findConst r1)) (getUsers memClient (findConst r2))
        (usersCacheKey req.query) (stringifyText (.arr r1)) ∧
      FirstWriterWins s req (getUser memClient (findByIdConst d1))
        (getUser memClient (findByIdConst d2)) ("api-v1-users-" ++ req.id) (stringifyText d1) ∧
      FirstWriterWins s req (getArtsWork memClient (findConst r1))
        (getArtsWork memClient (findConst r2))
        ("api-v1-arts-" ++ stringifyText (.obj req.query)) (stringifyText (.arr r1)) ∧
      FirstWriterWins s req (getArtWork memClient (findByIdConst d1))
        (getArtWork memClient (findByIdConst d2)) ("api-v1-art-" ++ req.id) (stringifyText d1) ∧
      FirstWriterWins s req (getAttendance memClient (.ok c1)) (getAttendance memClient (.ok c2))
        ("api-v1-reports-attendance-" ++ stringifyText (.obj req.query))
        (stringifyText (.num c1)) := by
  refine ⟨?_, ?_, ?_, ?_, ?_, ?_, ?_⟩
  · exact firstWriterWins_of_fill s req _ _ _ _ _ _ _
      (fun s0 => getEvents_fill s0 req [] (findConst r1) r1 rfl hr1)
      (fun s0 => getEvents_fill s0 req [] (findConst r2) r2 rfl hr2)
  · exact firstWriterWins_of_fill s req _ _ _ _ _ _ _
      (fun s0 => getEvent_fill s0 req d1) (fun s0 => getEvent_fill s0 req d2)
  · exact firstWriterWins_of_fill s req _ _ _ _ _ _ _
      (fun s0 => getUsers_fill s0 req r1 hr1) (fun s0 => getUsers_fill s0 req r2 hr2)
  · exact firstWriterWins_of_fill s req _ _ _ _ _ _ _
      (fun s0 => getUser_fill s0 req d1) (fun s0 => getUser_fill s0 req d2)
  · exact firstWriterWins_of_fill s req _ _ _ _ _ _ _
      (fun s0 => getArtsWork_fill s0 req r1 hr1) (fun s0 => getArtsWork_fill s0 req r2 hr2)
  · exact firstWriterWins_of_fill s req _ _ _ _ _ _ _
      (fun s0 => getArtWork_fill s0 req d1) (fun s0 => getArtWork_fill s0 req d2)
  · exact firstWriterWins_of_fill s req _ _ _ _ _ _ _
      (fun s0 => getAttendance_fill s0 req c1 hc1 hev)
      (fun s0 => getAttendance_fill s0 req c2 hc2 hev)

theorem cache_fill_write_once_witness :
    FirstWriterWins MemStore.empty (requestWith [("event", .str "e1")])
      (getEvents memClient (findConst [.num 1])) (getEvents memClient (findConst [.num 2]))
      (eventsCacheKey [("event", .str "e1")]) (stringifyText (.arr [.num 1])) :=
  (cache_fill_write_once MemStore.empty (requestWith [("event", .str "e1")]) [.num 1] [.num 2]
    (.str "a") (.str "b") 3 4 (by simp) (by simp) (by decide) (by decide) rfl).1

/-! ## Runs of the rate limiter on the records it writes -/

theorem stepRecord_ne_nil (now : Int) (r : List (Int × Int)) (hr : r ≠ []) :
    stepRecord now r ≠ [] := by
  unfold stepRecord
  split
  · exact hr
  · cases hl : r.getLast? with
    | none => simpa using hr
    | some last =>
      simp only [nextRecord]
      split <;> simp

theorem allowed_rejectionEffects (req : Request) : allowed (rejectionEffects req) = false := rfl

/-- A run of requests from a store that holds a record the limiter wrote: every request ends
normally, and the record and the allowed requests are those of `runRecord` and
`runAllowed`. -/
theorem serveAll_limiter_run (req : Request) (ms : List Moment) :
    ∀ (s : MemStore) (r : List (Int × Int)), r ≠ [] → s.get req.ip = some (recordText r) →
      ∃ outs s1, serveAll limiter req ms s = some (outs, s1) ∧
        s1.get req.ip = some (recordText (runRecord (ms.map Moment.unix) r)) ∧
        allowedTimes ms outs = runAllowed (ms.map Moment.unix) r := by
  induction ms with
  | nil =>
    intro s r _ h
    exact ⟨[], s, rfl, h, rfl⟩
  | cons m ms ih =>
    intro s r hr h
    obtain ⟨last, hl⟩ : ∃ last, r.getLast? = some last := by
      cases hl : r.getLast? with
      | none => exact absurd (List.getLast?_eq_none_iff.mp hl) hr
      | some last => exact ⟨last, rfl⟩
    by_cases ht : windowTotal (m.unix - 86400) r ≥ 5
    · obtain ⟨outs, s1, h1, h2, h3⟩ := ih s r hr h
      refine ⟨rejectionEffects req :: outs, s1, ?_, ?_, ?_⟩
      · rw [serveAll_limiter_reject req s m ms r last h hl ht, h1]; rfl
      · simpa [runRecord, stepRecord, ht] using h2
      · simp [allowedTimes, allowed_rejectionEffects, runAllowed, ht, h3]
    · have hlt : windowTotal (m.unix - 86400) r < 5 := by omega
      have hstep : stepRecord m.unix r = nextRecord m.unix r last := by
        simp [stepRecord, ht, hl]
      obtain ⟨outs, s1, h1, h2, h3⟩ := ih (s.set req.ip (recordText (nextRecord m.unix r last)) {})
        (nextRecord m.unix r last) (by rw [← hstep]; exact stepRecord_ne_nil _ _ hr)
        (MemStore.get_set _ _ _)
      refine ⟨[.next none] :: outs, s1, ?_, ?_, ?_⟩
      · rw [serveAll_limiter_pass req s m ms r last h hl hlt, h1]; rfl
      · simpa [runRecord, hstep] using h2
      · simp [allowedTimes, allowed, runAllowed, ht, hstep, h3]

/-- A run of requests of a client that has no record: the first request creates the record
and is allowed, the others run from that record. -/
theorem serveAll_limiter_fresh (req : Request) (s : MemStore) (m : Moment) (ms : List Moment)
    (h : s.get req.ip = none) :
    ∃ outs s1, serveAll limiter req (m :: ms) s = some (outs, s1) ∧
      s1.get req.ip = some (recordText (runRecord (ms.map Moment.unix) [(m.unix, 1)])) ∧
      allowedTimes (m :: ms) outs = m.unix :: runAllowed (ms.map Moment.unix) [(m.unix, 1)] := by
  obtain ⟨outs, s1, h1, h2, h3⟩ := serveAll_limiter_run req ms
    (s.set req.ip (recordText [(m.unix, 1)]) {}) [(m.unix, 1)] (by simp) (MemStore.get_set _ _ _)
  refine ⟨[.next none] :: outs, s1, ?_, h2, ?_⟩
  · rw [serveAll_limiter_first req s m ms h, h1]; rfl
  · simp [allowedTimes, allowed, h3]

theorem windowTotal_append (x : Int) (a b : List (Int × Int)) :
    windowTotal x (a ++ b) = windowTotal x a + windowTotal x b := by
  simp [windowTotal, List.filter_append, List.sum_append]

theorem windowTotal_singleton (x : Int) (e : Int × Int) :
    windowTotal x [e] = if e.1 > x then e.2 else 0 := by
  by_cases h : e.1 > x <;> simp [windowTotal, List.filter, h]

theorem dropLast_append_last (r : List (Int × Int)) (last : Int × Int)
    (hl : r.getLast? = some last) : r.dropLast ++ [last] = r :=
  List.dropLast_append_getLast? last (by simp [hl])

/-- An allowed request adds one to the count of one entry, whose time stamp is at most one
log interval before the request. -/
theorem windowTotal_nextRecord (now : Int) (r : List (Int × Int)) (last : Int × Int)
    (hl : r.getLast? = some last) :
    ∃ stamp : Int, now - 3600 ≤ stamp ∧
      ∀ x, windowTotal x (nextRecord now r last) =
        windowTotal x r + (if stamp > x then 1 else 0) := by
  have hr := dropLast_append_last r last hl
  by_cases hw : last.1 > now - 3600
  · refine ⟨last.1, by omega, fun x => ?_⟩
    have h1 : windowTotal x r = windowTotal x r.dropLast + windowTotal x [last] := by
      rw [← windowTotal_append, hr]
    simp only [nextRecord, hw, if_true, windowTotal_append, windowTotal_singleton, h1]
    by_cases hx : last.1 > x
    · simp [hx]; omega
    · simp [hx]
  · refine ⟨now - 3600, le_refl _, fun x => ?_⟩
    simp only [nextRecord, hw, if_false, windowTotal_append, windowTotal_singleton]

theorem countAfter_append (x : Int) (a b : List Int) :
    countAfter x (a ++ b) = countAfter x a + countAfter x b := by
  simp [countAfter, List.filter_append]

theorem countAfter_mono (x y : Int) (h : x ≤ y) (ts : List Int) :
    countAfter y ts ≤ countAfter x ts := by
  induction ts with
  | nil => simp [countAfter]
  | cons t ts ih =>
    simp only [countAfter, List.filter_cons] at ih ⊢
    by_cases h1 : y < t
    · have h2 : x < t := by omega
      simp only [h1, h2, decide_True, if_true, List.length_cons]
      omega
    · by_cases h2 : x < t
      · simp only [h1, h2, decide_True, decide_False, if_true, List.length_cons]
        simp only [Bool.false_eq_true, if_false]
        omega
      · simp only [h1, h2, decide_False, Bool.false_eq_true, if_false]
        exact ih

theorem countIn_le_countAfter (w T : Int) (ts : List Int) :
    countIn w T ts ≤ countAfter (T - w) ts := by
  induction ts with
  | nil => simp [countIn, countAfter]
  | cons t ts ih =>
    simp only [countIn, countAfter, List.filter_cons] at ih ⊢
    by_cases h1 : T - w < t
    · by_cases h2 : t ≤ T
      · simp only [h1, h2, and_self, decide_True, if_true, List.length_cons]
        omega
      · simp only [h1, h2, and_false, decide_True, decide_False, if_true, List.length_cons]
        simp only [Bool.false_eq_true, if_false]
        omega
    · simp only [h1, false_and, decide_False, Bool.false_eq_true, if_false]
      exact ih

theorem countIn_append (w T : Int) (a b : List Int) :
    countIn w T (a ++ b) = countIn w T a + countIn w T b := by
  simp [countIn, List.filter_append]

theorem counted_step (past : List Int) (r : List (Int × Int)) (last : Int × Int) (now : Int)
    (hl : r.getLast? = some last) (hc : Counted past r) :
    Counted (past ++ [now]) (nextRecord now r last) := by
  obtain ⟨stamp, hs, ht⟩ := windowTotal_nextRecord now r last hl
  intro x
  rw [ht x, countAfter_append]
  have h1 := hc x
  have h2 : countAfter (x + 3600) [now] = if x + 3600 < now then 1 else 0 := by
    by_cases h : x + 3600 < now <;> simp [countAfter, List.filter, h]
  rw [h2]
  by_cases h : x + 3600 < now
  · have h3 : stamp > x := by omega
    simp only [h, h3, if_true]
    push_cast
    omega
  · simp only [h, if_false]
    push_cast
    split <;> omega

/-- The cap the limiter enforces, on the pure run: among the allowed requests, at most 5 lie
in any trailing window of 82800 seconds. -/
theorem runAllowed_cap (ts : List Int) :
    ∀ (r : List (Int × Int)) (past : List Int), r ≠ [] → Counted past r →
      (∀ T, countIn 82800 T past ≤ 5) →
      ∀ T, countIn 82800 T (past ++ runAllowed ts r) ≤ 5 := by
  induction ts with
  | nil =>
    intro r past _ _ hcap T
    simpa [runAllowed] using hcap T
  | cons now ts ih =>
    intro r past hr hc hcap T
    by_cases ht : windowTotal (now - 86400) r ≥ 5
    · simpa [runAllowed, ht] using ih r past hr hc hcap T
    · obtain ⟨last, hl⟩ : ∃ last, r.getLast? = some last := by
        cases hl : r.getLast? with
        | none => exact absurd (List.getLast?_eq_none_iff.mp hl) hr
        | some last => exact ⟨last, rfl⟩
      have hstep : stepRecord now r = nextRecord now r last := by
        simp [stepRecord, ht, hl]
      have hcap2 : ∀ T, countIn 82800 T (past ++ [now]) ≤ 5 := by
        intro T
        rw [countIn_append]
        by_cases hin : T - 82800 < now ∧ now ≤ T
        · have h1 := countIn_le_countAfter 82800 T past
          have h2 := countAfter_mono (now - 86400 + 3600) (T - 82800) (by omega) past
          have h3 := hc (now - 86400)
          have h4 : countIn 82800 T [now] = 1 := by simp [countIn, List.filter, hin]
          omega
        · have h4 : countIn 82800 T [now] = 0 := by simp [countIn, List.filter, hin]
          have := hcap T
          omega
      have := ih (nextRecord now r last) (past ++ [now])
        (by rw [← hstep]; exact stepRecord_ne_nil _ _ hr) (counted_step past r last now hl hc)
        hcap2 T
      simpa [runAllowed, ht, hstep] using this

/-- Every entry of the record counts at least one request. -/
theorem counts_pos_nextRecord (now : Int) (r : List (Int × Int)) (last : Int × Int)
    (hl : r.getLast? = some last) (hj : ∀ e ∈ r, 1 ≤ e.2) :
    ∀ e ∈ nextRecord now r last, 1 ≤ e.2 := by
  have hr := dropLast_append_last r last hl
  have hlast : 1 ≤ last.2 := hj last (by rw [← hr]; simp)
  intro e he
  unfold nextRecord at he
  split at he
  · rcases List.mem_append.mp he with h | h
    · exact hj e (List.dropLast_subset r h)
    · simp only [List.mem_singleton] at h
      subst h
      simp only
      omega
  · rcases List.mem_append.mp he with h | h
    · exact hj e h
    · simp only [List.mem_singleton] at h
      subst h
      simp

theorem counts_pos_stepRecord (now : Int) (r : List (Int × Int)) (hj : ∀ e ∈ r, 1 ≤ e.2) :
    ∀ e ∈ stepRecord now r, 1 ≤ e.2 := by
  unfold stepRecord
  split
  · exact hj
  · cases hl : r.getLast? with
    | none => exact hj
    | some last => exact counts_pos_nextRecord now r last hl hj

theorem windowTotal_mono (r : List (Int × Int)) (hj : ∀ e ∈ r, 1 ≤ e.2) (x y : Int)
    (h : x ≤ y) : windowTotal y r ≤ windowTotal x r := by
  induction r with
  | nil => simp [windowTotal]
  | cons e r ih =>
    have h1 := ih (fun e he => hj e (List.mem_cons_of_mem _ he))
    have h2 : 1 ≤ e.2 := hj e (List.mem_cons_self _ _)
    have hx := windowTotal_append x [e] r
    have hy := windowTotal_append y [e] r
    simp only [List.singleton_append, windowTotal_singleton] at hx hy
    rw [hx, hy]
    split <;> split <;> omega

/-- After a request at `now`, later than the request before it, the in-window total of the
record is at most 5. -/
theorem windowTotal_stepRecord_le (now prev : Int) (r : List (Int × Int))
    (hj : ∀ e ∈ r, 1 ≤ e.2) (hp : prev ≤ now) (hk : windowTotal (prev - 86400) r ≤ 5) :
    windowTotal (now - 86400) (stepRecord now r) ≤ 5 := by
  have hm := windowTotal_mono r hj (prev - 86400) (now - 86400) (by omega)
  unfold stepRecord
  split
  · omega
  · rename_i ht
    cases hl : r.getLast? with
    | none => simp only; omega
    | some last =>
      obtain ⟨stamp, hs, hst⟩ := windowTotal_nextRecord now r last hl
      simp only [hst]
      split <;> omega

theorem runRecord_bounded (ts : List Int) :
    ∀ (r : List (Int × Int)) (prev : Int), (∀ e ∈ r, 1 ≤ e.2) →
      windowTotal (prev - 86400) r ≤ 5 → List.Pairwise (· ≤ ·) (prev :: ts) →
      (∀ e ∈ runRecord ts r, 1 ≤ e.2) ∧
        windowTotal ((prev :: ts).getLast (List.cons_ne_nil _ _) - 86400) (runRecord ts r) ≤ 5 := by
  induction ts with
  | nil =>
    intro r prev hj hk _
    exact ⟨hj, by simpa [runRecord] using hk⟩
  | cons now ts ih =>
    intro r prev hj hk hs
    have hp : prev ≤ now := (List.pairwise_cons.mp hs).1 now (List.mem_cons_self _ _)
    have hs2 : List.Pairwise (· ≤ ·) (now :: ts) := (List.pairwise_cons.mp hs).2
    have := ih (stepRecord now r) now (counts_pos_stepRecord now r hj)
      (windowTotal_stepRecord_le now prev r hj hp hk) hs2
    simpa [runRecord, List.getLast_cons] using this

theorem filter_length_le_windowTotal (x : Int) (r : List (Int × Int))
    (hj : ∀ e ∈ r, 1 ≤ e.2) :
    ((r.filter (fun e => decide (e.1 > x))).length : Int) ≤ windowTotal x r := by
  induction r with
  | nil => simp [windowTotal]
  | cons e r ih =>
    have h1 := ih (fun e he => hj e (List.mem_cons_of_mem _ he))
    have h2 : 1 ≤ e.2 := hj e (List.mem_cons_self _ _)
    have hx := windowTotal_append x [e] r
    simp only [List.singleton_append, windowTotal_singleton] at hx
    rw [hx]
    by_cases h : e.1 > x
    · simp only [List.filter_cons, h, decide_True, if_true, List.length_cons]
      push_cast
      omega
    · simp only [List.filter_cons, h, decide_False, Bool.false_eq_true, if_false]
      omega

/-- C11, as stated, fails: of the seven requests at the seconds 0, 3599 (four times) and
86400 (twice) of a client with no record, all are allowed, and six of them lie in the
trailing window `(0, 86400]` of 24 hours. -/
theorem window_cap_exceeded :
    (serveAll limiter exampleRequest
        [atSecond 0, atSecond 3599, atSecond 3599, atSecond 3599, atSecond 3599,
          atSecond 86400, atSecond 86400] MemStore.empty).map (·.1) =
      some [[.next none], [.next none], [.next none], [.next none], [.next none],
        [.next none], [.next none]] ∧
    countIn (WINDOW_SIZE_IN_HOURS * 3600) 86400 [0, 3599, 3599, 3599, 3599, 86400, 86400] = 6 := by
  refine ⟨rfl, by decide⟩

/-- C11, amended.  In every sequential run of the limiter for a client with no stored record
every request ends normally, and for every time `T` at most 5 of the allowed requests lie in
the trailing window `(T - 82800, T]`, the window shortened by one log interval; the order of
the request times plays no part. -/
theorem shortened_window_cap (req : Request) (s : MemStore) (ms : List Moment) (T : Int)
    (h : s.get req.ip = none) :
    ∃ outs s1, serveAll limiter req ms s = some (outs, s1) ∧
      countIn ((WINDOW_SIZE_IN_HOURS - WINDOW_LOG_INTERVAL_IN_HOURS) * 3600) T
        (allowedTimes ms outs) ≤ 5 := by
  have hw : (WINDOW_SIZE_IN_HOURS - WINDOW_LOG_INTERVAL_IN_HOURS) * 3600 = 82800 := by decide
  rw [hw]
  cases ms with
  | nil => exact ⟨[], s, rfl, by simp [allowedTimes, countIn]⟩
  | cons m ms =>
    obtain ⟨outs, s1, h1, _, h3⟩ := serveAll_limiter_fresh req s m ms h
    refine ⟨outs, s1, h1, ?_⟩
    rw [h3]
    have hc : Counted [m.unix] [(m.unix, 1)] := by
      intro x
      by_cases hx : x + 3600 < m.unix
      · have hx2 : m.unix > x := by omega
        simp [countAfter, List.filter, hx, windowTotal, hx2]
      · simp only [countAfter, List.filter, hx, decide_False, List.length_nil, Nat.cast_zero]
        simp only [windowTotal, List.filter]
        split <;> simp
    have hcap : ∀ T, countIn 82800 T [m.unix] ≤ 5 := by
      intro T
      simp only [countIn, List.filter]
      split <;> simp
    exact runAllowed_cap (ms.map Moment.unix) [(m.unix, 1)] [m.unix] (by simp) hc hcap T

theorem shortened_window_cap_witness :
    ∃ outs s1, serveAll limiter exampleRequest
        [atSecond 0, atSecond 3599, atSecond 86400, atSecond 86400] MemStore.empty =
        some (outs, s1) ∧
      countIn ((WINDOW_SIZE_IN_HOURS - WINDOW_LOG_INTERVAL_IN_HOURS) * 3600) 86400
        (allowedTimes [atSecond 0, atSecond 3599, atSecond 86400, atSecond 86400] outs) ≤ 5 :=
  shortened_window_cap exampleRequest MemStore.empty _ 86400 rfl

/-- C12.  With the record `[{requestTimeStamp: 0, requestCount: 1}]` of client `::1`, an
allowed request in second 7200 (two log intervals after the last entry) appends an entry
with `requestCount` 1 whose `requestTimeStamp` is 3600, one log interval before the request,
not 7200: `subtract` has moved `currentRequestTime` itself back. -/
theorem appended_stamp_is_interval_start :
    limiter (atSecond 7200) ⟨MemStore.empty.set "::1" "[\x7b\"requestTimeStamp\":0,\"requestCount\":1\x7d]" {}, exampleRequest, []⟩ =
      .ok () ⟨(MemStore.empty.set "::1" "[\x7b\"requestTimeStamp\":0,\"requestCount\":1\x7d]" {}).set "::1"
        "[\x7b\"requestTimeStamp\":0,\"requestCount\":1\x7d,\x7b\"requestTimeStamp\":3600,\"requestCount\":1\x7d]" {},
        exampleRequest, [.next none]⟩ := by
  rfl

/-- C13.  Increment rule: when the in-window total of the record is below the maximum and
the last entry's time stamp is after `now - 3600`, the request is allowed and the record
persisted has the same length and the same time stamps, its last entry's count is larger by
one and all the other entries are unchanged. -/
theorem increment_rule (req : Request) (s : MemStore) (m : Moment) (r : List (Int × Int))
    (last : Int × Int) (h : s.get req.ip = some (recordText r)) (hl : r.getLast? = some last)
    (ht : windowTotal (m.unix - 86400) r < MAX_WINDOW_REQUEST_COUNT)
    (hw : last.1 > m.unix - WINDOW_LOG_INTERVAL_IN_HOURS * 3600) :
    ∃ r1, limiter m ⟨s, req, []⟩ =
        .ok () ⟨s.set req.ip (recordText r1) {}, req, [.next none]⟩ ∧
      r1.length = r.length ∧ r1.map (·.1) = r.map (·.1) ∧
      r1.getLast? = some (last.1, last.2 + 1) ∧ r1.dropLast = r.dropLast := by
  have ht2 : ¬ windowTotal (m.unix - 86400) r ≥ 5 := by
    simp only [MAX_WINDOW_REQUEST_COUNT] at ht; omega
  have hw2 : last.1 > m.unix - 3600 := by
    simpa [WINDOW_LOG_INTERVAL_IN_HOURS] using hw
  have hr := dropLast_append_last r last hl
  refine ⟨r.dropLast ++ [(last.1, last.2 + 1)], ?_, ?_, ?_, ?_, ?_⟩
  · simp [limiter, limiter_step req s m m [] r last h hl, ht2, nextRecord, hw2]
  · rw [← hr]; simp
  · conv_rhs => rw [← hr]
    simp
  · simp
  · simp

theorem increment_rule_witness :
    ∃ r1, limiter (atSecond 100)
        ⟨MemStore.empty.set "::1" (recordText [(0, 2)]) {}, exampleRequest, []⟩ =
        .ok () ⟨(MemStore.empty.set "::1" (recordText [(0, 2)]) {}).set "::1" (recordText r1) {},
          exampleRequest, [.next none]⟩ ∧
      r1.length = [((0 : Int), (2 : Int))].length ∧
      r1.map (·.1) = [((0 : Int), (2 : Int))].map (·.1) ∧
      r1.getLast? = some (0, 2 + 1) ∧ r1.dropLast = [((0 : Int), (2 : Int))].dropLast :=
  increment_rule exampleRequest (MemStore.empty.set "::1" (recordText [(0, 2)]) {})
    (atSecond 100) [(0, 2)] (0, 2) rfl rfl (by decide) (by decide)

/-- C14.  First request: when the store holds no record for the client, the limiter sets the
client's key to the text of the one-element list
`[{requestTimeStamp: now, requestCount: 1}]`, `now` the unix time of the first clock read,
and allows the request: its only effect besides the write is `next()` without an error. -/
theorem first_request_creates_record (client : RedisClient σ) (m1 m2 : Moment)
    (st : HState σ) (s1 : σ)
    (hget : client.get st.store st.req.ip = .ok none)
    (hset : client.set st.store st.req.ip
      (stringifyText (.arr [.obj [("requestTimeStamp", .num m1.unix), ("requestCount", .num 1)]]))
      {} = .ok s1) :
    customRedisRateLimiter (some client) m1 m2 st =
        .ok () ⟨s1, st.req, st.effects ++ [.next none]⟩ ∧
      JSON.parse (stringifyText
          (.arr [.obj [("requestTimeStamp", .num m1.unix), ("requestCount", .num 1)]])) =
        .value (.arr [.obj [("requestTimeStamp", .num m1.unix), ("requestCount", .num 1)]]) := by
  constructor
  · simp only [customRedisRateLimiter, tryCatch, bind, Handler.bind, getReq, redisGet, hget,
      redisSet, hset, next, emit]
  · have h := jsonParse_recordText [(m1.unix, 1)]
    simp only [jsonParse, recordText, recordOf, List.map_cons, List.map_nil, recordEntry] at h
    split at h <;> simp_all

theorem first_request_creates_record_witness :
    customRedisRateLimiter (some memClient) (atSecond 7) (atSecond 7)
        ⟨MemStore.empty, exampleRequest, []⟩ =
        .ok () ⟨MemStore.empty.set "::1" "[\x7b\"requestTimeStamp\":7,\"requestCount\":1\x7d]" {},
          exampleRequest, [] ++ [.next none]⟩ ∧
      JSON.parse (stringifyText
          (.arr [.obj [("requestTimeStamp", .num (atSecond 7).unix), ("requestCount", .num 1)]])) =
        .value (.arr [.obj [("requestTimeStamp", .num (atSecond 7).unix),
          ("requestCount", .num 1)]]) :=
  first_request_creates_record memClient (atSecond 7) (atSecond 7)
    ⟨MemStore.empty, exampleRequest, []⟩ _ rfl rfl

/-- C15, as stated, fails: for the record `[{requestTimeStamp: 0, requestCount: 5}]` and a
request in second 86400 the entry's time stamp equals the bound `now - 86400`; the sum over
the entries not older than the bound is 5, but the total the limiter computes is 0, and the
request is allowed. -/
theorem boundary_entry_excluded :
    (([((0 : Int), (5 : Int))].filter (fun e => decide (e.1 ≥ 86400 - 86400))).map (·.2)).sum = 5 ∧
    inWindowTotal "[\x7b\"requestTimeStamp\":0,\"requestCount\":5\x7d]" (atSecond 86400) = .ok (some 0) ∧
    limiter (atSecond 86400) ⟨MemStore.empty.set "::1" "[\x7b\"requestTimeStamp\":0,\"requestCount\":5\x7d]" {}, exampleRequest, []⟩ =
      .ok () ⟨(MemStore.empty.set "::1" "[\x7b\"requestTimeStamp\":0,\"requestCount\":5\x7d]" {}).set "::1"
        "[\x7b\"requestTimeStamp\":0,\"requestCount\":5\x7d,\x7b\"requestTimeStamp\":82800,\"requestCount\":1\x7d]" {},
        exampleRequest, [.next none]⟩ := by
  refine ⟨by decide, rfl, rfl⟩

/-- C15, amended.  The total the limiter compares with the maximum is the sum of
`requestCount` over exactly the entries whose time stamp is after `now - 86400`
(`requestTimeStamp > now - windowSizeSeconds`): an entry whose time stamp equals the bound is
excluded like the older ones.  The request is rejected when that sum is at least 5 and
allowed otherwise. -/
theorem window_total_strict (req : Request) (s : MemStore) (m : Moment)
    (r : List (Int × Int)) (last : Int × Int) (h : s.get req.ip = some (recordText r))
    (hl : r.getLast? = some last) :
    inWindowTotal (recordText r) m =
        .ok (some (((r.filter (fun e =>
          decide (e.1 > m.unix - WINDOW_SIZE_IN_HOURS * 3600))).map (·.2)).sum)) ∧
      limiter m ⟨s, req, []⟩ =
        if ((r.filter (fun e => decide (e.1 > m.unix - WINDOW_SIZE_IN_HOURS * 3600))).map
            (·.2)).sum ≥ MAX_WINDOW_REQUEST_COUNT then
          .ok () ⟨s, req, rejectionEffects req⟩
        else
          .ok () ⟨s.set req.ip (recordText (nextRecord m.unix r last)) {}, req, [.next none]⟩ := by
  have hw : WINDOW_SIZE_IN_HOURS * 3600 = 86400 := by decide
  constructor
  · simp only [inWindowTotal, jsonParse_recordText, JsRes.bind, recordOf, asArray,
      unix_subtractHours_window, filterWithinWindow_record, sumRequestCounts_record, zero_add,
      hw]
  · have := limiter_step req s m m [] r last h hl
    simpa [limiter, windowTotal, hw, MAX_WINDOW_REQUEST_COUNT] using this

theorem window_total_strict_witness :
    inWindowTotal (recordText [(0, 5), (10, 1)]) (atSecond 86400) =
        .ok (some ((([((0 : Int), (5 : Int)), (10, 1)].filter (fun e =>
          decide (e.1 > (atSecond 86400).unix - WINDOW_SIZE_IN_HOURS * 3600))).map (·.2)).sum)) ∧
      limiter (atSecond 86400)
          ⟨MemStore.empty.set "::1" (recordText [(0, 5), (10, 1)]) {}, exampleRequest, []⟩ =
        if (([((0 : Int), (5 : Int)), (10, 1)].filter (fun e =>
            decide (e.1 > (atSecond 86400).unix - WINDOW_SIZE_IN_HOURS * 3600))).map
            (·.2)).sum ≥ MAX_WINDOW_REQUEST_COUNT then
          .ok () ⟨MemStore.empty.set "::1" (recordText [(0, 5), (10, 1)]) {}, exampleRequest,
            rejectionEffects exampleRequest⟩
        else
          .ok () ⟨(MemStore.empty.set "::1" (recordText [(0, 5), (10, 1)]) {}).set
            exampleRequest.ip
            (recordText (nextRecord (atSecond 86400).unix [(0, 5), (10, 1)] (10, 1))) {},
            exampleRequest, [.next none]⟩ :=
  window_total_strict exampleRequest (MemStore.empty.set "::1" (recordText [(0, 5), (10, 1)]) {})
    (atSecond 86400) [(0, 5), (10, 1)] (10, 1) rfl rfl

set_option maxRecDepth 100000 in
/-- C16, as stated, fails: after 25 requests of one client, 100000 seconds apart, the stored
record has 25 entries, more than the 24 of `windowSizeSeconds / logIntervalSeconds`; no
entry is ever removed. -/
theorem record_grows_past_bound :
    ∃ outs s1, serveAll limiter exampleRequest
        (atSecond 0 :: (List.range 24).map (fun k : Nat => atSecond ((Int.ofNat k + 1) * 100000)))
        MemStore.empty = some (outs, s1) ∧
      s1.get "::1" = some (recordText
        ((0, 1) :: (List.range 24).map (fun k : Nat => ((Int.ofNat k + 1) * 100000 - 3600, (1 : Int))))) ∧
      ((((0 : Int), (1 : Int))) ::
        (List.range 24).map (fun k : Nat => ((Int.ofNat k + 1) * 100000 - 3600, (1 : Int)))).length = 25 := by
  obtain ⟨outs, s1, h1, h2, _⟩ := serveAll_limiter_fresh exampleRequest MemStore.empty
    (atSecond 0) ((List.range 24).map (fun k : Nat => atSecond ((Int.ofNat k + 1) * 100000))) rfl
  refine ⟨outs, s1, h1, ?_, by decide⟩
  have h3 : s1.get "::1" = _ := h2
  rw [h3]
  have : runRecord
      (List.map Moment.unix
        ((List.range 24).map (fun k : Nat => atSecond ((Int.ofNat k + 1) * 100000))))
      [((atSecond 0).unix, 1)] =
      (0, 1) :: (List.range 24).map (fun k : Nat => ((Int.ofNat k + 1) * 100000 - 3600, (1 : Int))) := by
    decide
  rw [this]

/-- C16, amended.  In every sequential run of the limiter for one client with non-decreasing
request times, starting from no stored record, every request ends normally and after the
last request of the run the stored record has at most 5 entries inside that request's
window (time stamp after `now - 86400`); the entries outside the window stay in the record,
which is thus not bounded. -/
theorem entries_in_window_bounded (req : Request) (s : MemStore) (m : Moment)
    (ms : List Moment) (h : s.get req.ip = none)
    (hs : List.Pairwise (· ≤ ·) ((m :: ms).map Moment.unix)) :
    ∃ outs s1 r, serveAll limiter req (m :: ms) s = some (outs, s1) ∧
      s1.get req.ip = some (recordText r) ∧
      (r.filter (fun e => decide (e.1 >
        ((m :: ms).getLast (List.cons_ne_nil _ _)).unix - WINDOW_SIZE_IN_HOURS * 3600))).length
        ≤ 5 := by
  obtain ⟨outs, s1, h1, h2, _⟩ := serveAll_limiter_fresh req s m ms h
  refine ⟨outs, s1, _, h1, h2, ?_⟩
  have hj : ∀ e ∈ [(m.unix, (1 : Int))], 1 ≤ e.2 := by simp
  have hk : windowTotal (m.unix - 86400) [(m.unix, 1)] ≤ 5 := by
    simp only [windowTotal, List.filter]
    split <;> simp
  obtain ⟨hj2, hk2⟩ := runRecord_bounded (ms.map Moment.unix) [(m.unix, 1)] m.unix hj hk
    (by simpa using hs)
  have hlast : ((m :: ms).getLast (List.cons_ne_nil _ _)).unix =
      (m.unix :: ms.map Moment.unix).getLast (List.cons_ne_nil _ _) := by
    have := List.getLast_map (f := Moment.unix) (l := m :: ms) (by simp)
    simpa using this.symm
  have hw : WINDOW_SIZE_IN_HOURS * 3600 = 86400 := by decide
  rw [hlast, hw]
  have := filter_length_le_windowTotal
    ((m.unix :: ms.map Moment.unix).getLast (List.cons_ne_nil _ _) - 86400) _ hj2
  omega

theorem entries_in_window_bounded_witness :
    ∃ outs s1 r, serveAll limiter exampleRequest
        (atSecond 0 :: [atSecond 100000, atSecond 200000]) MemStore.empty = some (outs, s1) ∧
      s1.get exampleRequest.ip = some (recordText r) ∧
      (r.filter (fun e => decide (e.1 >
        ((atSecond 0 :: [atSecond 100000, atSecond 200000]).getLast
          (List.cons_ne_nil _ _)).unix - WINDOW_SIZE_IN_HOURS * 3600))).length ≤ 5 :=
  entries_in_window_bounded exampleRequest MemStore.empty (atSecond 0)
    [atSecond 100000, atSecond 200000] rfl (by decide)

/-- C17, as stated, fails: with the record `[{requestTimeStamp: 0, requestCount: 5}]`, the
request in second 86401 is allowed and the record persisted still holds the entry of time
stamp 0, which is older than `86401 - 86400`. -/
theorem expired_entry_persisted :
    limiter (atSecond 86401) ⟨MemStore.empty.set "::1" "[\x7b\"requestTimeStamp\":0,\"requestCount\":5\x7d]" {}, exampleRequest, []⟩ =
      .ok () ⟨(MemStore.empty.set "::1" "[\x7b\"requestTimeStamp\":0,\"requestCount\":5\x7d]" {}).set "::1"
        "[\x7b\"requestTimeStamp\":0,\"requestCount\":5\x7d,\x7b\"requestTimeStamp\":82801,\"requestCount\":1\x7d]" {},
        exampleRequest, [.next none]⟩ ∧
    (0 : Int) < 86401 - WINDOW_SIZE_IN_HOURS * 3600 := by
  refine ⟨rfl, by decide⟩

/-- C17, amended.  Whenever the limiter allows a request and writes the client's record, the
record it persists keeps every entry of the old record, the logically expired ones
included: all entries but the last are unchanged and every time stamp of the old record is
still there, in place; expired entries are only left out of the in-window total. -/
theorem allowed_write_keeps_entries (req : Request) (s : MemStore) (m : Moment)
    (r : List (Int × Int)) (last : Int × Int) (h : s.get req.ip = some (recordText r))
    (hl : r.getLast? = some last)
    (ht : windowTotal (m.unix - 86400) r < MAX_WINDOW_REQUEST_COUNT) :
    ∃ r1, limiter m ⟨s, req, []⟩ =
        .ok () ⟨s.set req.ip (recordText r1) {}, req, [.next none]⟩ ∧
      List.IsPrefix r.dropLast r1 ∧ List.IsPrefix (r.map (·.1)) (r1.map (·.1)) := by
  have ht2 : ¬ windowTotal (m.unix - 86400) r ≥ 5 := by
    simp only [MAX_WINDOW_REQUEST_COUNT] at ht; omega
  have hr := dropLast_append_last r last hl
  refine ⟨nextRecord m.unix r last, ?_, ?_, ?_⟩
  · simp [limiter, limiter_step req s m m [] r last h hl, ht2]
  · unfold nextRecord
    split
    · exact List.prefix_append _ _
    · exact (List.dropLast_prefix r).trans (List.prefix_append _ _)
  · unfold nextRecord
    split
    · have : (r.dropLast ++ [(last.1, last.2 + 1)]).map (·.1) = r.map (·.1) := by
        conv_rhs => rw [← hr]
        simp
      rw [this]
    · simp only [List.map_append]
      exact List.prefix_append _ _

theorem allowed_write_keeps_entries_witness :
    ∃ r1, limiter (atSecond 86401)
        ⟨MemStore.empty.set "::1" (recordText [(0, 5)]) {}, exampleRequest, []⟩ =
        .ok () ⟨(MemStore.empty.set "::1" (recordText [(0, 5)]) {}).set exampleRequest.ip
          (recordText r1) {}, exampleRequest, [.next none]⟩ ∧
      List.IsPrefix [((0 : Int), (5 : Int))].dropLast r1 ∧
      List.IsPrefix ([((0 : Int), (5 : Int))].map (·.1)) (r1.map (·.1)) :=
  allowed_write_keeps_entries exampleRequest (MemStore.empty.set "::1" (recordText [(0, 5)]) {})
    (atSecond 86401) [(0, 5)] (0, 5) rfl rfl (by decide)

/-- C18.  For a client with no stored record, requests in the seconds 0 and 3600 are both
allowed and leave a record whose two entries have the same time stamp 0: the appended entry
is stamped one log interval before its request, which is the time stamp of the entry before
it, so the time stamps are not strictly increasing. -/
theorem appended_stamp_repeats :
    (serveAll limiter exampleRequest [atSecond 0, atSecond 3600] MemStore.empty).map
        (fun x => (x.1, x.2.get "::1")) =
      some ([[.next none], [.next none]],
        some "[\x7b\"requestTimeStamp\":0,\"requestCount\":1\x7d,\x7b\"requestTimeStamp\":0,\"requestCount\":1\x7d]") := by
  rfl

/-- C19, as stated, fails: with the text `{`, which is no JSON, stored under the key of the
empty query, `getEventsCacheData` does not go on as on a miss: it calls `next` with the
`SyntaxError` of `JSON.parse`, and the store still holds the corrupt key. -/
theorem malformed_value_forwards_error :
    JSON.parse "\x7b" = .syntaxError ∧
    getEventsCacheData exampleBuiltins memClient
        ⟨MemStore.empty.set "api-v1-events-\x7b\x7d" "\x7b" cacheFillOptions, requestWith [],
          []⟩ =
      .ok () ⟨MemStore.empty.set "api-v1-events-\x7b\x7d" "\x7b" cacheFillOptions,
        requestWith [], [.next (some (syntaxError "Unexpected token in JSON"))]⟩ ∧
    (MemStore.empty.set "api-v1-events-\x7b\x7d" "\x7b" cacheFillOptions).get
      "api-v1-events-\x7b\x7d" = some "\x7b" := by
  refine ⟨rfl, rfl, rfl⟩

/-- C19, amended.  For every stored string under the derived key that is non-empty but not
valid JSON, `getEventsCacheData` forwards the `SyntaxError` of `JSON.parse` through
`next(error)`, sends no response and leaves the store as it was: the corrupt key is not
deleted. -/
theorem malformed_value_next_error (B : Builtins) (client : RedisClient σ) (st : HState σ)
    (q : List (String × JsVal)) (text : String)
    (hconv : convertQueryRes B st.req.query = .ok q)
    (hget : client.get st.store (eventsCacheKey q) = .ok (some text)) (hne : text ≠ "")
    (hbad : JSON.parse text = .syntaxError) :
    getEventsCacheData B client st =
      .ok () ⟨st.store, { st.req with query := q },
        st.effects ++ [.next (some (syntaxError "Unexpected token in JSON"))]⟩ := by
  have hb : (text != "") = true := by simpa using hne
  have hp : jsonParse text = .throw (syntaxError "Unexpected token in JSON") := by
    simp [jsonParse, hbad]
  simp only [getEventsCacheData, tryCatch, bind, Handler.bind, convertQuery_eq, hconv, liftQ,
    getReq, redisGet, hget, hb, if_true, liftRes, hp, next, emit]

theorem malformed_value_next_error_witness :
    getEventsCacheData exampleBuiltins memClient
        ⟨MemStore.empty.set "api-v1-events-\x7b\x7d" "[1,]" cacheFillOptions, requestWith [],
          []⟩ =
      .ok () ⟨MemStore.empty.set "api-v1-events-\x7b\x7d" "[1,]" cacheFillOptions,
        { requestWith [] with query := [] },
        [] ++ [.next (some (syntaxError "Unexpected token in JSON"))]⟩ :=
  malformed_value_next_error exampleBuiltins memClient
    ⟨MemStore.empty.set "api-v1-events-\x7b\x7d" "[1,]" cacheFillOptions, requestWith [], []⟩
    [] "[1,]" rfl rfl (by decide) rfl

/-- C20, as stated, fails: when the store cannot be reached, each cache-read middleware calls
`next` with the error of the read, whereas on a miss it calls `next()` without an
argument. -/
theorem read_failure_differs_from_miss :
    getEventsCacheData exampleBuiltins closedClient ⟨MemStore.empty, requestWith [], []⟩ =
      .ok () ⟨MemStore.empty, requestWith [], [.next (some clientClosedError)]⟩ ∧
    getEventsCacheData exampleBuiltins memClient ⟨MemStore.empty, requestWith [], []⟩ =
      .ok () ⟨MemStore.empty, requestWith [], [.next none]⟩ ∧
    getUsersFromCache closedClient ⟨MemStore.empty, requestWith [], []⟩ =
      .ok () ⟨MemStore.empty, requestWith [], [.next (some clientClosedError)]⟩ ∧
    getUsersFromCache memClient ⟨MemStore.empty, requestWith [], []⟩ =
      .ok () ⟨MemStore.empty, requestWith [], [.next none]⟩ ∧
    getAttendeesCacheData closedClient ⟨MemStore.empty, requestWith [], []⟩ =
      .ok () ⟨MemStore.empty, requestWith [], [.next (some clientClosedError)]⟩ ∧
    getAttendeesCacheData memClient ⟨MemStore.empty, requestWith [], []⟩ =
      .ok () ⟨MemStore.empty, requestWith [], [.next none]⟩ := by
  refine ⟨rfl, rfl, rfl, rfl, rfl, rfl⟩

/-- C20, amended.  Whenever the store read of a cache-read middleware (`getEventsCacheData`,
`getUsersFromCache`, `getAttendeesCacheData`) fails with an error, the middleware forwards
that error through `next(error)`, sends no response and leaves the store as it was; the
request goes to the error handlers, not to the data fetch. -/
theorem read_failure_forwarded (B : Builtins) (client : RedisClient σ) (st : HState σ)
    (q : List (String × JsVal)) (e : JsError)
    (hconv : convertQueryRes B st.req.query = .ok q)
    (hfail : ∀ k, client.get st.store k = .error e) :
    getEventsCacheData B client st =
        .ok () ⟨st.store, { st.req with query := q }, st.effects ++ [.next (some e)]⟩ ∧
      getUsersFromCache client st =
        .ok () ⟨st.store, st.req, st.effects ++ [.next (some e)]⟩ ∧
      getAttendeesCacheData client st =
        .ok () ⟨st.store, st.req, st.effects ++ [.next (some e)]⟩ := by
  refine ⟨?_, ?_, ?_⟩
  · simp only [getEventsCacheData, tryCatch, bind, Handler.bind, convertQuery_eq, hconv, liftQ,
      getReq, redisGet, hfail, next, emit]
  · simp only [getUsersFromCache, tryCatch, bind, Handler.bind, getReq, redisGet, hfail, next,
      emit]
  · simp only [getAttendeesCacheData, tryCatch, bind, Handler.bind, getReq, redisGet, hfail,
      next, emit]

theorem read_failure_forwarded_witness :
    getEventsCacheData exampleBuiltins closedClient
        ⟨MemStore.empty, requestWith [("isFree", .str "true")], []⟩ =
        .ok () ⟨MemStore.empty, { requestWith [("isFree", .str "true")] with
          query := [("isFree", .bool true)] }, [] ++ [.next (some clientClosedError)]⟩ ∧
      getUsersFromCache closedClient ⟨MemStore.empty, requestWith [("isFree", .str "true")], []⟩ =
        .ok () ⟨MemStore.empty, requestWith [("isFree", .str "true")],
          [] ++ [.next (some clientClosedError)]⟩ ∧
      getAttendeesCacheData closedClient
          ⟨MemStore.empty, requestWith [("isFree", .str "true")], []⟩ =
        .ok () ⟨MemStore.empty, requestWith [("isFree", .str "true")],
          [] ++ [.next (some clientClosedError)]⟩ :=
  read_failure_forwarded exampleBuiltins closedClient
    ⟨MemStore.empty, requestWith [("isFree", .str "true")], []⟩ [("isFree", .bool true)]
    clientClosedError rfl (fun _ => rfl)

/-! ## The scan loop of `scanKeys` -/

theorem truthy_of_not_strictNeNum (v : JsVal) (h : v.strictNeNum 0 = false) :
    v.truthy = false := by
  cases v <;> simp_all [JsVal.strictNeNum, JsVal.truthy]

/-- The loop ends at the first reply that carries the completion cursor: with fuel for fewer
rounds it is still running, with more it has ended, through its guard. -/
theorem scanKeysLoop_scanRounds (c : RedisClient σ) (glob : String) (req : Request)
    (es : List Effect) :
    ∀ (n : Nat) (s s1 : σ) (cursor : JsVal), scanRounds c glob n s cursor = some s1 →
      ∀ fuel, scanKeysLoop c glob fuel cursor ⟨s, req, es⟩ =
        if fuel ≤ n then .running else .ok () ⟨s1, req, es ++ [scanGuardLog]⟩ := by
  intro n
  induction n with
  | zero =>
    intro s s1 cursor h fuel
    cases fuel with
    | zero => simp [scanKeysLoop]
    | succ fuel =>
      simp only [scanRounds] at h
      cases hs : c.scan s cursor [.str "MATCH", .str glob] with
      | error e => simp [hs] at h
      | ok reply =>
        simp only [hs] at h
        by_cases hc : reply.cursor.strictNeNum 0 = true
        · simp [hc] at h
        · have hc2 : reply.cursor.strictNeNum 0 = false := by simpa using hc
          have ht := truthy_of_not_strictNeNum _ hc2
          simp only [hc2, Bool.false_eq_true, if_false, Option.some.injEq] at h
          subst h
          cases hk : reply.keys with
          | none =>
            simp [scanKeysLoop, bind, Handler.bind, redisScan, hs, hk, emit, scanGuardLog]
          | some keys =>
            simp [scanKeysLoop, bind, Handler.bind, redisScan, hs, hk, ht, emit, scanGuardLog]
  | succ n ih =>
    intro s s1 cursor h fuel
    cases fuel with
    | zero => simp [scanKeysLoop]
    | succ fuel =>
      simp only [scanRounds] at h
      cases hs : c.scan s cursor [.str "MATCH", .str glob] with
      | error e => simp [hs] at h
      | ok reply =>
        simp only [hs] at h
        cases hk : reply.keys with
        | none => simp [hk] at h
        | some keys =>
          simp only [hk] at h
          by_cases hc : (reply.cursor.truthy && reply.cursor.strictNeNum 0) = true
          · simp only [hc, if_true] at h
            have hc1 : reply.cursor.truthy = true := by
              simp only [Bool.and_eq_true] at hc
              exact hc.1
            have hc2 : reply.cursor.strictNeNum 0 = true := by
              simp only [Bool.and_eq_true] at hc
              exact hc.2
            by_cases hl : keys.length > 0
            · simp only [hl, if_true] at h
              cases hd : c.del s keys with
              | error e => simp [hd] at h
              | ok s2 =>
                simp only [hd] at h
                have := ih s2 s1 reply.cursor h fuel
                simp only [scanKeysLoop, bind, Handler.bind, redisScan, hs, hk, hc1, hc2, hl,
                  Bool.not_true, Bool.false_eq_true, if_false, if_true, redisDel, hd, this,
                  Nat.add_le_add_iff_right]
            · simp only [hl, if_false] at h
              have := ih s s1 reply.cursor h fuel
              simp only [scanKeysLoop, bind, Handler.bind, redisScan, hs, hk, hc1, hc2, hl,
                Bool.not_true, Bool.false_eq_true, if_false, if_true, pure, Handler.pure, this,
                Nat.add_le_add_iff_right]
          · simp [hc] at h

theorem cursorRank_num (r : Nat) : cursorRank (.num (r : Int)) = some r := by
  simp [cursorRank]

theorem cursorRank_initial : cursorRank (.str "0") = some 0 := by rfl

/-- The reply of a `SCAN` that covers what was left of the keyspace. -/
theorem MemStore.scan_last (s : MemStore) (cursor : JsVal) (rank : Nat) (glob : String)
    (h : cursorRank cursor = some rank) (hl : (s.pending rank).length ≤ scanCount) :
    s.scan cursor [.str "MATCH", .str glob] =
      .ok ⟨.num 0, some (((s.pending rank).map (·.1)).filter
        (fun k => globMatch glob.toList k.toList))⟩ := by
  have hd : (s.pending rank).drop scanCount = [] := List.drop_eq_nil_of_le hl
  have ht : (s.pending rank).take scanCount = s.pending rank := List.take_of_length_le hl
  unfold MemStore.pending at hd ht
  simp [MemStore.scan, h, hd, ht, MemStore.pending]

/-- The reply of a `SCAN` that leaves keys to examine: it resumes from the first of them. -/
theorem MemStore.scan_more (s : MemStore) (cursor : JsVal) (rank : Nat) (glob : String)
    (e : String × Stored) (rest : List (String × Stored))
    (h : cursorRank cursor = some rank) (hd : (s.pending rank).drop scanCount = e :: rest) :
    s.scan cursor [.str "MATCH", .str glob] =
      .ok ⟨.num e.2.rank, some ((((s.pending rank).take scanCount).map (·.1)).filter
        (fun k => globMatch glob.toList k.toList))⟩ := by
  unfold MemStore.pending at hd
  simp [MemStore.scan, h, hd, MemStore.pending]

theorem MemStore.pending_pairwise (s : MemStore) (rank : Nat) (hr : s.Ranked) :
    (s.pending rank).Pairwise (fun a b => a.2.rank < b.2.rank) :=
  List.Pairwise.sublist (List.filter_sublist _) hr.1

/-- What is left to examine after a reply that does not complete the scan: less than
before, from a positive rank. -/
theorem MemStore.pending_resume (s : MemStore) (rank : Nat) (e : String × Stored)
    (rest : List (String × Stored)) (hr : s.Ranked)
    (hd : (s.pending rank).drop scanCount = e :: rest) :
    0 < e.2.rank ∧ (s.pending e.2.rank).length < (s.pending rank).length := by
  have hp := s.pending_pairwise rank hr
  have hsplit : s.pending rank = (s.pending rank).take scanCount ++ e :: rest := by
    rw [← hd, List.take_append_drop]
  rw [hsplit] at hp
  obtain ⟨_, hp2, hp3⟩ := List.pairwise_append.mp hp
  have hlen : scanCount < (s.pending rank).length := by
    by_contra hc
    have := List.drop_eq_nil_of_le (Nat.le_of_not_lt hc)
    rw [this] at hd
    exact absurd hd (by simp)
  have htake : ((s.pending rank).take scanCount).length = scanCount := by
    rw [List.length_take]; omega
  have hge : rank ≤ e.2.rank := by
    have hmem : e ∈ s.pending rank := by rw [hsplit]; simp
    unfold MemStore.pending at hmem
    simpa using (List.mem_filter.mp hmem).2
  -- what is left is what of the pending entries has at least the rank of `e`
  have hfilter : s.pending e.2.rank =
      (s.pending rank).filter (fun x => decide (e.2.rank ≤ x.2.rank)) := by
    unfold MemStore.pending
    rw [List.filter_filter]
    congr 1
    funext x
    by_cases hx : e.2.rank ≤ x.2.rank
    · have : rank ≤ x.2.rank := by omega
      simp [hx, this]
    · simp [hx]
  have hnone : ((s.pending rank).take scanCount).filter
      (fun x => decide (e.2.rank ≤ x.2.rank)) = [] := by
    rw [List.filter_eq_nil_iff]
    intro x hx
    have := hp3 x hx e (List.mem_cons_self _ _)
    simpa using this
  constructor
  · cases htk : (s.pending rank).take scanCount with
    | nil => rw [htk] at htake; simp [scanCount] at htake
    | cons x xs =>
      have := hp3 x (by rw [htk]; exact List.mem_cons_self _ _) e (List.mem_cons_self _ _)
      omega
  · rw [hfilter]
    conv_lhs => rw [hsplit]
    rw [List.filter_append, hnone, List.nil_append]
    have h1 := List.length_filter_le (fun x => decide (e.2.rank ≤ x.2.rank)) (e :: rest)
    have h2 : (e :: rest).length = (s.pending rank).length - scanCount := by
      rw [← hd, List.length_drop]
    have : 0 < scanCount := by decide
    omega

/-- Deleting keys leaves the order of creation as it was. -/
theorem MemStore.ranked_del (s : MemStore) (ks : List String) (hr : s.Ranked) :
    (s.del ks).Ranked :=
  ⟨List.Pairwise.sublist (List.filter_sublist _) hr.1,
    fun e he => hr.2 e (List.mem_filter.mp he).1⟩

theorem MemStore.pending_del_le (s : MemStore) (ks : List String) (rank : Nat) :
    ((s.del ks).pending rank).length ≤ (s.pending rank).length := by
  unfold MemStore.pending MemStore.del
  exact (List.Sublist.filter _ (List.filter_sublist _)).length_le

theorem memClient_scan (s : MemStore) (cursor : JsVal) (args : List JsVal) :
    memClient.scan s cursor args = s.scan cursor args := rfl

theorem memClient_del (s : MemStore) (ks : List String) :
    memClient.del s ks = .ok (s.del ks) := rfl

theorem cursor_goes_on (r : Nat) (h : 0 < r) :
    ((JsVal.num (r : Int)).truthy && (JsVal.num (r : Int)).strictNeNum 0) = true := by
  have : (r : Int) ≠ 0 := by omega
  simp [JsVal.truthy, JsVal.strictNeNum, this]

/-- Followed from any cursor, the scan of a store in front of a reachable client reaches the
completion cursor: after each reply that does not, less of the keyspace is left. -/
theorem memScan_completes (glob : String) :
    ∀ (k : Nat) (s : MemStore) (cursor : JsVal) (rank : Nat), cursorRank cursor = some rank →
      s.Ranked → (s.pending rank).length ≤ k →
      ∃ n s1, scanRounds memClient glob n s cursor = some s1 := by
  intro k
  induction k with
  | zero =>
    intro s cursor rank hc _ hk
    refine ⟨0, s, ?_⟩
    have := s.scan_last cursor rank glob hc (by omega)
    simp [scanRounds, memClient_scan, this, JsVal.strictNeNum]
  | succ k ih =>
    intro s cursor rank hc hr hk
    cases hd : (s.pending rank).drop scanCount with
    | nil =>
      refine ⟨0, s, ?_⟩
      have hl : (s.pending rank).length ≤ scanCount := by
        have := congrArg List.length hd
        simp only [List.length_drop, List.length_nil] at this
        omega
      have := s.scan_last cursor rank glob hc hl
      simp [scanRounds, memClient_scan, this, JsVal.strictNeNum]
    | cons e rest =>
      have hscan := s.scan_more cursor rank glob e rest hc hd
      obtain ⟨hpos, hlt⟩ := s.pending_resume rank e rest hr hd
      by_cases hl : ((((s.pending rank).take scanCount).map (·.1)).filter
          (fun k => globMatch glob.toList k.toList)).length > 0
      · obtain ⟨n, s1, h1⟩ := ih (s.del ((((s.pending rank).take scanCount).map (·.1)).filter
            (fun k => globMatch glob.toList k.toList))) (.num e.2.rank) e.2.rank
          (cursorRank_num _) (s.ranked_del _ hr)
          (by have := s.pending_del_le ((((s.pending rank).take scanCount).map (·.1)).filter
                (fun k => globMatch glob.toList k.toList)) e.2.rank
              omega)
        refine ⟨n + 1, s1, ?_⟩
        simp only [scanRounds, memClient_scan, memClient_del, hscan, cursor_goes_on _ hpos,
          if_true, hl, h1]
      · obtain ⟨n, s1, h1⟩ := ih s (.num e.2.rank) e.2.rank (cursorRank_num _) hr (by omega)
        refine ⟨n + 1, s1, ?_⟩
        simp only [scanRounds, memClient_scan, hscan, cursor_goes_on _ hpos, if_true, hl,
          if_false, h1]

/-- When no key of the store matches the pattern, the scan reaches the completion cursor
with the store as it was, whatever the client would do on `del`. -/
theorem memScan_static (client : RedisClient MemStore) (glob : String) (s : MemStore)
    (hscan : ∀ (s0 : MemStore) cursor args, client.scan s0 cursor args = s0.scan cursor args)
    (hr : s.Ranked) (hno : ∀ e ∈ s.entries, globMatch glob.toList e.1.toList = false) :
    ∀ (k : Nat) (cursor : JsVal) (rank : Nat), cursorRank cursor = some rank →
      (s.pending rank).length ≤ k → ∃ n, scanRounds client glob n s cursor = some s := by
  have hkeys : ∀ l : List (String × Stored), l.Sublist s.entries →
      (l.map (·.1)).filter (fun k => globMatch glob.toList k.toList) = [] := by
    intro l hl
    rw [List.filter_eq_nil_iff]
    intro key hkey
    obtain ⟨e, he, rfl⟩ := List.mem_map.mp hkey
    show ¬ globMatch glob.toList e.1.toList = true
    rw [hno e (hl.subset he)]
    simp
  intro k
  induction k with
  | zero =>
    intro cursor rank hc hk
    refine ⟨0, ?_⟩
    have := s.scan_last cursor rank glob hc (by omega)
    simp [scanRounds, hscan, this, JsVal.strictNeNum]
  | succ k ih =>
    intro cursor rank hc hk
    cases hd : (s.pending rank).drop scanCount with
    | nil =>
      refine ⟨0, ?_⟩
      have hl : (s.pending rank).length ≤ scanCount := by
        have := congrArg List.length hd
        simp only [List.length_drop, List.length_nil] at this
        omega
      have := s.scan_last cursor rank glob hc hl
      simp [scanRounds, hscan, this, JsVal.strictNeNum]
    | cons e rest =>
      have hscan2 := s.scan_more cursor rank glob e rest hc hd
      obtain ⟨hpos, hlt⟩ := s.pending_resume rank e rest hr hd
      have hnone := hkeys ((s.pending rank).take scanCount)
        ((List.take_sublist _ _).trans (List.filter_sublist _))
      obtain ⟨n, h1⟩ := ih (.num e.2.rank) e.2.rank (cursorRank_num _) (by omega)
      refine ⟨n + 1, ?_⟩
      simp only [scanRounds, hscan, hscan2, cursor_goes_on _ hpos, hnone, List.length_nil,
        gt_iff_lt, lt_self_iff_false, if_true, if_false, h1]

/-- The loop changes the store only by `del` on the keys of a reply to one of its own scans
for the pattern: what every such deletion keeps, the loop keeps, however it ends. -/
theorem scanKeysLoop_invariant (c : RedisClient σ) (glob : String) (I : σ → Prop)
    (hI : ∀ s cursor reply keys s1, I s →
      c.scan s cursor [.str "MATCH", .str glob] = .ok reply → reply.keys = some keys →
      c.del s keys = .ok s1 → I s1) :
    ∀ (fuel : Nat) (cursor : JsVal) (st : HState σ), I st.store →
      match scanKeysLoop c glob fuel cursor st with
      | .ok _ st1 => I st1.store
      | .throw _ st1 => I st1.store
      | _ => True := by
  intro fuel
  induction fuel with
  | zero => intro cursor st _; simp [scanKeysLoop]
  | succ fuel ih =>
    intro cursor st hst
    cases hs : c.scan st.store cursor [.str "MATCH", .str glob] with
    | error e => simpa [scanKeysLoop, bind, Handler.bind, redisScan, hs] using hst
    | ok reply =>
      cases hk : reply.keys with
      | none => simpa [scanKeysLoop, bind, Handler.bind, redisScan, hs, hk, emit] using hst
      | some keys =>
        by_cases ht : reply.cursor.truthy = true
        · by_cases hl : keys.length > 0
          · cases hd : c.del st.store keys with
            | error e =>
              simpa [scanKeysLoop, bind, Handler.bind, redisScan, hs, hk, ht, hl, redisDel, hd]
                using hst
            | ok s2 =>
              have h2 : I s2 := hI st.store cursor reply keys s2 hst hs hk hd
              by_cases hn : reply.cursor.strictNeNum 0 = true
              · have := ih reply.cursor { st with store := s2 } h2
                simpa [scanKeysLoop, bind, Handler.bind, redisScan, hs, hk, ht, hl, redisDel,
                  hd, hn] using this
              · simpa [scanKeysLoop, bind, Handler.bind, redisScan, hs, hk, ht, hl, redisDel,
                  hd, hn, pure, Handler.pure] using h2
          · by_cases hn : reply.cursor.strictNeNum 0 = true
            · have := ih reply.cursor st hst
              simpa [scanKeysLoop, bind, Handler.bind, redisScan, hs, hk, ht, hl, hn, pure,
                Handler.pure] using this
            · simpa [scanKeysLoop, bind, Handler.bind, redisScan, hs, hk, ht, hl, hn, pure,
                Handler.pure] using hst
        · simpa [scanKeysLoop, bind, Handler.bind, redisScan, hs, hk, ht, emit] using hst

/-- The keys a `SCAN` returns match its pattern. -/
theorem MemStore.scan_keys_match (s : MemStore) (cursor : JsVal) (glob : String)
    (reply : ScanReply) (keys : List String)
    (h : s.scan cursor [.str "MATCH", .str glob] = .ok reply) (hk : reply.keys = some keys) :
    ∀ k ∈ keys, globMatch glob.toList k.toList = true := by
  unfold MemStore.scan at h
  cases hc : cursorRank cursor with
  | none => simp [hc] at h
  | some rank =>
    simp only [hc] at h
    injection h with h
    subst h
    simp only [Option.some.injEq] at hk
    subst hk
    intro k hk
    exact (List.mem_filter.mp hk).2

/-- A key that is not among the deleted ones keeps its entry. -/
theorem lookup_del (es : List (String × Stored)) (ks : List String) (key : String)
    (h : key ∉ ks) : (es.filter (fun e => !ks.contains e.1)).lookup key = es.lookup key := by
  induction es with
  | nil => rfl
  | cons e es ih =>
    rcases e with ⟨k1, v1⟩
    by_cases h1 : k1 ∈ ks
    · have hne : (key == k1) = false := by
        simp only [beq_eq_false_iff_ne, ne_eq]
        intro h2
        exact h (h2 ▸ h1)
      have hc : ks.contains k1 = true := by simpa using h1
      simp only [List.filter_cons, hc, Bool.not_true, Bool.false_eq_true, if_false,
        List.lookup_cons, hne]
      exact ih
    · have hc : ks.contains k1 = false := by
        cases hcc : ks.contains k1 with
        | false => rfl
        | true => exact absurd (by simpa using hcc) h1
      simp only [List.filter_cons, hc, Bool.not_false, if_true, List.lookup_cons, ih]

theorem upsert_ranks (es : List (String × Stored)) (k v : String) (ttl : Option Nat)
    (rank : Nat) :
    (upsert es k v ttl rank).map (·.2.rank) =
      if (es.lookup k).isSome then es.map (·.2.rank) else es.map (·.2.rank) ++ [rank] := by
  induction es with
  | nil => simp [upsert]
  | cons e es ih =>
    rcases e with ⟨k1, v1⟩
    by_cases h : k1 = k
    · simp [upsert, h, List.lookup]
    · have h2 : (k == k1) = false := by simpa using fun h3 => h h3.symm
      simp only [upsert, h, if_false, List.map_cons, ih, List.lookup_cons, h2]
      split <;> simp

theorem MemStore.ranked_iff (s : MemStore) :
    s.Ranked ↔ (s.entries.map (·.2.rank)).Pairwise (· < ·) ∧
      ∀ x ∈ s.entries.map (·.2.rank), x < s.nextRank := by
  unfold MemStore.Ranked
  rw [List.pairwise_map]
  constructor
  · rintro ⟨h1, h2⟩
    refine ⟨h1, fun x hx => ?_⟩
    obtain ⟨e, he, rfl⟩ := List.mem_map.mp hx
    exact h2 e he
  · rintro ⟨h1, h2⟩
    exact ⟨h1, fun e he => h2 _ (List.mem_map_of_mem _ he)⟩

/-- The store with nothing in it is in the order of creation, and `SET` keeps a store so:
with `del`, every store the handlers can reach is. -/
theorem MemStore.ranked_set (s : MemStore) (k v : String) (o : SetOptions) (hr : s.Ranked) :
    (s.set k v o).Ranked := by
  have h0 := (s.ranked_iff).mp hr
  unfold MemStore.set
  by_cases hl : (s.entries.lookup k).isSome = true
  · by_cases hnx : o.NX = true
    · simpa [hl, hnx] using hr
    · rw [MemStore.ranked_iff]
      simpa [hl, hnx, upsert_ranks] using h0
  · rw [MemStore.ranked_iff]
    simp only [hl, Bool.false_eq_true, if_false, upsert_ranks]
    refine ⟨List.pairwise_append.mpr ⟨h0.1, List.pairwise_singleton _ _, ?_⟩, ?_⟩
    · intro a ha b hb
      simp only [List.mem_singleton] at hb
      subst hb
      exact h0.2 a ha
    · intro x hx
      rcases List.mem_append.mp hx with h1 | h1
      · have := h0.2 x h1
        omega
      · simp only [List.mem_singleton] at h1
        omega

theorem MemStore.ranked_empty : MemStore.empty.Ranked := by decide

/-! ## Failing cache writes and the invalidation scan -/

/-- C21, as stated, fails: when the fetch finds one event and the store cannot be reached, so
that the cache write fails, `getEvents` sends no response at all; its only effect is
`next(error)` with the error of the write. -/
theorem cache_write_failure_surfaces :
    getEvents closedClient (findConst [.obj [("title", .str "Expo")]])
        ⟨MemStore.empty, exampleRequest, []⟩ =
      .ok () ⟨MemStore.empty, exampleRequest, [.next (some clientClosedError)]⟩ := by
  rfl

/-- C21, amended.  Whatever the client and the state: when the fetch of `getEvents` gives a
non-empty list and the cache write fails with the error `e`, the handler ends with the store
as it was, sends no response, and its only effect is `next(e)`. -/
theorem cache_write_failure_forwarded (client : RedisClient σ)
    (find : List (String × JsVal) → Except JsError (List JsVal)) (st : HState σ)
    (events : List JsVal) (e : JsError)
    (hfind : find st.req.query = .ok events) (hne : events ≠ [])
    (hset : client.set st.store (eventsCacheKey st.req.query) (stringifyText (.arr events))
      cacheFillOptions = .error e) :
    getEvents client find st = .ok () { st with effects := st.effects ++ [.next (some e)] } := by
  have hl : events.length > 0 := List.length_pos.mpr hne
  simp only [getEvents, tryCatch, bind, Handler.bind, getReq, awaitDb, hfind, hl, if_true,
    redisSet, hset, next, emit]

theorem cache_write_failure_forwarded_witness :
    getEvents closedClient (findConst [.num 1]) ⟨MemStore.empty, exampleRequest, []⟩ =
      .ok () ⟨MemStore.empty, exampleRequest, [] ++ [.next (some clientClosedError)]⟩ :=
  cache_write_failure_forwarded closedClient (findConst [.num 1])
    ⟨MemStore.empty, exampleRequest, []⟩ [.num 1] clientClosedError rfl (by simp) rfl

/-- C22.  On the keyspace of twelve keys a first `scanKeys("0", "api-v1-events-*")` deletes
the events key of the first reply and leaves `api-v1-events-64f0c0ffee64f0c0ffee0001`, which comes with the
completion cursor; a second call right after it finds that key in its first reply, whose
cursor is not `0`, and deletes it: the second call passes a key to `del` and changes the
store. -/
theorem second_scan_deletes_more (fuel : Nat) :
    scanKeys memClient (fuel + 2) (.str "0") "api-v1-events-*"
        ⟨exampleKeyspace, exampleRequest, []⟩ =
      .ok () ⟨exampleKeyspace.del ["api-v1-events-\x7b\x7d"], exampleRequest, [scanGuardLog]⟩ ∧
    scanKeys memClient (fuel + 2) (.str "0") "api-v1-events-*"
        ⟨exampleKeyspace.del ["api-v1-events-\x7b\x7d"], exampleRequest, []⟩ =
      .ok () ⟨(exampleKeyspace.del ["api-v1-events-\x7b\x7d"]).del ["api-v1-events-64f0c0ffee64f0c0ffee0001"],
        exampleRequest, [scanGuardLog]⟩ ∧
    (exampleKeyspace.del ["api-v1-events-\x7b\x7d"]).get "api-v1-events-64f0c0ffee64f0c0ffee0001" = some "7" ∧
    ((exampleKeyspace.del ["api-v1-events-\x7b\x7d"]).del ["api-v1-events-64f0c0ffee64f0c0ffee0001"]).get
      "api-v1-events-64f0c0ffee64f0c0ffee0001" = none := by
  refine ⟨?_, ?_, by decide, by decide⟩
  · have h := scanKeysLoop_scanRounds memClient "api-v1-events-*" exampleRequest [] 1
      exampleKeyspace (exampleKeyspace.del ["api-v1-events-\x7b\x7d"]) (.str "0") (by rfl)
      (fuel + 2)
    simpa [scanKeys] using h
  · have h := scanKeysLoop_scanRounds memClient "api-v1-events-*" exampleRequest [] 1
      (exampleKeyspace.del ["api-v1-events-\x7b\x7d"])
      ((exampleKeyspace.del ["api-v1-events-\x7b\x7d"]).del ["api-v1-events-64f0c0ffee64f0c0ffee0001"]) (.str "0")
      (by rfl) (fuel + 2)
    simpa [scanKeys] using h

/-- C23.  When no key of the store matches the pattern, `scanKeys("0", pattern)` ends
normally once it has fuel for its rounds, with the store as it was, and it does so even
through a client whose `del` is arbitrary: `del` is never called. -/
theorem scan_without_matches (client : RedisClient MemStore) (glob : String) (s : MemStore)
    (req : Request) (es : List Effect)
    (hscan : ∀ (s0 : MemStore) cursor args, client.scan s0 cursor args = s0.scan cursor args)
    (hr : s.Ranked) (hno : ∀ e ∈ s.entries, globMatch glob.toList e.1.toList = false) :
    ∃ n, ∀ fuel, n < fuel →
      scanKeys client fuel (.str "0") glob ⟨s, req, es⟩ =
        .ok () ⟨s, req, es ++ [scanGuardLog]⟩ := by
  obtain ⟨n, hn⟩ := memScan_static client glob s hscan hr hno (s.pending 0).length (.str "0") 0
    cursorRank_initial (le_refl _)
  refine ⟨n, fun fuel hf => ?_⟩
  have h := scanKeysLoop_scanRounds client glob req es n s s (.str "0") hn fuel
  have hf2 : ¬ fuel ≤ n := by omega
  simpa [scanKeys, hf2] using h

theorem scan_without_matches_witness :
    ∃ n, ∀ fuel, n < fuel →
      scanKeys scanOnlyClient fuel (.str "0") "api-v1-tickets-*"
          ⟨exampleKeyspace, exampleRequest, []⟩ =
        .ok () ⟨exampleKeyspace, exampleRequest, [] ++ [scanGuardLog]⟩ :=
  scan_without_matches scanOnlyClient "api-v1-tickets-*" exampleKeyspace exampleRequest []
    (fun _ _ _ => rfl) (by decide) (by decide)

/-- C24.  Whatever the client: when the replies of `SCAN`, followed from the initial cursor
`"0"`, carry the completion cursor `0` for the first time in reply `n + 1`, `scanKeys` is
still running with fuel for `n` rounds or fewer and has ended, normally, with fuel for any
more: it sends exactly `n + 1` scans. -/
theorem scan_stops_at_completion (client : RedisClient σ) (glob : String) (n : Nat)
    (st : HState σ) (s1 : σ)
    (h : scanRounds client glob n st.store (.str "0") = some s1) (fuel : Nat) :
    scanKeys client fuel (.str "0") glob st =
      if fuel ≤ n then .running
      else .ok () ⟨s1, st.req, st.effects ++ [scanGuardLog]⟩ :=
  scanKeysLoop_scanRounds client glob st.req st.effects n st.store s1 (.str "0") h fuel

theorem scan_stops_at_completion_witness :
    scanKeys memClient 2 (.str "0") "api-v1-events-*" ⟨exampleKeyspace, exampleRequest, []⟩ =
      if 2 ≤ 1 then .running
      else .ok () ⟨exampleKeyspace.del ["api-v1-events-\x7b\x7d"], exampleRequest,
        [] ++ [scanGuardLog]⟩ :=
  scan_stops_at_completion memClient "api-v1-events-*" 1 ⟨exampleKeyspace, exampleRequest, []⟩
    (exampleKeyspace.del ["api-v1-events-\x7b\x7d"]) (by rfl) 2

/-- C25.  On the keyspace of twelve keys, `updateEvent` for the event
`64f0c0ffee64f0c0ffee0001` deletes the key of that event itself and scans for the pattern
`api-v1-events`, which has no wildcard and matches no key: the cached answer of the query
without filters stays in the store and `getEventsCacheData` serves it after the update.
`createEvent`, which scans for `api-v1-events-*`, deletes that key on the same keyspace. -/
theorem update_keeps_cached_queries (fuel : Nat) :
    updateEvent memClient (fuel + 2) exampleObjectId (fun _ => .ok (.str "event 1"))
        ⟨exampleKeyspace, exampleUpdate, []⟩ =
      .ok () ⟨exampleKeyspace.del ["api-v1-events-64f0c0ffee64f0c0ffee0001"], exampleUpdate,
        [scanGuardLog, .respond 200 (.obj [("message", .str "Event updated successfully"),
          ("event", .str "event 1")])]⟩ ∧
    getEventsCacheData exampleBuiltins memClient
        ⟨exampleKeyspace.del ["api-v1-events-64f0c0ffee64f0c0ffee0001"], exampleRequest, []⟩ =
      .ok () ⟨exampleKeyspace.del ["api-v1-events-64f0c0ffee64f0c0ffee0001"], exampleRequest,
        [.respond 200 (successBody true "data" (.arr [.num 1]))]⟩ ∧
    createEvent memClient (fuel + 2) (.ok (.str "event 2"))
        ⟨exampleKeyspace, exampleRequest, []⟩ =
      .ok () ⟨exampleKeyspace.del ["api-v1-events-\x7b\x7d"], exampleRequest,
        [scanGuardLog, .respond 201 (.obj [("message", .str "Event created successfully"),
          ("event", .str "event 2")])]⟩ := by
  have h1 := scanKeysLoop_scanRounds memClient "api-v1-events" exampleUpdate [] 1
    (exampleKeyspace.del ["api-v1-events-64f0c0ffee64f0c0ffee0001"])
    (exampleKeyspace.del ["api-v1-events-64f0c0ffee64f0c0ffee0001"])
    (.str "0") (by rfl) (fuel + 2)
  have h2 := scanKeysLoop_scanRounds memClient "api-v1-events-*" exampleRequest [] 1
    exampleKeyspace (exampleKeyspace.del ["api-v1-events-\x7b\x7d"]) (.str "0") (by rfl)
    (fuel + 2)
  simp only [show ¬ fuel + 2 ≤ 1 by omega, if_false] at h1 h2
  have hid : exampleObjectId exampleUpdate.id = .ok () := by rfl
  refine ⟨?_, by rfl, ?_⟩
  · simp only [updateEvent, tryCatch, bind, Handler.bind, getReq, hid, liftRes, awaitDb,
      promiseAll, redisDel, memClient_del, scanKeys, Handler.pure, respond, emit]
    have hk : "api-v1-events-" ++ exampleUpdate.id = "api-v1-events-64f0c0ffee64f0c0ffee0001" := by
      rfl
    simp only [hk]
    simp [h1]
  · simp only [createEvent, tryCatch, bind, Handler.bind, awaitDb, scanKeys, respond, emit]
    simp [h2]

/-- C26.  The list key that `getArtsWork` fills has the prefix `api-v1-arts-`, which the
pattern `api-v1-art-*` of `deleteArtWork` does not match, whatever the query; on the
keyspace of twelve keys a scan for that pattern deletes the by-id key `api-v1-art-64f0c0ffee64f0c0ffee0002` and
leaves the list key.  The by-id key of `getArtWork` and both keys of the users handlers do
match the pattern of their family. -/
theorem arts_list_key_not_covered (req : Request) (doc : JsVal) (docs : List JsVal)
    (fuel : Nat) :
    getArtsWork memClient (findConst (doc :: docs)) ⟨MemStore.empty, req, []⟩ =
      .ok () ⟨MemStore.empty.set ("api-v1-arts-" ++ stringifyText (.obj req.query))
        (stringifyText (.arr (doc :: docs))) cacheFillOptions, req,
        [.respond 200 (successBody false "arts" (.arr (doc :: docs)))]⟩ ∧
    globMatch deleteArtWork.cacheKeys.toList
      ("api-v1-arts-" ++ stringifyText (.obj req.query)).toList = false ∧
    scanKeys memClient (fuel + 2) (.str "0") deleteArtWork.cacheKeys
        ⟨exampleKeyspace, exampleRequest, []⟩ =
      .ok () ⟨exampleKeyspace.del ["api-v1-art-64f0c0ffee64f0c0ffee0002"], exampleRequest, [scanGuardLog]⟩ ∧
    (exampleKeyspace.del ["api-v1-art-64f0c0ffee64f0c0ffee0002"]).get "api-v1-arts-\x7b\x7d" = some "[2]" ∧
    globMatch deleteArtWork.cacheKeys.toList ("api-v1-art-" ++ req.id).toList = true ∧
    globMatch deleteUser.pattern.toList ("api-v1-users-" ++ req.id).toList = true ∧
    globMatch deleteUser.pattern.toList (usersCacheKey req.query).toList = true := by
  have hany : ∀ t : List Char, anySuffix (fun x => x.isEmpty) t = true := by
    intro t
    induction t with
    | nil => rfl
    | cons c t ih => simp [anySuffix, ih]
  have h2 := scanKeysLoop_scanRounds memClient "api-v1-art-*" exampleRequest [] 1
    exampleKeyspace (exampleKeyspace.del ["api-v1-art-64f0c0ffee64f0c0ffee0002"]) (.str "0") (by rfl) (fuel + 2)
  simp only [show ¬ fuel + 2 ≤ 1 by omega, if_false] at h2
  refine ⟨getArtsWork_fill _ _ _ (by simp), ?_, ?_, by decide, ?_, ?_, ?_⟩
  · have hp : deleteArtWork.cacheKeys.toList =
        ['a', 'p', 'i', '-', 'v', '1', '-', 'a', 'r', 't', '-', '*'] := by rfl
    have hk : ("api-v1-arts-" ++ stringifyText (.obj req.query)).toList =
        ['a', 'p', 'i', '-', 'v', '1', '-', 'a', 'r', 't', 's', '-'] ++
          (stringifyText (.obj req.query)).toList := by
      show (_ ++ _ : String).data = _
      rw [String.data_append]; rfl
    rw [hp, hk]
    simp [globMatch]
  · simpa [scanKeys, deleteArtWork.cacheKeys] using h2
  · have hp : deleteArtWork.cacheKeys.toList =
        ['a', 'p', 'i', '-', 'v', '1', '-', 'a', 'r', 't', '-', '*'] := by rfl
    have hk : ("api-v1-art-" ++ req.id).toList =
        ['a', 'p', 'i', '-', 'v', '1', '-', 'a', 'r', 't', '-'] ++ req.id.toList := by
      show (_ ++ _ : String).data = _
      rw [String.data_append]; rfl
    rw [hp, hk]
    simp [globMatch, hany]
  · have hp : deleteUser.pattern.toList =
        ['a', 'p', 'i', '-', 'v', '1', '-', 'u', 's', 'e', 'r', 's', '-', '*'] := by rfl
    have hk : ("api-v1-users-" ++ req.id).toList =
        ['a', 'p', 'i', '-', 'v', '1', '-', 'u', 's', 'e', 'r', 's', '-'] ++ req.id.toList := by
      show (_ ++ _ : String).data = _
      rw [String.data_append]; rfl
    rw [hp, hk]
    simp [globMatch, hany]
  · have hp : deleteUser.pattern.toList =
        ['a', 'p', 'i', '-', 'v', '1', '-', 'u', 's', 'e', 'r', 's', '-', '*'] := by rfl
    have hk : (usersCacheKey req.query).toList =
        ['a', 'p', 'i', '-', 'v', '1', '-', 'u', 's', 'e', 'r', 's', '-'] ++
          "[object Object]".toList := by
      rfl
    rw [hp, hk]
    simp [globMatch, hany]

/-! ## More on the runs of the rate limiter -/

/-- The in-window total the limiter computes from a record it wrote. -/
theorem inWindowTotal_recordText (r : List (Int × Int)) (m : Moment) :
    inWindowTotal (recordText r) m = .ok (some (windowTotal (m.unix - 86400) r)) := by
  simp [inWindowTotal, jsonParse_recordText, JsRes.bind, recordOf, asArray,
    unix_subtractHours_window, filterWithinWindow_record, sumRequestCounts_record, windowTotal]

/-- The invariant `Counted` holds along a run. -/
theorem runRecord_counted (ts : List Int) :
    ∀ (r : List (Int × Int)) (past : List Int), r ≠ [] → Counted past r →
      Counted (past ++ runAllowed ts r) (runRecord ts r) := by
  induction ts with
  | nil =>
    intro r past _ hc
    simpa [runAllowed, runRecord] using hc
  | cons now ts ih =>
    intro r past hr hc
    by_cases ht : windowTotal (now - 86400) r ≥ 5
    · simpa [runAllowed, runRecord, stepRecord, ht] using ih r past hr hc
    · obtain ⟨last, hl⟩ : ∃ last, r.getLast? = some last := by
        cases hl : r.getLast? with
        | none => exact absurd (List.getLast?_eq_none_iff.mp hl) hr
        | some last => exact ⟨last, rfl⟩
      have hstep : stepRecord now r = nextRecord now r last := by
        simp [stepRecord, ht, hl]
      have := ih (nextRecord now r last) (past ++ [now])
        (by rw [← hstep]; exact stepRecord_ne_nil _ _ hr) (counted_step past r last now hl hc)
      simpa [runAllowed, runRecord, ht, hstep] using this

theorem counted_first (t : Int) : Counted [t] [(t, 1)] := by
  intro x
  by_cases hx : x + 3600 < t
  · have hx2 : t > x := by omega
    simp [countAfter, List.filter, hx, windowTotal, hx2]
  · simp only [countAfter, List.filter, hx, decide_False, List.length_nil, Nat.cast_zero]
    simp only [windowTotal, List.filter]
    split <;> simp

theorem totalCount_nextRecord (now : Int) (r : List (Int × Int)) (last : Int × Int)
    (hl : r.getLast? = some last) : totalCount (nextRecord now r last) = totalCount r + 1 := by
  have hr := dropLast_append_last r last hl
  have h1 : totalCount r = totalCount r.dropLast + last.2 := by
    conv_lhs => rw [← hr]
    simp [totalCount]
  unfold nextRecord
  split
  · rw [h1]
    simp [totalCount]
    omega
  · simp [totalCount]

/-- Along a run the counts of the record add up to what they were plus the number of the
requests that were allowed. -/
theorem totalCount_runRecord (ts : List Int) :
    ∀ r : List (Int × Int), r ≠ [] →
      totalCount (runRecord ts r) = totalCount r + (runAllowed ts r).length := by
  induction ts with
  | nil => intro r _; simp [runRecord, runAllowed]
  | cons now ts ih =>
    intro r hr
    by_cases ht : windowTotal (now - 86400) r ≥ 5
    · simpa [runAllowed, runRecord, stepRecord, ht] using ih r hr
    · obtain ⟨last, hl⟩ : ∃ last, r.getLast? = some last := by
        cases hl : r.getLast? with
        | none => exact absurd (List.getLast?_eq_none_iff.mp hl) hr
        | some last => exact ⟨last, rfl⟩
      have hstep : stepRecord now r = nextRecord now r last := by
        simp [stepRecord, ht, hl]
      have := ih (nextRecord now r last) (by rw [← hstep]; exact stepRecord_ne_nil _ _ hr)
      rw [totalCount_nextRecord now r last hl] at this
      simp only [runAllowed, runRecord, ht, hstep, if_false, List.length_cons, this]
      push_cast
      omega

theorem runRecord_ne_nil (ts : List Int) :
    ∀ r : List (Int × Int), r ≠ [] → runRecord ts r ≠ [] := by
  induction ts with
  | nil => intro r hr; simpa [runRecord] using hr
  | cons now ts ih => intro r hr; exact ih _ (stepRecord_ne_nil now r hr)

theorem counts_pos_runRecord (ts : List Int) :
    ∀ r : List (Int × Int), (∀ e ∈ r, 1 ≤ e.2) → ∀ e ∈ runRecord ts r, 1 ≤ e.2 := by
  induction ts with
  | nil => intro r hj; simpa [runRecord] using hj
  | cons now ts ih => intro r hj; exact ih _ (counts_pos_stepRecord now r hj)

/-- In a run from a record the limiter wrote, every request either passes or is rejected:
none ends in `next(error)`. -/
theorem serveAll_limiter_outcomes (req : Request) (ms : List Moment) :
    ∀ (s : MemStore) (r : List (Int × Int)), r ≠ [] → s.get req.ip = some (recordText r) →
      ∃ outs s1, serveAll limiter req ms s = some (outs, s1) ∧
        ∀ out ∈ outs, out = [.next none] ∨ out = rejectionEffects req := by
  induction ms with
  | nil =>
    intro s r _ _
    exact ⟨[], s, rfl, by simp⟩
  | cons m ms ih =>
    intro s r hr h
    obtain ⟨last, hl⟩ : ∃ last, r.getLast? = some last := by
      cases hl : r.getLast? with
      | none => exact absurd (List.getLast?_eq_none_iff.mp hl) hr
      | some last => exact ⟨last, rfl⟩
    by_cases ht : windowTotal (m.unix - 86400) r ≥ 5
    · obtain ⟨outs, s1, h1, h2⟩ := ih s r hr h
      refine ⟨rejectionEffects req :: outs, s1, ?_, ?_⟩
      · rw [serveAll_limiter_reject req s m ms r last h hl ht, h1]; rfl
      · intro out hout
        rcases List.mem_cons.mp hout with h3 | h3
        · exact Or.inr h3
        · exact h2 out h3
    · have hlt : windowTotal (m.unix - 86400) r < 5 := by omega
      have hne : nextRecord m.unix r last ≠ [] := by
        unfold nextRecord
        split <;> simp
      obtain ⟨outs, s1, h1, h2⟩ := ih (s.set req.ip (recordText (nextRecord m.unix r last)) {})
        (nextRecord m.unix r last) hne (MemStore.get_set _ _ _)
      refine ⟨[.next none] :: outs, s1, ?_, ?_⟩
      · rw [serveAll_limiter_pass req s m ms r last h hl hlt, h1]; rfl
      · intro out hout
        rcases List.mem_cons.mp hout with h3 | h3
        · exact Or.inl h3
        · exact h2 out h3

/-! ## What the rate limiter keeps along a run, and the frame of the scan -/

/-- C27.  In every sequential run of the limiter for a client with no stored record every
request ends normally; for any later request, the in-window total the limiter then computes
from the record counts every allowed request made less than 82800 seconds (the window less
one log interval) before it; and so for every time `T` at most 5 of the allowed requests lie
in the trailing window `(T - 82800, T]`.  The request times need not even be ordered. -/
theorem allowed_requests_stay_counted (req : Request) (s : MemStore) (m : Moment)
    (ms : List Moment) (later : Moment) (T : Int) (h : s.get req.ip = none) :
    ∃ outs s1 record total, serveAll limiter req (m :: ms) s = some (outs, s1) ∧
      s1.get req.ip = some record ∧
      inWindowTotal record later = .ok (some total) ∧
      (countAfter (later.unix - (WINDOW_SIZE_IN_HOURS - WINDOW_LOG_INTERVAL_IN_HOURS) * 3600)
        (allowedTimes (m :: ms) outs) : Int) ≤ total ∧
      (countIn ((WINDOW_SIZE_IN_HOURS - WINDOW_LOG_INTERVAL_IN_HOURS) * 3600) T
        (allowedTimes (m :: ms) outs) : Int) ≤ MAX_WINDOW_REQUEST_COUNT := by
  have hw : (WINDOW_SIZE_IN_HOURS - WINDOW_LOG_INTERVAL_IN_HOURS) * 3600 = 82800 := by decide
  rw [hw]
  obtain ⟨outs, s1, h1, h2, h3⟩ := serveAll_limiter_fresh req s m ms h
  refine ⟨outs, s1, _, _, h1, h2, inWindowTotal_recordText _ later, ?_, ?_⟩
  · rw [h3]
    have hc := runRecord_counted (ms.map Moment.unix) [(m.unix, 1)] [m.unix] (by simp)
      (counted_first m.unix) (later.unix - 86400)
    have he : later.unix - 86400 + 3600 = later.unix - 82800 := by omega
    rw [he] at hc
    simpa using hc
  · rw [h3]
    have hcap : ∀ T, countIn 82800 T [m.unix] ≤ 5 := by
      intro T
      simp only [countIn, List.filter]
      split <;> simp
    have := runAllowed_cap (ms.map Moment.unix) [(m.unix, 1)] [m.unix] (by simp)
      (counted_first m.unix) hcap T
    simp only [List.singleton_append] at this
    simp only [MAX_WINDOW_REQUEST_COUNT]
    exact_mod_cast this

theorem allowed_requests_stay_counted_witness :
    ∃ outs s1 record total, serveAll limiter exampleRequest
        (atSecond 0 :: [atSecond 3599, atSecond 7200]) MemStore.empty = some (outs, s1) ∧
      s1.get exampleRequest.ip = some record ∧
      inWindowTotal record (atSecond 80000) = .ok (some total) ∧
      (countAfter ((atSecond 80000).unix -
          (WINDOW_SIZE_IN_HOURS - WINDOW_LOG_INTERVAL_IN_HOURS) * 3600)
        (allowedTimes (atSecond 0 :: [atSecond 3599, atSecond 7200]) outs) : Int) ≤ total ∧
      (countIn ((WINDOW_SIZE_IN_HOURS - WINDOW_LOG_INTERVAL_IN_HOURS) * 3600) 7200
        (allowedTimes (atSecond 0 :: [atSecond 3599, atSecond 7200]) outs) : Int) ≤
        MAX_WINDOW_REQUEST_COUNT :=
  allowed_requests_stay_counted exampleRequest MemStore.empty (atSecond 0)
    [atSecond 3599, atSecond 7200] (atSecond 80000) 7200 rfl

/-- C28.  Count conservation.  After every sequential run of the limiter for a client with
no stored record, the counts of all entries of the stored record, expired ones included, add
up to the number of the requests of the run that were allowed; and a request that finds a
non-empty record the limiter wrote leaves a record whose counts add up to one more when it
is allowed and to the same when it is rejected. -/
theorem count_conservation (req : Request) (s : MemStore) (m : Moment) (ms : List Moment)
    (h : s.get req.ip = none) :
    (∃ outs s1 r, serveAll limiter req (m :: ms) s = some (outs, s1) ∧
      s1.get req.ip = some (recordText r) ∧
      totalCount r = (allowedTimes (m :: ms) outs).length) ∧
    ∀ (s2 : MemStore) (r : List (Int × Int)) (now : Moment), r ≠ [] →
      s2.get req.ip = some (recordText r) →
      ∃ out s3 r1, limiter now ⟨s2, req, []⟩ = .ok () ⟨s3, req, out⟩ ∧
        s3.get req.ip = some (recordText r1) ∧
        totalCount r1 = totalCount r + (if allowed out then 1 else 0) := by
  constructor
  · obtain ⟨outs, s1, h1, h2, h3⟩ := serveAll_limiter_fresh req s m ms h
    refine ⟨outs, s1, _, h1, h2, ?_⟩
    rw [h3, totalCount_runRecord _ _ (by simp)]
    simp only [totalCount, List.map_cons, List.map_nil, List.sum_cons, List.sum_nil,
      List.length_cons]
    push_cast
    omega
  · intro s2 r now hr h2
    obtain ⟨last, hl⟩ : ∃ last, r.getLast? = some last := by
      cases hl : r.getLast? with
      | none => exact absurd (List.getLast?_eq_none_iff.mp hl) hr
      | some last => exact ⟨last, rfl⟩
    have hstep := limiter_step req s2 now now [] r last h2 hl
    by_cases ht : windowTotal (now.unix - 86400) r ≥ 5
    · refine ⟨rejectionEffects req, s2, r, ?_, h2, ?_⟩
      · simpa [limiter, ht] using hstep
      · simp [allowed_rejectionEffects]
    · refine ⟨[.next none], s2.set req.ip (recordText (nextRecord now.unix r last)) {},
        nextRecord now.unix r last, ?_, MemStore.get_set _ _ _, ?_⟩
      · simpa [limiter, ht] using hstep
      · simp [allowed, totalCount_nextRecord now.unix r last hl]

theorem count_conservation_witness :
    (∃ outs s1 r, serveAll limiter exampleRequest
        (atSecond 0 :: [atSecond 1, atSecond 2, atSecond 3, atSecond 4, atSecond 5])
        MemStore.empty = some (outs, s1) ∧
      s1.get exampleRequest.ip = some (recordText r) ∧
      totalCount r = (allowedTimes
        (atSecond 0 :: [atSecond 1, atSecond 2, atSecond 3, atSecond 4, atSecond 5])
        outs).length) ∧
    ∀ (s2 : MemStore) (r : List (Int × Int)) (now : Moment), r ≠ [] →
      s2.get exampleRequest.ip = some (recordText r) →
      ∃ out s3 r1, limiter now ⟨s2, exampleRequest, []⟩ = .ok () ⟨s3, exampleRequest, out⟩ ∧
        s3.get exampleRequest.ip = some (recordText r1) ∧
        totalCount r1 = totalCount r + (if allowed out then 1 else 0) :=
  count_conservation exampleRequest MemStore.empty (atSecond 0)
    [atSecond 1, atSecond 2, atSecond 3, atSecond 4, atSecond 5] rfl

/-- C29.  After every sequential run of the limiter for a client with no stored record the
stored record is a non-empty list whose entries all count at least one request, and every
request of the run either passed or was rejected with 429: none ended in `next(error)`.  A
foreign record, the stored text `[]`, makes the read of the last entry fail: the request
ends in `next(error)` with a `TypeError` and the store as it was. -/
theorem last_entry_lookup_safe (req : Request) (s : MemStore) (m : Moment) (ms : List Moment)
    (h : s.get req.ip = none) :
    (∃ outs s1 r, serveAll limiter req (m :: ms) s = some (outs, s1) ∧
      s1.get req.ip = some (recordText r) ∧ r ≠ [] ∧ (∀ e ∈ r, 1 ≤ e.2) ∧
      ∀ out ∈ outs, out = [.next none] ∨ out = rejectionEffects req) ∧
    ∀ (s2 : MemStore) (es : List Effect), s2.get req.ip = some "[]" →
      limiter m ⟨s2, req, es⟩ = .ok () ⟨s2, req, es ++ [.next (some (typeError
        "Cannot read properties of undefined (reading requestTimeStamp)"))]⟩ := by
  constructor
  · obtain ⟨outs, s1, h1, h2, _⟩ := serveAll_limiter_fresh req s m ms h
    obtain ⟨outs2, s2, h4, h5⟩ := serveAll_limiter_outcomes req ms
      (s.set req.ip (recordText [(m.unix, 1)]) {}) [(m.unix, 1)] (by simp)
      (MemStore.get_set _ _ _)
    have h6 : outs = [.next none] :: outs2 := by
      rw [serveAll_limiter_first req s m ms h, h4] at h1
      simp only [Option.map_some', Option.some.injEq, Prod.mk.injEq] at h1
      exact h1.1.symm
    refine ⟨outs, s1, _, h1, h2, runRecord_ne_nil _ _ (by simp),
      counts_pos_runRecord _ _ (by simp), ?_⟩
    intro out hout
    rw [h6] at hout
    rcases List.mem_cons.mp hout with h7 | h7
    · exact Or.inl h7
    · exact h5 out h7
  · intro s2 es h2
    have hp : jsonParse "[]" = .ok (.arr []) := by rfl
    simp [limiter, customRedisRateLimiter, tryCatch, bind, Handler.bind, getReq, redisGet,
      memClient_get, h2, liftRes, hp, asArray, filterWithinWindow, sumRequestCounts, geNum,
      MAX_WINDOW_REQUEST_COUNT, lastOf, getProp, typeError, next, emit]

theorem last_entry_lookup_safe_witness :
    (∃ outs s1 r, serveAll limiter exampleRequest (atSecond 0 :: [atSecond 1]) MemStore.empty =
        some (outs, s1) ∧
      s1.get exampleRequest.ip = some (recordText r) ∧ r ≠ [] ∧ (∀ e ∈ r, 1 ≤ e.2) ∧
      ∀ out ∈ outs, out = [.next none] ∨ out = rejectionEffects exampleRequest) ∧
    ∀ (s2 : MemStore) (es : List Effect), s2.get exampleRequest.ip = some "[]" →
      limiter (atSecond 0) ⟨s2, exampleRequest, es⟩ =
        .ok () ⟨s2, exampleRequest, es ++ [.next (some (typeError
          "Cannot read properties of undefined (reading requestTimeStamp)"))]⟩ :=
  last_entry_lookup_safe exampleRequest MemStore.empty (atSecond 0) [atSecond 1] rfl

/-- C30.  For every store in front of a reachable client and every pattern, `scanKeys("0",
pattern)` ends normally once it has fuel for its rounds, and every key that does not match
the pattern, which no scan reply returns, has the entry it had: value, time to live and
rank. -/
theorem scan_leaves_other_keys (glob : String) (s : MemStore) (req : Request)
    (es : List Effect) (hr : s.Ranked) :
    ∃ n s1, (∀ fuel, n < fuel →
        scanKeys memClient fuel (.str "0") glob ⟨s, req, es⟩ =
          .ok () ⟨s1, req, es ++ [scanGuardLog]⟩) ∧
      ∀ key : String, globMatch glob.toList key.toList = false →
        s1.entries.lookup key = s.entries.lookup key := by
  obtain ⟨n, s1, hn⟩ := memScan_completes glob (s.pending 0).length s (.str "0") 0
    cursorRank_initial hr (le_refl _)
  have hrun := scanKeysLoop_scanRounds memClient glob req es n s s1 (.str "0") hn
  refine ⟨n, s1, fun fuel hf => ?_, ?_⟩
  · have hf2 : ¬ fuel ≤ n := by omega
    simpa [scanKeys, hf2] using hrun fuel
  · have hinv := scanKeysLoop_invariant memClient glob
      (fun s0 : MemStore => ∀ key : String, globMatch glob.toList key.toList = false →
        s0.entries.lookup key = s.entries.lookup key)
      (by
        intro s0 cursor reply keys s2 h0 hscan hk hdel key hkey
        have hm := s0.scan_keys_match cursor glob reply keys hscan hk
        have hnot : key ∉ keys := fun hin => by
          rw [hm key hin] at hkey
          exact absurd hkey (by simp)
        rw [memClient_del] at hdel
        injection hdel with hdel
        subst hdel
        rw [← h0 key hkey]
        exact lookup_del s0.entries keys key hnot)
      (n + 1) (.str "0") ⟨s, req, es⟩ (fun _ _ => rfl)
    rw [hrun (n + 1)] at hinv
    simpa using hinv

theorem scan_leaves_other_keys_witness :
    ∃ n s1, (∀ fuel, n < fuel →
        scanKeys memClient fuel (.str "0") "api-v1-events-*"
            ⟨exampleKeyspace, exampleRequest, []⟩ =
          .ok () ⟨s1, exampleRequest, [] ++ [scanGuardLog]⟩) ∧
      ∀ key : String, globMatch "api-v1-events-*".toList key.toList = false →
        s1.entries.lookup key = exampleKeyspace.entries.lookup key :=
  scan_leaves_other_keys "api-v1-events-*" exampleKeyspace exampleRequest [] (by decide)

end Gallery
